import Mathlib

/-!
# BinaRena: rendering and selection engine

A shallow embedding of the point-cloud renderer, the transform pipeline and the
hit-tester of `static/js/render.js`, `static/js/display.js` and
`static/js/util.js`, followed by the properties established about them.

A finite JavaScript number is a rational, and the three IEEE special values
`Infinity`, `-Infinity` and `NaN` are kept, so that division by zero and `NaN`
propagation are visible. The operators `+ - * /` of the embedding are exact;
where the rounding of binary64 decides a property (the x and y transforms, the
zoom handlers, the size thresholds of the renderer, `Math.pow`, `parseInt` and
`unscale`) the exact result is rounded by `JSNum.fl`. Zero carries no sign (a
division of a non-zero number by zero takes the sign of the numerator).
-/

namespace Binarena

/-! ## JavaScript numbers -/

/-- A JavaScript number: a finite (rational) value, `Infinity`, `-Infinity` or `NaN`. -/
inductive JSNum where
  | fin (q : ℚ)
  | pinf
  | ninf
  | nan
  deriving DecidableEq

namespace JSNum

instance : Inhabited JSNum := ⟨nan⟩

instance (n : Nat) : OfNat JSNum n := ⟨fin n⟩

/-- Unary minus. -/
def neg : JSNum → JSNum
  | fin a => fin (-a)
  | pinf => ninf
  | ninf => pinf
  | nan => nan

/-- The `+` operator on numbers. -/
def add : JSNum → JSNum → JSNum
  | fin a, fin b => fin (a + b)
  | nan, _ => nan
  | _, nan => nan
  | pinf, ninf => nan
  | ninf, pinf => nan
  | pinf, _ => pinf
  | _, pinf => pinf
  | ninf, _ => ninf
  | _, ninf => ninf

/-- The `-` operator on numbers. -/
def sub (a b : JSNum) : JSNum := add a (neg b)

/-- The `*` operator on numbers. -/
def mul : JSNum → JSNum → JSNum
  | fin a, fin b => fin (a * b)
  | nan, _ => nan
  | _, nan => nan
  | pinf, fin b => if b = 0 then nan else if 0 < b then pinf else ninf
  | ninf, fin b => if b = 0 then nan else if 0 < b then ninf else pinf
  | fin a, pinf => if a = 0 then nan else if 0 < a then pinf else ninf
  | fin a, ninf => if a = 0 then nan else if 0 < a then ninf else pinf
  | pinf, pinf => pinf
  | ninf, ninf => pinf
  | pinf, ninf => ninf
  | ninf, pinf => ninf

/-- The `/` operator on numbers. -/
def div : JSNum → JSNum → JSNum
  | fin a, fin b =>
    if b = 0 then (if a = 0 then nan else if 0 < a then pinf else ninf)
    else fin (a / b)
  | nan, _ => nan
  | _, nan => nan
  | fin _, pinf => fin 0
  | fin _, ninf => fin 0
  | pinf, fin b => if 0 ≤ b then pinf else ninf
  | ninf, fin b => if 0 ≤ b then ninf else pinf
  | pinf, pinf => nan
  | pinf, ninf => nan
  | ninf, pinf => nan
  | ninf, ninf => nan

instance : Neg JSNum := ⟨neg⟩

instance : Add JSNum := ⟨add⟩

instance : Sub JSNum := ⟨sub⟩

instance : Mul JSNum := ⟨mul⟩

instance : Div JSNum := ⟨div⟩

/-- The literal `0.5`. -/
def half : JSNum := fin (1 / 2)

/-- The `<` operator on numbers; false as soon as one side is `NaN`. -/
def lt : JSNum → JSNum → Bool
  | fin a, fin b => decide (a < b)
  | fin _, pinf => true
  | ninf, fin _ => true
  | ninf, pinf => true
  | _, _ => false

/-- The `>` operator on numbers. -/
def gt (a b : JSNum) : Bool := lt b a

/-- The `<=` operator on numbers; false as soon as one side is `NaN`. -/
def le : JSNum → JSNum → Bool
  | fin a, fin b => decide (a ≤ b)
  | nan, _ => false
  | _, nan => false
  | ninf, _ => true
  | _, pinf => true
  | _, _ => false

/-- The test `val === val`, false exactly for `NaN`. -/
def selfEq : JSNum → Bool
  | nan => false
  | _ => true

/-- Truthiness of a number: every number but `0` and `NaN`. -/
def truthy : JSNum → Bool
  | fin a => decide (a ≠ 0)
  | nan => false
  | _ => true

/-- Whether the number is finite (`isFinite`). -/
def isFinite : JSNum → Bool
  | fin _ => true
  | _ => false

/-- `Math.round`: the nearest integer, a tie going up. -/
def round : JSNum → JSNum
  | fin a => fin (⌊a + 1 / 2⌋ : ℤ)
  | x => x

/-- `Math.abs`. -/
def abs : JSNum → JSNum
  | fin a => fin |a|
  | nan => nan
  | _ => pinf

/-- A power with a natural exponent, by repeated multiplication; the exponent
`0` gives `1` for every base, as `Math.pow` does. -/
def powNat (x : JSNum) : Nat → JSNum
  | 0 => fin 1
  | 1 => x
  | n + 2 => mul (powNat x (n + 1)) x

end JSNum

/-! ## Binary floating point

The operations of the program whose rounding decides a property stated below (the x and y
transforms, the zoom handlers, the thresholds of the renderer, `Math.pow` and `unscale`)
round their result to the nearest number of the runtime, a binary64 value, by
`JSNum.fl`; the other operations are exact. -/

/-- The power `2^e` of an integer exponent. -/
def pow2 (e : ℤ) : ℚ :=
  if 0 ≤ e then ((2 ^ e.toNat : ℕ) : ℚ) else 1 / ((2 ^ (-e).toNat : ℕ) : ℚ)

/-- The integer nearest to `x`, the even one of two equally near. -/
def roundEven (x : ℚ) : ℤ :=
  if x - ⌊x⌋ < 1 / 2 then ⌊x⌋
  else if 1 / 2 < x - ⌊x⌋ then ⌊x⌋ + 1
  else if ⌊x⌋ % 2 = 0 then ⌊x⌋ else ⌊x⌋ + 1

/-- The number of halvings that take `n` below 2, at most `fuel` of them. -/
def log2Aux : Nat → Nat → Nat
  | 0, _ => 0
  | fuel + 1, n => if n < 2 then 0 else log2Aux fuel (n / 2) + 1

/-- The position of the leading bit of a natural number other than `0`. -/
def bitLog (n : Nat) : Nat := log2Aux n n

/-- The binary exponent of a number other than `0`: the `k` with `2^k ≤ |q| < 2^(k+1)`. -/
def binExp (q : ℚ) : ℤ :=
  if pow2 ((bitLog q.num.natAbs : ℤ) - (bitLog q.den : ℤ)) ≤ |q| then
    (bitLog q.num.natAbs : ℤ) - (bitLog q.den : ℤ)
  else (bitLog q.num.natAbs : ℤ) - (bitLog q.den : ℤ) - 1

/-- The exponent of the unit in the last place of the binary64 values around `q`: 52 below
the binary exponent, and -1074 in the subnormal range. -/
def ulpExp (q : ℚ) : ℤ := max (binExp q - 52) (-1074)

/-- The multiple of the unit in the last place nearest to `q`, ties to even: the binary64
value nearest to `q` when that is finite. -/
def roundDouble (q : ℚ) : ℚ := (roundEven (q / pow2 (ulpExp q)) : ℚ) * pow2 (ulpExp q)

/-- The rounding of an exact result to a number of the runtime: the nearest binary64
value, an infinity when that has the magnitude `2^1024` or more. -/
def JSNum.ofExact (q : ℚ) : JSNum :=
  if pow2 1024 ≤ |roundDouble q| then (if 0 < q then .pinf else .ninf)
  else .fin (roundDouble q)

/-- The rounding of the exact result of an operation. -/
def JSNum.fl : JSNum → JSNum
  | .fin q => JSNum.ofExact q
  | x => x

/-- The integer square root by bisection between `lo` and `hi`. -/
def isqrtAux : Nat → Nat → Nat → Nat → Nat
  | 0, lo, _, _ => lo
  | fuel + 1, lo, hi, n =>
    if hi ≤ lo + 1 then lo
    else if ((lo + hi) / 2) * ((lo + hi) / 2) ≤ n then isqrtAux fuel ((lo + hi) / 2) hi n
    else isqrtAux fuel lo ((lo + hi) / 2) n

/-- The largest natural number whose square is at most `n`. -/
def isqrt (n : Nat) : Nat := isqrtAux (n + 1) 0 (n + 1) n

/-- The binary64 value nearest to the square root of a positive number `q`: with `e` the
exponent of the last place of the root, the integer nearest to the root of `q / 4^e`,
found from the integer square root `f` by comparing `q / 4^e` with `(f + 1/2)^2`. -/
def sqrtDouble (q : ℚ) : ℚ :=
  let e : ℤ := binExp q / 2 - 52
  let t : ℚ := q / pow2 (2 * e)
  let f : ℕ := isqrt ⌊t⌋.toNat
  let m : ℕ :=
    if t < ((f : ℚ) + 1 / 2) ^ 2 then f
    else if ((f : ℚ) + 1 / 2) ^ 2 < t then f + 1
    else if f % 2 = 0 then f else f + 1
  (m : ℚ) * pow2 e

/-- `Math.sqrt` as IEEE 754 defines it, correctly rounded. -/
def JSNum.sqrtIEEE : JSNum → JSNum
  | .fin q => if q < 0 then .nan else if q = 0 then .fin 0 else .fin (sqrtDouble q)
  | .pinf => .pinf
  | _ => .nan

/-- The value of `Math.PI`, the binary64 value nearest to π. -/
def piDouble : ℚ := 884279719003555 / 2 ^ 48

/-! ## Strings produced by `toFixed(2)` -/

/-- The string `Number.prototype.toFixed(2)` returns, kept in structured form:
`dec neg n` is the decimal numeral of `n / 100` with two decimals, preceded by
`-` when `neg`; `big q` is the plain numeral of a number of magnitude at least
`10^21`, which `toFixed` does not round; the last three are `"Infinity"`,
`"-Infinity"` and `"NaN"`. -/
inductive Fixed2 where
  | dec (neg : Bool) (n : ℕ)
  | big (q : ℚ)
  | pinf
  | ninf
  | nan
  deriving DecidableEq

/-- The call `x.toFixed(2)`: a negative number is rounded on its magnitude, and of two
equally near candidates the larger is taken. -/
def JSNum.toFixed2 : JSNum → Fixed2
  | .fin a =>
    if (10 : ℚ) ^ 21 ≤ |a| then .big a
    else .dec (decide (a < 0)) (⌊|a| * 100 + 1 / 2⌋ : ℤ).toNat
  | .pinf => .pinf
  | .ninf => .ninf
  | .nan => .nan

/-- The number a `toFixed(2)` string denotes when it is read back as a number. -/
def Fixed2.toNum : Fixed2 → JSNum
  | .dec neg n => if neg then .fin (-((n : ℚ) / 100)) else .fin ((n : ℚ) / 100)
  | .big q => .fin q
  | .pinf => .pinf
  | .ninf => .ninf
  | .nan => .nan

/-- Two decimal digits of a number below 100. -/
def twoDigits (n : ℕ) : String :=
  if n < 10 then "0" ++ Nat.repr n else Nat.repr n

/-! ## The host environment -/

/-- The parts of the JavaScript runtime whose values are not rational functions of
their arguments, taken as given: the `Math` functions used by the scales, `Math.PI`,
and the conversion of a number to a string. -/
structure JSEnv where
  sqrt : JSNum → JSNum
  cbrt : JSNum → JSNum
  log : JSNum → JSNum
  exp : JSNum → JSNum
  powReal : JSNum → JSNum → JSNum
  PI : JSNum
  numToString : JSNum → String

/-- `Math.pow`: for a natural exponent the power rounded to the nearest binary64 value,
the runtime elsewhere. -/
def JSEnv.pow (env : JSEnv) (x p : JSNum) : JSNum :=
  match p with
  | .fin q => if q.den = 1 ∧ 0 ≤ q.num then (x.powNat q.num.toNat).fl else env.powReal x p
  | _ => env.powReal x p

/-- The characters of a `toFixed(2)` result. -/
def Fixed2.toString (env : JSEnv) : Fixed2 → String
  | .dec neg n => (if neg then "-" else "") ++ Nat.repr (n / 100) ++ "." ++ twoDigits (n % 100)
  | .big q => env.numToString (.fin q)
  | .pinf => "Infinity"
  | .ninf => "-Infinity"
  | .nan => "NaN"

/-! ## Errors -/

deriving instance DecidableEq for Except

/-- What a modelled function can throw. -/
inductive JSError where
  | invalidScaleName (name : String)
  | invalidScaleType
  | typeError
  deriving DecidableEq

/-! ## Plain objects -/

/-- The names a plain object inherits from `Object.prototype`. -/
def objectProtoNames : List String :=
  ["constructor", "__defineGetter__", "__defineSetter__", "hasOwnProperty",
   "__lookupGetter__", "__lookupSetter__", "isPrototypeOf", "propertyIsEnumerable",
   "toString", "valueOf", "__proto__", "toLocaleString"]

/-- The string of the member a plain object inherits under a name: the source text
of a native function, and `[object Object]` for the prototype itself. -/
def protoString (name : String) : String :=
  if name = "__proto__" then "[object Object]"
  else if name = "constructor" then "function Object() \x7b [native code] \x7d"
  else "function " ++ name ++ "() \x7b [native code] \x7d"

/-- The test `key in obj` together with the read `obj[key]`, on a plain object with the
own entries `own`: the own value, else the string of the inherited member, else nothing
(the test is false). -/
def objGet (own : List (String × String)) (key : String) : Option String :=
  match own.lookup key with
  | some v => some v
  | none => if key ∈ objectProtoNames then some (protoString key) else none

/-! ## Scales (`util.js`) -/

/-- The `scale` argument of `scaleNum` and `unscale`: `null` or `undefined`, a number
(a power), a string (a scale name), or a value of any other type. -/
inductive Scale where
  | null
  | num (p : JSNum)
  | str (name : String)
  | other
  deriving DecidableEq

/-- Function `scaleNum` of `util.js`. -/
def scaleNum (env : JSEnv) (num : JSNum) (scale : Scale) : Except JSError JSNum :=
  match scale with
  | .null => .ok num
  | .num p => .ok (env.pow num p)
  | .str name =>
    if name = "none" then .ok num
    else if name = "square" then .ok (env.pow num 2)
    else if name = "sqrt" then .ok (env.sqrt num)
    else if name = "cube" then .ok (env.pow num 3)
    else if name = "cbrt" then .ok (env.cbrt num)
    else if name = "log" then .ok (env.log num)
    else if name = "exp" then .ok (env.exp num)
    else .error (.invalidScaleName name)
  | .other => .error .invalidScaleType

/-- Function `unscale` of `util.js`. A number gives its reciprocal, rounded to binary64. A
known name gives its inverse; the test `scale in dict` also holds for the names the table
inherits, for which `dict[scale]` is a function or an object, neither a number nor a
string; any other string falls out of the `if` without a `return`, so the call returns
`undefined`, which reads as `Scale.null`. -/
def unscale (scale : Scale) : Except JSError Scale :=
  match scale with
  | .null => .ok .null
  | .num p => .ok (.num (1 / p).fl)
  | .str name =>
    if name = "none" then .ok (.str "none")
    else if name = "square" then .ok (.str "sqrt")
    else if name = "sqrt" then .ok (.str "square")
    else if name = "cube" then .ok (.str "cbrt")
    else if name = "cbrt" then .ok (.str "cube")
    else if name = "log" then .ok (.str "exp")
    else if name = "exp" then .ok (.str "log")
    else if name ∈ objectProtoNames then .ok .other
    else .ok .null
  | .other => .error .invalidScaleType

/-! ## Colours (`util.js`) -/

/-- The value of a hexadecimal digit. -/
def hexDigit (c : Char) : Option Nat :=
  if '0' ≤ c ∧ c ≤ '9' then some (c.toNat - '0'.toNat)
  else if 'a' ≤ c ∧ c ≤ 'f' then some (c.toNat - 'a'.toNat + 10)
  else if 'A' ≤ c ∧ c ≤ 'F' then some (c.toNat - 'A'.toNat + 10)
  else none

/-- The longest run of hexadecimal digits at the head of the characters, read as a
number; `none` when there is no digit. -/
def hexPrefix : List Char → Option Nat → Option Nat
  | [], acc => acc
  | c :: cs, acc =>
    match hexDigit c with
    | none => acc
    | some d => hexPrefix cs (some (acc.getD 0 * 16 + d))

/-- The call `parseInt(s, 16)`: leading white space, a sign and a `0x` are skipped, then
the hexadecimal digits are read; `none` stands for `NaN`. -/
def parseInt16 (s : String) : Option Int :=
  let cs := s.toList.dropWhile Char.isWhitespace
  let (negative, cs) :=
    match cs with
    | '-' :: r => (true, r)
    | '+' :: r => (false, r)
    | r => (false, r)
  let cs :=
    match cs with
    | '0' :: 'x' :: r => r
    | '0' :: 'X' :: r => r
    | r => r
  match hexPrefix cs none with
  | none => none
  | some v => some (if negative then -(v : Int) else (v : Int))

/-- Function `hexToRgb` of `util.js`: the three bytes of the parsed code, joined by
commas. `parseInt` gives the binary64 value nearest to the digits read; the shifts act
on the 32-bit integer of that number, of which only the bits 0 to 23 are read, and `NaN`
and the infinities shift as `0`. -/
def hexToRgb (hex : String) : String :=
  let bigint : Int :=
    match parseInt16 hex with
    | none => 0
    | some v =>
      match JSNum.ofExact (v : ℚ) with
      | .fin q => ⌊q⌋
      | _ => 0
  let r := (bigint / 65536) % 256
  let g := (bigint / 256) % 256
  let b := bigint % 256
  Nat.repr r.toNat ++ "," ++ Nat.repr g.toNat ++ "," ++ Nat.repr b.toNat

/-! ## The main object -/

/-- A column of the data table, parallel to the point set: numbers or categories. -/
inductive Column where
  | num (vals : List JSNum)
  | cat (vals : List String)
  deriving DecidableEq

/-- The entry `col[i]` read as a number: an entry past the end (`undefined`) and an
entry of a categorical column count as `NaN`. -/
def Column.numAt : Column → Nat → JSNum
  | .num vals, i => vals.getD i .nan
  | .cat _, _ => .nan

/-- The number of rows of a column. -/
def Column.length : Column → Nat
  | .num vals => vals.length
  | .cat vals => vals.length

/-- The five display items. -/
inductive Item where
  | x
  | y
  | size
  | opacity
  | color
  deriving DecidableEq

/-- The settings of one display item, `view[item]`: the column index `i` (`none` for an
unset field), the scale, the range, the clip window in percent and the zero flag. -/
structure Channel where
  i : Option Nat
  scale : Scale
  min : JSNum
  max : JSNum
  lower : JSNum
  upper : JSNum
  zero : Bool
  deriving DecidableEq

/-- Truthiness of a column index: set and not `0`. -/
def idxTruthy : Option Nat → Bool
  | some (_ + 1) => true
  | _ => false

/-- The object `mo.view`; `discmap` and `contmap` are `view.color.discmap` and
`view.color.contmap`, `scale` is the zoom, and `ncolor` the number of colours of the
discrete map. -/
structure View where
  x : Channel
  y : Channel
  size : Channel
  opacity : Channel
  color : Channel
  discmap : List (String × String)
  contmap : List String
  rbase : JSNum
  obase : JSNum
  posX : JSNum
  posY : JSNum
  scale : JSNum
  grid : Bool
  ncolor : Nat := 7
  deriving DecidableEq

/-- The entry `view[item]`. -/
def View.get (view : View) : Item → Channel
  | .x => view.x
  | .y => view.y
  | .size => view.size
  | .opacity => view.opacity
  | .color => view.color

/-- The view after `view[item]` is replaced. -/
def View.set (view : View) (item : Item) (c : Channel) : View :=
  match item with
  | .x => { view with x := c }
  | .y => { view with y := c }
  | .size => { view with size := c }
  | .opacity => { view with opacity := c }
  | .color => { view with color := c }

/-- The pixel size of a canvas element. -/
structure Canvas where
  width : Nat
  height : Nat
  deriving DecidableEq

/-- The object `mo.stat`: mouse flags, the drag anchor and the polygon being drawn. -/
structure Stat where
  mousedown : Bool
  mousemove : Bool
  drawing : Bool
  dragX : JSNum
  dragY : JSNum
  polygon : List (JSNum × JSNum)
  deriving DecidableEq

/-- The entries of `mo.cache` read here: the number of points and the pick count. -/
structure Cache where
  nctg : Nat
  npick : Int
  deriving DecidableEq

/-- An entry of `trans.opacity`: the base opacity, a number, or a `toFixed(2)` string. -/
inductive Alpha where
  | num (x : JSNum)
  | str (f : Fixed2)
  deriving DecidableEq

/-- The object `mo.trans`: one transformed array per display item. An entry of
`color` is an `r,g,b` string or `undefined` (`none`). -/
structure Trans where
  x : List JSNum
  y : List JSNum
  size : List JSNum
  opacity : List Alpha
  color : List (Option String)
  deriving DecidableEq

/-- The main object `mo`. The renderer and the hit-tester read the mask as `mo.mask`,
the range computation reads it as `mo.masked`; both fields are kept. -/
structure MainObj where
  data : List Column
  view : View
  rena : Canvas
  oray : Canvas
  pick : List Bool
  mask : List Bool
  masked : List Bool
  cache : Cache
  stat : Stat
  trans : Trans
  deriving DecidableEq

/-- The column `data[idx]`; `none` is `undefined`. -/
def getCol (data : List Column) (idx : Option Nat) : Option Column :=
  match idx with
  | none => none
  | some k => data.get? k

/-- The flag `arr[i]` of a boolean array, an entry past the end being falsy. -/
def flagAt (arr : List Bool) (i : Nat) : Bool := arr.getD i false

/-- The assignment `arr[i] = v`; an array too short is extended, the gap filled with `d`. -/
def setAt {α : Type} (arr : List α) (i : Nat) (v d : α) : List α :=
  if i < arr.length then arr.set i v
  else arr ++ List.replicate (i - arr.length) d ++ [v]

/-- The state a statement leaves, and what it threw if it threw. -/
abbrev Step (σ : Type) := σ × Option JSError

/-- A loop `for (let i of indices) body`, threading the state; a throw ends the loop and
leaves the state as it was at the throw. -/
def forEach {ι σ : Type} (body : ι → σ → Step σ) : List ι → σ → Step σ
  | [], s => (s, none)
  | i :: rest, s =>
    match body i s with
    | (s1, some e) => (s1, some e)
    | (s1, none) => forEach body rest s1

/-- A loop body that computes something for the index and, unless it takes a `continue`
(`none`), adds the outcome to the state; a throw in the computation leaves the state. -/
def collectStep {α σ : Type} (f : Nat → Except JSError (Option α)) (push : α → σ → σ)
    (i : Nat) (s : σ) : Step σ :=
  match f i with
  | .error e => (s, some e)
  | .ok none => (s, none)
  | .ok (some a) => (push a s, none)

/-- The loop `for (let i = 0; i < n; i++) body`. -/
def forUpTo {σ : Type} (n : Nat) (body : Nat → σ → Step σ) (s : σ) : Step σ :=
  forEach body (List.range n) s

/-! ## Ranges of the display items (`display.js`) -/

/-- Modelled from the spec: `arrMinMax` is called by `calcDispMinMax` but is not among the
source files. It returns the minimum and the maximum of an array, found by one pass of
`<` and `>` comparisons from the first element; the empty array gives `undefined` twice,
which reads as `NaN`. -/
def arrMinMax (arr : List JSNum) : JSNum × JSNum :=
  match arr with
  | [] => (.nan, .nan)
  | v :: rest =>
    rest.foldl
      (fun acc val => (if val.lt acc.1 then val else acc.1, if val.gt acc.2 then val else acc.2))
      (v, v)

/-- The inner loop of `calcDispMinMax`: the values of the column that are not `NaN` and
whose point is not masked, in index order. -/
def unmaskedVals (col : Column) (mask : List Bool) (n : Nat) : List JSNum :=
  (List.range n).filterMap
    (fun i => if (col.numAt i).selfEq && !flagAt mask i then some (col.numAt i) else none)

/-- One iteration of the item loop of `calcDispMinMax`. The range of a categorical
column is not read by any operation modelled here. -/
def calcDispMinMaxItem (env : JSEnv) (item : Item) (mo : MainObj) : Step MainObj :=
  let v := mo.view.get item
  if !idxTruthy v.i then (mo, none)
  else
    match getCol mo.data v.i with
    | none => (mo, some .typeError)
    | some col =>
      let mm := arrMinMax (unmaskedVals col mo.masked mo.cache.nctg)
      match scaleNum env mm.1 v.scale with
      | .error e => (mo, some e)
      | .ok smin =>
        let mo1 := { mo with view := mo.view.set item { v with min := smin } }
        match scaleNum env mm.2 v.scale with
        | .error e => (mo1, some e)
        | .ok smax => ({ mo with view := mo.view.set item { v with min := smin, max := smax } }, none)

/-- All five display items, the default of the `items` argument. -/
def allItems : List Item := [.x, .y, .size, .opacity, .color]

/-- What the body of the loop of `updateLegends` throws for a display item. An unset item
and a colour bound to a categorical column are passed over; for another item the scale is
inverted by `unscale` and applied to the two ends of the range by `scaleNum`. All else in
the body writes to the page, whose legends are taken to be present, or is
`formatValueLabel`, which is not among the source files and is taken not to throw. -/
def legendItem (env : JSEnv) (mo : MainObj) (item : Item) : Option JSError :=
  let v := mo.view.get item
  if !idxTruthy v.i then none
  else
    match item, getCol mo.data v.i with
    | .color, some (.cat _) => none
    | _, _ =>
      match unscale v.scale with
      | .error e => some e
      | .ok scale =>
        match scaleNum env v.min scale with
        | .error e => some e
        | .ok _ =>
          match scaleNum env v.max scale with
          | .error e => some e
          | .ok _ => none

/-- The default of the `items` argument of `updateLegends`. -/
def legendItems : List Item := [.size, .opacity, .color]

/-- Function `updateLegends` of `display.js`, up to what it throws: the error of the first
item whose iteration throws. -/
def updateLegends (env : JSEnv) (mo : MainObj) (items : List Item) : Option JSError :=
  (items.filterMap (legendItem env mo)).head?

/-- Function `calcDispMinMax` of `display.js`: the ranges of the items, then the update of
the legends. -/
def calcDispMinMax (env : JSEnv) (mo : MainObj) (items : List Item) : Step MainObj :=
  if mo.cache.nctg = 0 then (mo, none)
  else
    match forEach (calcDispMinMaxItem env) items mo with
    | (s, some e) => (s, some e)
    | (s, none) => (s, updateLegends env s legendItems)

/-! ## Transformation of the data for display (`display.js`) -/

/-- The statement `const source = mo.data[v.i]` followed by `scaleNum(source[i], scale)`:
reading an entry of `undefined` throws a `TypeError`. -/
def scaleAt (env : JSEnv) (source : Option Column) (i : Nat) (scale : Scale) : Except JSError JSNum :=
  match source with
  | none => .error .typeError
  | some col => scaleNum env (col.numAt i) scale

/-- One assignment `target[i] = f(scaleNum(source[i], scale))` of a transform loop. -/
def transStep {α : Type} (env : JSEnv) (source : Option Column) (scale : Scale)
    (f : JSNum → α) (d : α) (i : Nat) (target : List α) : Step (List α) :=
  match scaleAt env source i scale with
  | .error e => (target, some e)
  | .ok s => (setAt target i (f s) d, none)

/-- Function `transXForDisplay` of `display.js`, each of the four operations rounded to
binary64. -/
def transXForDisplay (env : JSEnv) (mo : MainObj) : Step MainObj :=
  let v := mo.view.x
  let source := getCol mo.data v.i
  let min := v.min
  let range := (v.max - min).fl
  let r := forUpTo mo.cache.nctg
    (transStep env source v.scale (fun s => (((s - min).fl / range).fl - JSNum.half).fl) .nan)
    mo.trans.x
  ({ mo with trans := { mo.trans with x := r.1 } }, r.2)

/-- Function `transYForDisplay` of `display.js`, each of the four operations rounded to
binary64. -/
def transYForDisplay (env : JSEnv) (mo : MainObj) : Step MainObj :=
  let v := mo.view.y
  let source := getCol mo.data v.i
  let max := v.max
  let range := (max - v.min).fl
  let r := forUpTo mo.cache.nctg
    (transStep env source v.scale (fun s => (((max - s).fl / range).fl - JSNum.half).fl) .nan)
    mo.trans.y
  ({ mo with trans := { mo.trans with y := r.1 } }, r.2)

/-- The lower end of the mapped range of a channel: `v.zero ? 0 : v.min`. -/
def Channel.effMin (v : Channel) : JSNum := if v.zero then 0 else v.min

/-- Function `transSizeForDisplay` of `display.js`. -/
def transSizeForDisplay (env : JSEnv) (mo : MainObj) : Step MainObj :=
  let v := mo.view.size
  let base := mo.view.rbase
  if !idxTruthy v.i then
    ({ mo with trans := { mo.trans with size := mo.trans.size.map (fun _ => base) } }, none)
  else
    let source := getCol mo.data v.i
    let min := v.effMin
    let low := v.lower / 100
    let fac := (v.upper / 100 - low) / (v.max - min)
    let r := forUpTo mo.cache.nctg
      (transStep env source v.scale (fun s => ((s - min) * fac + low) * base) .nan) mo.trans.size
    ({ mo with trans := { mo.trans with size := r.1 } }, r.2)

/-- Function `transOpacityForDisplay` of `display.js`. -/
def transOpacityForDisplay (env : JSEnv) (mo : MainObj) : Step MainObj :=
  let v := mo.view.opacity
  let base := mo.view.obase
  if !idxTruthy v.i then
    ({ mo with trans := { mo.trans with opacity := mo.trans.opacity.map (fun _ => .num base) } }, none)
  else
    let source := getCol mo.data v.i
    let min := v.effMin
    let low := v.lower / 100
    let fac := (v.upper / 100 - low) / (v.max - min)
    let r := forUpTo mo.cache.nctg
      (transStep env source v.scale (fun s => Alpha.str ((s - min) * fac + low).toFixed2)
        (.num .nan)) mo.trans.opacity
    ({ mo with trans := { mo.trans with opacity := r.1 } }, r.2)

/-- The entry `cmap[k]` of the continuous colour map for a number `k`: defined when `k` is
an integer from `0` to the last index, `undefined` otherwise. -/
def rampAt (cmap : List String) (k : JSNum) : Option String :=
  match k with
  | .fin q => if q.den = 1 ∧ 0 ≤ q.num then cmap.get? q.num.toNat else none
  | _ => none

/-- The index into the continuous colour map computed for a scaled value. -/
def rampIndex (s min fac low : JSNum) : JSNum := ((s - min) * fac + low).round

/-- The categorical branch of `transColorForDisplay` for one point. -/
def transColorCatStep (source : Option Column) (cmap : List (String × String)) (i : Nat)
    (target : List (Option String)) : Step (List (Option String)) :=
  match source with
  | none => (target, some .typeError)
  | some (.cat vals) =>
    match vals.get? i with
    | none => (target, none)
    | some val =>
      match objGet cmap val with
      | none => (target, none)
      | some hex => (setAt target i (some (hexToRgb hex)) none, none)
  | some (.num _) => (target, none)

/-- Function `transColorForDisplay` of `display.js`. The type of the column, read from
`mo.cols.types` in the source, is the kind of the column here. -/
def transColorForDisplay (env : JSEnv) (mo : MainObj) : Step MainObj :=
  let v := mo.view.color
  let target := mo.trans.color.map (fun _ => some "0,0,0")
  let vi := v.i
  if !idxTruthy vi then ({ mo with trans := { mo.trans with color := target } }, none)
  else
    let source := getCol mo.data vi
    let n := mo.cache.nctg
    match source with
    | some (.cat _) =>
      let r := forUpTo n (transColorCatStep source mo.view.discmap) target
      ({ mo with trans := { mo.trans with color := r.1 } }, r.2)
    | _ =>
      let cmap := mo.view.contmap
      let min := v.effMin
      let low := v.lower
      let fac := (v.upper - low) / (v.max - min)
      let r := forUpTo n
        (transStep env source v.scale (fun s => rampAt cmap (rampIndex s min fac low)) none) target
      ({ mo with trans := { mo.trans with color := r.1 } }, r.2)

/-- One case of the `switch` of `transDataForDisplay`. -/
def transItem (env : JSEnv) (item : Item) (mo : MainObj) : Step MainObj :=
  match item with
  | .x => transXForDisplay env mo
  | .y => transYForDisplay env mo
  | .size => transSizeForDisplay env mo
  | .opacity => transOpacityForDisplay env mo
  | .color => transColorForDisplay env mo

/-- Function `transDataForDisplay` of `display.js`. -/
def transDataForDisplay (env : JSEnv) (mo : MainObj) (items : List Item) : Step MainObj :=
  if mo.cache.nctg = 0 then (mo, none)
  else forEach (transItem env) items mo

/-! ## The renderer (`render.js`) -/

/-- A canvas dimension as a number. -/
def dim (n : Nat) : JSNum := .fin n

/-- The expression `((scaleNum(X[i], scale) - min) / range - 0.5) * w`: the horizontal
position of point `i` in canvas units around the origin. -/
def posXAt (env : JSEnv) (X : Option Column) (scale : Scale) (min range : JSNum) (w : Nat)
    (i : Nat) : Except JSError JSNum :=
  match scaleAt env X i scale with
  | .error e => .error e
  | .ok s => .ok (((s - min) / range - JSNum.half) * dim w)

/-- The expression `((max - scaleNum(Y[i], scale)) / range - 0.5) * h`: the vertical
position of point `i`, growing downwards. -/
def posYAt (env : JSEnv) (Y : Option Column) (scale : Scale) (max range : JSNum) (h : Nat)
    (i : Nat) : Except JSError JSNum :=
  match scaleAt env Y i scale with
  | .error e => .error e
  | .ok s => .ok (((max - s) / range - JSNum.half) * dim h)

/-- The radius of point `i` as `renderArena` and `renderSelection` compute it:
`si ? ((scaleNum(S[i], sscale) - smin) * sfac + slow) * rbase : rbase`. -/
def radiusAt (env : JSEnv) (view : View) (data : List Column) (i : Nat) : Except JSError JSNum :=
  let si := view.size.i
  let smin := view.size.effMin
  let slow := view.size.lower / 100
  let sfac := (view.size.upper / 100 - slow) / (view.size.max - smin)
  if idxTruthy si then
    match scaleAt env (getCol data si) i view.size.scale with
    | .error e => .error e
    | .ok s => .ok (((s - smin) * sfac + slow) * view.rbase)
  else .ok view.rbase

/-- The colour of point `i` as `renderArena` determines it; `none` is `undefined`, the
entry of the continuous map at an index it does not have. -/
def colorAt (env : JSEnv) (view : View) (data : List Column) (i : Nat) :
    Except JSError (Option String) :=
  let ci := view.color.i
  let cmin := view.color.effMin
  let clow := view.color.lower
  let cfac := (view.color.upper - clow) / (view.color.max - cmin)
  if idxTruthy ci then
    match getCol data ci with
    | none => .error .typeError
    | some (.cat vals) =>
      match vals.get? i with
      | none => .ok (some "0,0,0")
      | some val =>
        if val = "" then .ok (some "0,0,0")
        else
          match objGet view.discmap val with
          | none => .ok (some "0,0,0")
          | some hex => .ok (some (hexToRgb hex))
    | some (.num vals) =>
      match vals.get? i with
      | none => .ok (some "0,0,0")
      | some val =>
        if val.truthy then
          match scaleNum env val view.color.scale with
          | .error e => .error e
          | .ok s => .ok (rampAt view.contmap (rampIndex s cmin cfac clow))
        else .ok (some "0,0,0")
  else .ok (some "0,0,0")

/-- The opacity of point `i` as `renderArena` determines it, as it is spliced into the
fill style: a `toFixed(2)` string, or the base opacity. -/
def alphaAt (env : JSEnv) (view : View) (data : List Column) (i : Nat) : Except JSError Alpha :=
  let oi := view.opacity.i
  let omin := view.opacity.effMin
  let olow := view.opacity.lower / 100
  let ofac := (view.opacity.upper / 100 - olow) / (view.opacity.max - omin)
  if idxTruthy oi then
    match scaleAt env (getCol data oi) i view.opacity.scale with
    | .error e => .error e
    | .ok s => .ok (.str ((s - omin) * ofac + olow).toFixed2)
  else .ok (.num view.obase)

/-- The characters of an opacity inside a template string. -/
def Alpha.toString (env : JSEnv) : Alpha → String
  | .num x => env.numToString x
  | .str f => f.toString env

/-- The fill style string built by the template with `rgba`, the colour and the opacity. -/
def fillStyle (env : JSEnv) (c : Option String) (alpha : Alpha) : String :=
  "rgba(" ++ c.getD "undefined" ++ "," ++ alpha.toString env ++ ")"

/-- A primitive queued for drawing, `[x, y, size]`: the side of a square or the radius of a
circle. The index `src` of the point it is drawn for is not stored by the source; it is
kept here to name the point. -/
structure Prim where
  src : Nat
  x : JSNum
  y : JSNum
  size : JSNum
  deriving DecidableEq

/-- The two lists kept per fill style. -/
structure Bucket where
  square : List Prim
  circle : List Prim
  deriving DecidableEq

/-- The object `paths`: the buckets by fill style, in the order the styles first occur. -/
abbrev Paths := List (String × Bucket)

/-- The statements `if (!(fs in paths)) paths[fs] = ...` and the push of
one primitive onto the square or the circle list of the bucket `paths[fs]`. -/
def pushPrim (fs : String) (isSquare : Bool) (p : Prim) : Paths → Paths
  | [] => [(fs, if isSquare then ⟨[p], []⟩ else ⟨[], [p]⟩)]
  | (k, b) :: rest =>
    if k = fs then
      (k, if isSquare then { b with square := b.square ++ [p] }
          else { b with circle := b.circle ++ [p] }) :: rest
    else (k, b) :: pushPrim fs isSquare p rest

/-- The test `rviz < min1` of `renderArena`, the point covers less than one pixel: `rviz`
is the product `radius * scale` and `min1` is `Math.sqrt(1 / Math.PI)`, the product and
the quotient rounded to binary64. -/
def subPixel (env : JSEnv) (view : View) (radius : JSNum) : Bool :=
  (radius * view.scale).fl.lt (env.sqrt (1 / env.PI).fl)

/-- The first culling test of `renderArena` on the bounding box of a point,
`x + radius < vleft || x - radius > vright`. -/
def outsideX (view : View) (rena : Canvas) (x radius : JSNum) : Bool :=
  (x + radius).lt (-view.posX / view.scale) ||
    (x - radius).gt ((dim rena.width - view.posX) / view.scale)

/-- The second culling test of `renderArena` on the bounding box of a point,
`y + radius < vtop || y - radius > vbottom`. -/
def outsideY (view : View) (rena : Canvas) (y radius : JSNum) : Bool :=
  (y + radius).lt (-view.posY / view.scale) ||
    (y - radius).gt ((dim rena.height - view.posY) / view.scale)

/-- The two culling tests of `renderArena` on the bounding box of a point. -/
def outsideView (view : View) (rena : Canvas) (x y radius : JSNum) : Bool :=
  outsideX view rena x radius || outsideY view rena y radius

/-- What one iteration of the point loop of `renderArena` does with point `i`: nothing
(`none`, one of the `continue` statements), or queue a primitive under a fill style as
a square (`true`) or a circle. -/
def arenaPoint (env : JSEnv) (mo : MainObj) (i : Nat) :
    Except JSError (Option (String × Bool × Prim)) :=
  let view := mo.view
  let rena := mo.rena
  if flagAt mo.mask i then .ok none
  else
    match radiusAt env view mo.data i with
    | .error e => .error e
    | .ok radius =>
      if subPixel env view radius then .ok none
      else
        match posXAt env (getCol mo.data view.x.i) view.x.scale view.x.min
            (view.x.max - view.x.min) rena.width i with
        | .error e => .error e
        | .ok px =>
          match posYAt env (getCol mo.data view.y.i) view.y.scale view.y.max
              (view.y.max - view.y.min) rena.height i with
          | .error e => .error e
          | .ok py =>
            let x := px.round
            let y := py.round
            if outsideView view rena x y radius then .ok none
            else
              match colorAt env view mo.data i with
              | .error e => .error e
              | .ok c =>
                match alphaAt env view mo.data i with
                | .error e => .error e
                | .ok alpha =>
                  let fs := fillStyle env c alpha
                  if (radius * view.scale).fl.lt (env.sqrt (4 / env.PI).fl) then
                    .ok (some (fs, true, ⟨i, x, y, (radius * env.sqrt env.PI).fl.round⟩))
                  else .ok (some (fs, false, ⟨i, x, y, radius.round⟩))

/-- The body of the point loop of `renderArena` as a step on `paths`. -/
def arenaStep (env : JSEnv) (mo : MainObj) : Nat → Paths → Step Paths :=
  collectStep (arenaPoint env mo) (fun q paths => pushPrim q.1 q.2.1 q.2.2 paths)

/-- Function `renderArena` of `render.js`, up to the object `paths` it fills and then
draws bucket by bucket: empty when there is no data or no x- or y-axis, and no drawing
at all when the point loop throws. -/
def renderArena (env : JSEnv) (mo : MainObj) : Except JSError Paths :=
  if mo.data.length = 0 then .ok []
  else
    match getCol mo.data mo.view.x.i, getCol mo.data mo.view.y.i with
    | some X, some _ =>
      match forUpTo X.length (arenaStep env mo) [] with
      | (_, some e) => .error e
      | (paths, none) => .ok paths
    | _, _ => .ok []

/-- The body of the loop of `renderSelection` for point `i`: nothing for a point that
is not picked, else the arc of its shadow. -/
def selectionPoint (env : JSEnv) (mo : MainObj) (i : Nat) : Except JSError (Option Prim) :=
  let view := mo.view
  if !flagAt mo.pick i then .ok none
  else
    match radiusAt env view mo.data i with
    | .error e => .error e
    | .ok radius =>
      match posXAt env (getCol mo.data view.x.i) view.x.scale view.x.min
          (view.x.max - view.x.min) mo.oray.width i with
      | .error e => .error e
      | .ok px =>
        match posYAt env (getCol mo.data view.y.i) view.y.scale view.y.max
            (view.y.max - view.y.min) mo.oray.height i with
        | .error e => .error e
        | .ok py => .ok (some ⟨i, px.round, py.round, radius.round⟩)

/-- The loop body of `renderSelection` as a step on the path being built. -/
def selectionStep (env : JSEnv) (mo : MainObj) : Nat → List Prim → Step (List Prim) :=
  collectStep (selectionPoint env mo) (fun p path => path ++ [p])

/-- Function `renderSelection` of `render.js`, up to the arcs of the one path it fills
on the overlay canvas: none when nothing is picked or there is no point, and no fill at
all when the loop throws. -/
def renderSelection (env : JSEnv) (mo : MainObj) : Except JSError (List Prim) :=
  if mo.cache.npick = 0 then .ok []
  else if mo.cache.nctg = 0 then .ok []
  else
    match forUpTo mo.cache.nctg (selectionStep env mo) [] with
    | (_, some e) => .error e
    | (path, none) => .ok path

/-! ## The hit-tester (`render.js`) -/

/-- The fields of a mouse event read by the click handler. -/
structure MouseEvent where
  offsetX : JSNum
  offsetY : JSNum
  shiftKey : Bool
  deriving DecidableEq

/-- The radius of point `i` as `canvasMouseClick` computes it:
`si ? scaleNum(S[i], view.size.scale) * view.rbase / view.size.max : view.rbase`. -/
def hitRadiusAt (env : JSEnv) (view : View) (data : List Column) (i : Nat) : Except JSError JSNum :=
  let si := view.size.i
  if idxTruthy si then
    match scaleAt env (getCol data si) i view.size.scale with
    | .error e => .error e
    | .ok s => .ok (s * view.rbase / view.size.max)
  else .ok view.rbase

/-- The squared distance `(x - x0) ** 2 + (y - y0) ** 2` from a centre to the mouse. -/
def dist2 (x y x0 y0 : JSNum) : JSNum := (x - x0).powNat 2 + (y - y0).powNat 2

/-- The body of the point loop of `canvasMouseClick` for point `i` and the mouse position
`(x0, y0)`: the pair `[i, x2y2]` pushed to `arr` when the point is hit. -/
def hitPoint (env : JSEnv) (mo : MainObj) (x0 y0 : JSNum) (i : Nat) :
    Except JSError (Option (Nat × JSNum)) :=
  let view := mo.view
  if flagAt mo.mask i then .ok none
  else
    match hitRadiusAt env view mo.data i with
    | .error e => .error e
    | .ok radius =>
      match posXAt env (getCol mo.data view.x.i) view.x.scale view.x.min
          (view.x.max - view.x.min) mo.rena.width i with
      | .error e => .error e
      | .ok x =>
        match posYAt env (getCol mo.data view.y.i) view.y.scale view.y.max
            (view.y.max - view.y.min) mo.rena.height i with
        | .error e => .error e
        | .ok y =>
          let x2y2 := dist2 x y x0 y0
          if x2y2.le (radius.powNat 2) then .ok (some (i, x2y2)) else .ok none

/-- The loop body of `canvasMouseClick` as a step on `arr`. -/
def hitStep (env : JSEnv) (mo : MainObj) (x0 y0 : JSNum) :
    Nat → List (Nat × JSNum) → Step (List (Nat × JSNum)) :=
  collectStep (hitPoint env mo x0 y0) (fun hit arr => arr ++ [hit])

/-- Insertion of one element into a list sorted by a comparison function, after the
elements it does not precede: the comparison result is positive when the element belongs
after the other, and a result of `0` or `NaN` keeps the earlier element first. -/
def sortInsert {α : Type} (cmp : α → α → JSNum) (a : α) : List α → List α
  | [] => [a]
  | b :: rest => if (cmp a b).gt 0 then b :: sortInsert cmp a rest else a :: b :: rest

/-- The method `Array.prototype.sort` with a comparison function, as a stable insertion
sort. -/
def jsSort {α : Type} (cmp : α → α → JSNum) (arr : List α) : List α :=
  arr.foldr (sortInsert cmp) []

/-- The conversion of a position on the canvas element to the coordinates of the plot,
as the click handler computes it: `(s - pan) / zoom` on each axis. -/
def screenToWorld (view : View) (s : JSNum × JSNum) : JSNum × JSNum :=
  ((s.1 - view.posX) / view.scale, (s.2 - view.posY) / view.scale)

/-- The position on the canvas element of a point drawn at plot coordinates `p` after
`ctx.translate(view.posX, view.posY)` and `ctx.scale(scale, scale)`, the transform
`renderArena` installs: `pan + zoom * p` on each axis. -/
def worldToScreen (view : View) (p : JSNum × JSNum) : JSNum × JSNum :=
  (view.posX + view.scale * p.1, view.posY + view.scale * p.2)

/-- The mouse position in the coordinates of the plot:
`(e.offsetX - view.posX) / view.scale` and the same for `y`. -/
def mousePos (view : View) (e : MouseEvent) : JSNum × JSNum :=
  screenToWorld view (e.offsetX, e.offsetY)

/-- The toggle of `canvasMouseClick`: a selected point is unselected, another selected. -/
def togglePick (mo : MainObj) (ctg : Nat) : MainObj :=
  if flagAt mo.pick ctg then
    { mo with pick := setAt mo.pick ctg false false,
              cache := { mo.cache with npick := mo.cache.npick - 1 } }
  else
    { mo with pick := setAt mo.pick ctg true false,
              cache := { mo.cache with npick := mo.cache.npick + 1 } }

/-- The statement `if (!e.shiftKey) { pick.fill(false); mo.cache.npick = 0; }`. -/
def clearSelection (mo : MainObj) (e : MouseEvent) : MainObj :=
  if !e.shiftKey then
    { mo with pick := mo.pick.map (fun _ => false), cache := { mo.cache with npick := 0 } }
  else mo

/-- Function `canvasMouseClick` of `render.js`. The drawing of the polygon and the
refresh made by `updateSelection`, which is not among the source files, leave the
main object as it is. -/
def canvasMouseClick (env : JSEnv) (e : MouseEvent) (mo : MainObj) : Step MainObj :=
  if mo.stat.mousemove then
    ({ mo with stat := { mo.stat with mousemove := false } }, none)
  else if mo.stat.drawing then
    ({ mo with stat := { mo.stat with polygon := mo.stat.polygon ++ [mousePos mo.view e] } }, none)
  else
    let n := mo.cache.nctg
    if n = 0 then (mo, none)
    else
      let mo1 := clearSelection mo e
      let p0 := mousePos mo.view e
      match forUpTo n (hitStep env mo1 p0.1 p0.2) [] with
      | (_, some err) => (mo1, some err)
      | (arr, none) =>
        match jsSort (fun a b => a.2 - b.2) arr with
        | [] => (mo1, none)
        | hit :: _ => (togglePick mo1 hit.1, none)

/-! ## A sample runtime and sample states -/

/-- The decimals of a fraction `r / d` below one, at most `fuel` of them. -/
def fracDigits : Nat → Nat → Nat → String
  | 0, _, _ => ""
  | fuel + 1, r, d =>
    if r = 0 then "" else Nat.repr (r * 10 / d) ++ fracDigits fuel (r * 10 % d) d

/-- The decimal numeral of a number, with at most seventeen decimals. -/
def decimalString : JSNum → String
  | .fin q =>
    (if q < 0 then "-" else "") ++ Nat.repr (q.num.natAbs / q.den) ++
      (if q.num.natAbs % q.den = 0 then "" else "." ++ fracDigits 17 (q.num.natAbs % q.den) q.den)
  | .pinf => "Infinity"
  | .ninf => "-Infinity"
  | .nan => "NaN"

/-- A runtime for the evaluations on concrete states: `Math.PI` and `Math.sqrt` as
IEEE 754 and the language fix them. The other functions are reached by none of the
evaluations and answer `NaN`. -/
def refEnv : JSEnv where
  sqrt := JSNum.sqrtIEEE
  cbrt := fun _ => .nan
  log := fun _ => .nan
  exp := fun _ => .nan
  powReal := fun _ _ => .nan
  PI := .fin piDouble
  numToString := decimalString

/-- A display item with no field, the scale `none` and the clip window from 0 to 100. -/
def unsetChannel : Channel := ⟨none, .str "none", 0, 0, 0, 100, false⟩

/-- A display item bound to column `k`, before its range is computed. -/
def boundChannel (k : Nat) : Channel := { unsetChannel with i := some k }

/-- A colour ramp of 101 entries, from black to red. -/
def sampleRamp : List String := (List.range 101).map (fun k => Nat.repr k ++ ",0,0")

/-- A state of `n` points on a 100 by 100 canvas with the given columns, the viewport at
pan `(px, py)` and zoom 1, base radius 5, base opacity 1, nothing picked or masked, x on
column 1 and y on column 2. -/
def sampleState (n : Nat) (data : List Column) (px py : JSNum) : MainObj where
  data := data
  view := { x := boundChannel 1, y := boundChannel 2, size := unsetChannel,
            opacity := unsetChannel, color := unsetChannel, discmap := [],
            contmap := sampleRamp, rbase := 5, obase := 1, posX := px, posY := py,
            scale := 1, grid := false }
  rena := ⟨100, 100⟩
  oray := ⟨100, 100⟩
  pick := List.replicate n false
  mask := List.replicate n false
  masked := List.replicate n false
  cache := ⟨n, 0⟩
  stat := ⟨false, false, false, 0, 0, []⟩
  trans := ⟨List.replicate n .nan, List.replicate n .nan, List.replicate n .nan,
    List.replicate n (.num .nan), List.replicate n none⟩

/-- The state `mo` with its ranges computed by `calcDispMinMax` for all items. -/
def withRanges (env : JSEnv) (mo : MainObj) : MainObj := (calcDispMinMax env mo allItems).1

/-- Three points on the diagonal, the middle one both picked and masked. -/
def maskedPickState : MainObj :=
  let mo := sampleState 3 [.cat ["a", "b", "c"], .num [0, 1, 2], .num [0, 1, 2]] 50 50
  withRanges refEnv { mo with pick := [false, true, false], mask := [false, true, false],
                              masked := [false, true, false], cache := ⟨3, 1⟩ }

/-- Five points with x from 0 to 4 and y equal to 0, size unset, zoom 1, on a 100 by 100
canvas with the pan at `(px, py)`, the ranges computed by `calcDispMinMax`. -/
def fivePoints (px py : JSNum) : MainObj :=
  withRanges refEnv
    (sampleState 5 [.cat ["a", "b", "c", "d", "e"], .num [0, 1, 2, 3, 4], .num [0, 0, 0, 0, 0]] px py)

/-- The number of primitives queued for point `i` in all buckets of `paths`. -/
def primCount (paths : Paths) (i : Nat) : Nat :=
  (paths.map (fun kb => (kb.2.square.countP (fun p => p.src = i)) +
    (kb.2.circle.countP (fun p => p.src = i)))).sum

/-- Two points with x equal to -3 and 1, x displayed on the scale `square`. -/
def squareRangeState : MainObj :=
  let mo := sampleState 2 [.cat ["a", "b"], .num [.fin (-3), 1], .num [0, 1]] 50 50
  { mo with view := { mo.view with x := { boundChannel 1 with scale := .str "square" } } }

/-- Three points, the third masked and holding the value 10 in column 3, to which the
opacity and the colour are bound; the ranges are computed by `calcDispMinMax`. -/
def maskedOutlierState : MainObj :=
  let mo := sampleState 3 [.cat ["a", "b", "c"], .num [0, 1, 2], .num [0, 1, 2], .num [0, 1, 10]] 50 50
  withRanges refEnv
    { mo with mask := [false, false, true], masked := [false, false, true],
              view := { mo.view with opacity := boundChannel 3, color := boundChannel 3 } }

/-- Three unmasked points, the colour bound to column 3 with values -1, 1 and 2 and the
zero flag set; the ranges are computed by `calcDispMinMax`. -/
def zeroFlagState : MainObj :=
  let mo := sampleState 3 [.cat ["a", "b", "c"], .num [0, 1, 2], .num [0, 1, 2], .num [.fin (-1), 1, 2]] 50 50
  withRanges refEnv
    { mo with view := { mo.view with color := { boundChannel 3 with zero := true } } }

/-- Two points holding the same value in every column, all five display items bound; the
ranges are computed by `calcDispMinMax`. -/
def constantState : MainObj :=
  let mo := sampleState 2 [.cat ["a", "b"], .num [2, 2], .num [3, 3], .num [7, 7]] 50 50
  withRanges refEnv
    { mo with view := { mo.view with size := boundChannel 3, opacity := boundChannel 3,
                                     color := boundChannel 3 } }

/-! ## Notions used in the statements -/

/-- The scale names `scaleNum` knows. -/
def knownScales : List String := ["none", "square", "sqrt", "cube", "cbrt", "log", "exp"]

/-- Whether `scaleNum` accepts the scale: `null`, a number, or a known name. -/
def Scale.valid : Scale → Bool
  | .null => true
  | .num _ => true
  | .str name => decide (name ∈ knownScales)
  | .other => false

/-- The expression `(s - min) * fac + low` of the size and opacity transforms for a scaled
value `s`, with `min = v.zero ? 0 : v.min`, `low = v.lower / 100` and
`fac = (v.upper / 100 - low) / (v.max - min)`. -/
def clipValue (v : Channel) (s : JSNum) : JSNum :=
  (s - v.effMin) * ((v.upper / 100 - v.lower / 100) / (v.max - v.effMin)) + v.lower / 100

/-- The index into the continuous colour map for a scaled value `s`:
`Math.round((s - min) * fac + low)` with `low = v.lower` and
`fac = (v.upper - low) / (v.max - min)`. -/
def colorIndex (v : Channel) (s : JSNum) : JSNum :=
  rampIndex s v.effMin ((v.upper - v.lower) / (v.max - v.effMin)) v.lower

/-- The array after the assignments `target[i] = val i` for the indices of a list. -/
def assignAll {α : Type} (val : Nat → α) (d : α) (l : List Nat) (target : List α) : List α :=
  l.foldl (fun t i => setAt t i (val i) d) target

/-- A view with the pan at `(30, 40)` and the zoom 4/3. -/
def zoomedView : View := { (sampleState 0 [] 30 40).view with scale := .fin (4 / 3) }

/-- What a computation that may throw or take a `continue` adds to the state. -/
def okSome {α : Type} : Except JSError (Option α) → Option α
  | .ok (some a) => some a
  | _ => none

/-- The pick vector a click in the hit-test branch starts from: the old one when Shift is
held, else the old one with every entry cleared. -/
def basePick (mo : MainObj) (e : MouseEvent) : List Bool :=
  if e.shiftKey then mo.pick else mo.pick.map (fun _ => false)

/-- Point `i` collides with a click at `(x0, y0)` at the squared distance `d`: the point is
not masked, and `d`, the squared distance from its centre to the click, is at most its
squared radius, all as the click handler computes them. -/
def Hit (env : JSEnv) (mo : MainObj) (x0 y0 : JSNum) (i : Nat) (d : JSNum) : Prop :=
  flagAt mo.mask i = false ∧
  ∃ radius x y,
    hitRadiusAt env mo.view mo.data i = .ok radius ∧
    posXAt env (getCol mo.data mo.view.x.i) mo.view.x.scale mo.view.x.min
      (mo.view.x.max - mo.view.x.min) mo.rena.width i = .ok x ∧
    posYAt env (getCol mo.data mo.view.y.i) mo.view.y.scale mo.view.y.max
      (mo.view.y.max - mo.view.y.min) mo.rena.height i = .ok y ∧
    d = dist2 x y x0 y0 ∧ d.le (radius.powNat 2) = true

/-- The state the click handler reads is well formed: x and y are bound to columns and
have known scales, and so has the size when it is set. -/
def ClickReady (mo : MainObj) : Prop :=
  (∃ X, getCol mo.data mo.view.x.i = some X) ∧ mo.view.x.scale.valid = true ∧
  (∃ Y, getCol mo.data mo.view.y.i = some Y) ∧ mo.view.y.scale.valid = true ∧
  (idxTruthy mo.view.size.i = true →
    (∃ S, getCol mo.data mo.view.size.i = some S) ∧ mo.view.size.scale.valid = true)

/-- The array `arr` of the click handler when no iteration throws: the pairs of the hit
points and their squared distances, in index order. -/
def hitList (env : JSEnv) (mo : MainObj) (e : MouseEvent) : List (Nat × JSNum) :=
  (List.range mo.cache.nctg).filterMap
    (fun i => okSome (hitPoint env mo (mousePos mo.view e).1 (mousePos mo.view e).2 i))

/-- The first entry of the sorted array `arr`. -/
def winner (env : JSEnv) (mo : MainObj) (e : MouseEvent) : Option (Nat × JSNum) :=
  (jsSort (fun a b : Nat × JSNum => a.2 - b.2) (hitList env mo e)).head?

/-- Two states the click handler cannot tell apart but for the selection. -/
def SameScene (mo1 mo2 : MainObj) : Prop :=
  mo1.mask = mo2.mask ∧ mo1.view = mo2.view ∧ mo1.data = mo2.data ∧ mo1.rena = mo2.rena ∧
  mo1.cache.nctg = mo2.cache.nctg ∧ mo1.stat = mo2.stat

/-- The outcome of the hit-test branch when no iteration throws. -/
def clickOutcome (env : JSEnv) (mo : MainObj) (e : MouseEvent) : MainObj :=
  match winner env mo e with
  | none => clearSelection mo e
  | some w => togglePick (clearSelection mo e) w.1

/-- Three unmasked points on the diagonal, at the plot positions `(-50, 50)`, `(0, 0)` and
`(50, -50)`, with the pan at the centre of the canvas. -/
def diagonalState : MainObj :=
  withRanges refEnv (sampleState 3 [.cat ["a", "b", "c"], .num [0, 1, 2], .num [0, 1, 2]] 50 50)

/-- A click on the centre of the canvas without Shift. -/
def centreClick : MouseEvent := ⟨50, 50, false⟩

/-- Point `i` passes the tests of the point loop of `renderArena`: it is not masked, it
covers at least one pixel, and its bounding box around the rounded position meets the
visible region. -/
def Drawn (env : JSEnv) (mo : MainObj) (i : Nat) : Prop :=
  flagAt mo.mask i = false ∧
  ∃ radius px py,
    radiusAt env mo.view mo.data i = .ok radius ∧
    posXAt env (getCol mo.data mo.view.x.i) mo.view.x.scale mo.view.x.min
      (mo.view.x.max - mo.view.x.min) mo.rena.width i = .ok px ∧
    posYAt env (getCol mo.data mo.view.y.i) mo.view.y.scale mo.view.y.max
      (mo.view.y.max - mo.view.y.min) mo.rena.height i = .ok py ∧
    subPixel env mo.view radius = false ∧
    outsideView mo.view mo.rena px.round py.round radius = false

/-- A display item that is unset, or bound to a column with a known scale. -/
def ChannelReady (data : List Column) (v : Channel) : Prop :=
  idxTruthy v.i = true → (∃ col, getCol data v.i = some col) ∧ v.scale.valid = true

/-- The state the renderer reads is well formed: x and y are bound to columns, and every
display item that is set is bound to a column and has a known scale. -/
def ArenaReady (mo : MainObj) : Prop :=
  (∃ X, getCol mo.data mo.view.x.i = some X) ∧ mo.view.x.scale.valid = true ∧
  (∃ Y, getCol mo.data mo.view.y.i = some Y) ∧ mo.view.y.scale.valid = true ∧
  ChannelReady mo.data mo.view.size ∧ ChannelReady mo.data mo.view.opacity ∧
  ChannelReady mo.data mo.view.color

/-- The primitives of a bucket, squares first. -/
def Bucket.prims (b : Bucket) : List Prim := b.square ++ b.circle

/-! ## More of `util.js` -/

/-- Function `countTrue` of `util.js`. -/
def countTrue (arr : List Bool) : Nat :=
  arr.foldl (fun res b => if b then res + 1 else res) 0

/-- The statement `res[cat] = (res[cat] || 0) + wt` on a map kept in insertion order. -/
def addWeight (cat : String) (wt : JSNum) : List (String × JSNum) → List (String × JSNum)
  | [] => [(cat, 0 + wt)]
  | (k, v) :: rest =>
    if k = cat then (k, (if v.truthy then v else 0) + wt) :: rest
    else (k, v) :: addWeight cat wt rest

/-- One iteration of the loop of `listCatsW` on the map and the sum. -/
def listCatsWStep (acc : List (String × JSNum) × JSNum) (entry : String × JSNum) :
    List (String × JSNum) × JSNum :=
  let cat := entry.1
  let wt := entry.2
  ((if cat ≠ "" ∧ wt.selfEq then addWeight cat wt acc.1 else acc.1), acc.2 + wt)

/-- Function `listCatsW` of `util.js` on two columns of equal length: the map from category
to weighted frequency, and the sum of weights. -/
def listCatsW (arr1 : List String) (arr2 : List JSNum) : List (String × JSNum) × JSNum :=
  (arr1.zip arr2).foldl listCatsWStep ([], 0)

/-- The expression `parseInt(s.substring(j * 2, j * 2 + 2), 16)` as a number. -/
def hexPair (s : String) (j : Nat) : JSNum :=
  match parseInt16 (String.mk ((s.toList.drop (j * 2)).take 2)) with
  | none => .nan
  | some v => .fin v

/-- The three colour components of the entry pushed for the stop `i` and the step count
`j`: `Math.round(rgbs[k][i] + step * j)` for each `k`, where `step` is
`(rgbs[0][i + 1] - rgbs[0][i]) / 10`. -/
def rampEntry (rgbs : Nat → Nat → JSNum) (i j : Nat) : List JSNum :=
  let step := (rgbs 0 (i + 1) - rgbs 0 i) / 10
  (List.range 3).map (fun k => (rgbs k i + step * .fin j).round)

/-- The entries of `palette11to101` as triples of numbers: for each of the ten intervals
the stop itself and then the nine entries of the inner loop, and the last stop. -/
def rampTriples (palette : List String) : List (List JSNum) :=
  let rgbs : Nat → Nat → JSNum := fun k i => hexPair (palette.getD i "") k
  ((List.range 10).map (fun i =>
      [rgbs 0 i, rgbs 1 i, rgbs 2 i] :: (List.range 9).map (fun j => rampEntry rgbs i j))).flatten
    ++ [[rgbs 0 10, rgbs 1 10, rgbs 2 10]]

/-- The method `join` on an array of numbers. -/
def joinNums (env : JSEnv) (xs : List JSNum) : String :=
  String.intercalate "," (xs.map env.numToString)

/-- Function `palette11to101` of `util.js`. A palette of fewer than eleven entries
throws at the missing entry. -/
def palette11to101 (env : JSEnv) (palette : List String) : Except JSError (List String) :=
  if palette.length < 11 then .error .typeError
  else .ok ((rampTriples palette).map (joinNums env))

/-! ## The discrete colour map (`display.js`) -/

/-- A value of the object `cats` of `updateColorMap`: a count, or the string that `+ 1`
makes of a member the object inherits. -/
inductive Tally where
  | count (n : Nat)
  | text (s : String)
  deriving DecidableEq

/-- The number a value of `cats` is converted to by the subtraction in the comparison
function of the sort: a string that starts with `function` is no numeral and gives
`NaN`. -/
def Tally.toNum : Tally → JSNum
  | .count n => .fin n
  | .text _ => .nan

/-- The expression `(cats[val] || 0) + 1` on an own value of `cats`. -/
def Tally.succ : Tally → Tally
  | .count n => .count (n + 1)
  | .text s => .text (s ++ "1")

/-- The statement `cats[val] = (cats[val] || 0) + 1` on the own entries of the object
`cats`, kept in insertion order. For a name that `cats` inherits and does not own, the
read gives the inherited member, which is truthy, and `+ 1` appends `1` to its string;
the assignment to `__proto__` of a string is ignored. -/
def tallyAdd (val : String) : List (String × Tally) → List (String × Tally)
  | [] =>
    if val = "__proto__" then []
    else if val ∈ objectProtoNames then [(val, .text (protoString val ++ "1"))]
    else [(val, .count 1)]
  | (k, c) :: rest => if k = val then (k, c.succ) :: rest else (k, c) :: tallyAdd val rest

/-- The tally of the non-empty categories of a column. -/
def tallyCats (C : List String) : List (String × Tally) :=
  C.foldl (fun cats val => if val = "" then cats else tallyAdd val cats) []

/-- The number written by a run of decimal digits; `none` when the run is empty or
holds another character. -/
def decimalValue : List Char → Option Nat → Option Nat
  | [], acc => acc
  | c :: cs, acc =>
    if '0' ≤ c ∧ c ≤ '9' then decimalValue cs (some (acc.getD 0 * 10 + (c.toNat - '0'.toNat)))
    else none

/-- The number a property name denotes when it is an array index: the numeral of an
integer below `2^32 - 1` in canonical form. -/
def arrayIndex (s : String) : Option Nat :=
  match decimalValue s.toList none with
  | some n => if Nat.repr n = s ∧ n < 4294967295 then some n else none
  | none => none

/-- The pairs `[key, cats[key]]` in the order of `Object.keys`: the keys that are array
indices first, in ascending order, then the others in the order of insertion. -/
def objectEntries (tally : List (String × Tally)) : List (String × Tally) :=
  (tally.filter (fun kv => (arrayIndex kv.1).isSome)).insertionSort
      (fun a b => (arrayIndex a.1).getD 0 ≤ (arrayIndex b.1).getD 0)
    ++ tally.filter (fun kv => !(arrayIndex kv.1).isSome)

/-- The categories of a column with their frequencies, sorted by
`cats.sort((a, b) => b[1] - a[1])`, the most frequent first. -/
def rankedCats (C : List String) : List (String × Tally) :=
  jsSort (fun a b : String × Tally => b.2.toNum - a.2.toNum) (objectEntries (tallyCats C))

/-- The map built by the last loop of `updateColorMap`: the category of rank `i` gets
`palette[i % m]`, for the first `ncolor` ranks. An empty palette gives `undefined`,
kept as the string of that name. -/
def buildDiscmap (palette : List String) (ncolor : Nat) (cats : List (String × Tally)) :
    List (String × String) :=
  (List.range (min ncolor cats.length)).map
    (fun i => ((cats.getD i ("", .count 0)).1,
      (palette.get? (i % palette.length)).getD "undefined"))

/-- Function `updateColorMap` of `display.js`; `palette` is `PALETTES[mo.view.discpal]`,
a table that is not among the source files. -/
def updateColorMap (palette : List String) (mo : MainObj) : MainObj :=
  if !idxTruthy mo.view.color.i then mo
  else
    match getCol mo.data mo.view.color.i with
    | some (.cat C) =>
      { mo with view := { mo.view with discmap := buildDiscmap palette mo.view.ncolor (rankedCats C) } }
    | _ => mo

/-! ## The viewport handlers (`render.js`, `display.js`) -/

/-- Function `updateView` of `display.js`: the two canvases are drawn again. Of its
effect only a throw is kept; the drawing of the polygon and the focus do not throw. -/
def updateView (env : JSEnv) (mo : MainObj) : Option JSError :=
  match renderArena env mo with
  | .error e => some e
  | .ok _ =>
    match renderSelection env mo with
    | .error e => some e
    | .ok _ => none

/-- The `mousewheel` listener of the arena canvas:
`view.scale *= e.wheelDelta > 0 ? (4 / 3) : 0.75`, then `updateView`. -/
def onMouseWheel (env : JSEnv) (wheelDelta : JSNum) (mo : MainObj) : Step MainObj :=
  let mo1 := { mo with view := { mo.view with
    scale := (mo.view.scale *
      (if wheelDelta.gt 0 then ((4 : JSNum) / 3).fl else .fin (3 / 4))).fl } }
  (mo1, updateView env mo1)

/-- The `DOMMouseScroll` listener of the arena canvas:
`view.scale *= e.detail > 0 ? 0.75 : (4 / 3)`, then `updateView`. -/
def onMouseScroll (env : JSEnv) (detail : JSNum) (mo : MainObj) : Step MainObj :=
  let mo1 := { mo with view := { mo.view with
    scale := (mo.view.scale *
      (if detail.gt 0 then .fin (3 / 4) else ((4 : JSNum) / 3).fl)).fl } }
  (mo1, updateView env mo1)

/-- The position of the pointer in the window, `e.clientX` and `e.clientY`. -/
structure PointerEvent where
  clientX : JSNum
  clientY : JSNum
  deriving DecidableEq

/-- The `mousedown` listener of the arena canvas: the drag anchor is the pointer minus
the pan. -/
def onMouseDown (e : PointerEvent) (mo : MainObj) : MainObj :=
  { mo with stat := { mo.stat with mousedown := true, dragX := e.clientX - mo.view.posX,
                                   dragY := e.clientY - mo.view.posY } }

/-- The test of `canvasMouseMove` that the candidate pan is more than a pixel away from
the pan on an axis. -/
def movedBeyondPixel (view : View) (posX posY : JSNum) : Bool :=
  (posX - view.posX).abs.gt 1 || (posY - view.posY).abs.gt 1

/-- Function `canvasMouseMove` of `render.js`. Without a pressed button it only writes
the coordinates label of the page. -/
def canvasMouseMove (env : JSEnv) (e : PointerEvent) (mo : MainObj) : Step MainObj :=
  if mo.stat.mousedown then
    let posX := e.clientX - mo.stat.dragX
    let posY := e.clientY - mo.stat.dragY
    if movedBeyondPixel mo.view posX posY then
      let mo1 := { mo with stat := { mo.stat with mousemove := true },
                           view := { mo.view with posX := posX, posY := posY } }
      (mo1, updateView env mo1)
    else (mo, none)
  else (mo, none)

/-- A statement that may throw, run on the state an earlier statement left, unless that
one threw. -/
def andThen {σ : Type} (r : Step σ) (f : σ → Step σ) : Step σ :=
  match r with
  | (s, some e) => (s, some e)
  | (s, none) => f s

/-- Function `resetView` of `display.js`. -/
def resetView (env : JSEnv) (mo : MainObj) : Step MainObj :=
  let mo1 := { mo with view := { mo.view with scale := 1, posX := dim mo.rena.width / 2,
                                              posY := dim mo.rena.height / 2 } }
  andThen (andThen (calcDispMinMax env mo1 allItems) (fun s => transDataForDisplay env s allItems))
    (fun s => (s, updateView env s))

/-- Whether the colour item is being bound to a categorical column:
`item === 'color' && mo.cols.types[i] === 'cat'`. -/
def isCatColor (data : List Column) (item : Item) (i : Option Nat) : Bool :=
  match item, getCol data i with
  | .color, some (.cat _) => true
  | _, _ => false

/-- Function `displayItemChange` of `display.js`; `palette` is the discrete palette read
by `updateColorMap`. -/
def displayItemChange (env : JSEnv) (palette : List String) (item : Item) (i : Option Nat)
    (scale : Scale) (mo : MainObj) : Step MainObj :=
  let mo1 := { mo with view := mo.view.set item { mo.view.get item with i := i, scale := scale } }
  if item = .x ∨ item = .y then resetView env mo1
  else
    let r :=
      if isCatColor mo1.data item i then ((updateColorMap palette mo1, none) : Step MainObj)
      else calcDispMinMax env mo1 [item]
    andThen (andThen (andThen r (fun s => transDataForDisplay env s [item]))
      (fun s => match renderArena env s with
        | .error e => (s, some e)
        | .ok _ => (s, none)))
      (fun s => (s, updateLegends env s [item]))

/-- The click listener of the swap button: the field, the scale and the range of the
x- and the y-axis are exchanged, the two axes transformed again and the arena drawn.
The update of the controls touches the page only. -/
def swapAxes (env : JSEnv) (mo : MainObj) : Step MainObj :=
  let xx := mo.view.x
  let yy := mo.view.y
  let mo1 := { mo with view := { mo.view with
    x := { xx with i := yy.i, scale := yy.scale, min := yy.min, max := yy.max },
    y := { yy with i := xx.i, scale := xx.scale, min := xx.min, max := xx.max } } }
  andThen (andThen (transXForDisplay env mo1) (transYForDisplay env))
    (fun s => match renderArena env s with
      | .error e => (s, some e)
      | .ok _ => (s, none))

/-! ## The polygon selector (`render.js`) -/

/-- The body of the point loop of `polygonSelect`: the index of an unmasked point whose
position passes the membership test `pnpoly`, a function that is not among the source
files. -/
def polygonPoint (env : JSEnv) (pnpoly : JSNum → JSNum → List (JSNum × JSNum) → Bool)
    (mo : MainObj) (i : Nat) : Except JSError (Option Nat) :=
  let view := mo.view
  if !flagAt mo.mask i then
    match posXAt env (getCol mo.data view.x.i) view.x.scale view.x.min
        (view.x.max - view.x.min) mo.rena.width i with
    | .error e => .error e
    | .ok x =>
      match posYAt env (getCol mo.data view.y.i) view.y.scale view.y.max
          (view.y.max - view.y.min) mo.rena.height i with
      | .error e => .error e
      | .ok y => if pnpoly x y mo.stat.polygon then .ok (some i) else .ok none
  else .ok none

/-- Function `polygonSelect` of `render.js`. The membership test `pnpoly` and the
selection update `treatSelection` are not among the source files and are taken as
given; the appearance of the button and the clearing of the overlay touch the page
only. -/
def polygonSelect (env : JSEnv) (pnpoly : JSNum → JSNum → List (JSNum × JSNum) → Bool)
    (treatSelection : List Nat → MainObj → Bool → Step MainObj) (mo : MainObj) (shift : Bool) :
    Step MainObj :=
  let n := mo.cache.nctg
  if n = 0 then (mo, none)
  else if !mo.stat.drawing then
    ({ mo with stat := { mo.stat with polygon := [], drawing := true } }, none)
  else
    match forUpTo n (collectStep (polygonPoint env pnpoly mo) (fun i ctgs => ctgs ++ [i])) [] with
    | (_, some e) => (mo, some e)
    | (ctgs, none) =>
      treatSelection ctgs { mo with stat := { mo.stat with polygon := [], drawing := false } } shift

/-! ## More sample states -/

/-- Two points; the colour bound to the numeric column 3 with the unknown scale `bogus`,
and the transformed colours holding values of an earlier, valid transform. -/
def badColorScaleState : MainObj :=
  let mo := sampleState 2 [.cat ["a", "b"], .num [0, 1], .num [0, 1], .num [1, 2]] 50 50
  { mo with view := { mo.view with color := { boundChannel 3 with scale := .str "bogus", max := 2 } },
            trans := { mo.trans with color := [some "10,0,0", some "90,0,0"] } }

/-- Two points; the colour bound to the categorical column 4 with the unknown scale
`bogus`. -/
def badCatScaleState : MainObj :=
  let mo := sampleState 2 [.cat ["a", "b"], .num [0, 1], .num [0, 1], .num [1, 2], .cat ["u", "v"]] 50 50
  { mo with view := { mo.view with color := { boundChannel 4 with scale := .str "bogus" },
                                   discmap := [("u", "ff0000")] } }

/-- Two unmasked points of which the first is picked, and no field for the x-axis. -/
def noAxisState : MainObj :=
  let mo := sampleState 2 [.cat ["a", "b"], .num [0, 1], .num [0, 1]] 50 50
  { mo with view := { mo.view with x := unsetChannel }, pick := [true, false], cache := ⟨2, 1⟩ }

/-- An error thrown by `scaleNum`. -/
def IsScaleError (e : JSError) : Prop :=
  e = .invalidScaleType ∨ ∃ name, e = .invalidScaleName name

/-- The three points of `diagonalState` seen at the zoom 1/5. -/
def zoomedOutState : MainObj :=
  { diagonalState with view := { diagonalState.view with scale := .fin (1 / 5) } }

/-- Three unmasked points on the diagonal with the size bound to column 3, of values 1, 2
and 3, the zero flag off and the clip window from 0 to 100; the ranges are computed by
`calcDispMinMax`. -/
def sizedState : MainObj :=
  let mo := sampleState 3 [.cat ["a", "b", "c"], .num [0, 1, 2], .num [0, 1, 2], .num [1, 2, 3]] 50 50
  withRanges refEnv { mo with view := { mo.view with size := boundChannel 3 } }

/-- The polygon membership test used in the evaluations: inside the square between
`(-10, -10)` and `(10, 10)`, whatever the vertices. -/
def squareTest (x y : JSNum) (_ : List (JSNum × JSNum)) : Bool :=
  (JSNum.fin (-10)).le x && x.le (.fin 10) && (JSNum.fin (-10)).le y && y.le (.fin 10)

/-- A selection update for the evaluations: the candidates replace or join the
selection. -/
def sampleTreat (ctgs : List Nat) (mo : MainObj) (shift : Bool) : Step MainObj :=
  let pick := (List.range mo.pick.length).map
    (fun i => decide (i ∈ ctgs) || (shift && flagAt mo.pick i))
  ({ mo with pick := pick }, none)

/-- Whether point `i` passes the membership test of `polygonSelect` at the position the
function computes for it. -/
def insidePolygon (env : JSEnv) (pnpoly : JSNum → JSNum → List (JSNum × JSNum) → Bool)
    (mo : MainObj) (i : Nat) : Bool :=
  match posXAt env (getCol mo.data mo.view.x.i) mo.view.x.scale mo.view.x.min
      (mo.view.x.max - mo.view.x.min) mo.rena.width i,
    posYAt env (getCol mo.data mo.view.y.i) mo.view.y.scale mo.view.y.max
      (mo.view.y.max - mo.view.y.min) mo.rena.height i with
  | .ok x, .ok y => pnpoly x y mo.stat.polygon
  | _, _ => false

/-- The state `diagonalState` while a polygon of three vertices is being drawn. -/
def drawingState : MainObj :=
  let stat := { diagonalState.stat with drawing := true, polygon := [(0, 0), (10, 0), (0, 10)] }
  { diagonalState with stat := stat }

/-- Two states with the same zoom, pan and canvas size. -/
def SameCamera (a b : MainObj) : Prop :=
  a.view.scale = b.view.scale ∧ a.view.posX = b.view.posX ∧ a.view.posY = b.view.posY ∧
  a.rena = b.rena

/-- The state `diagonalState` seen at the zoom 2 with the pan at `(30, 40)`. -/
def pannedState : MainObj :=
  { diagonalState with view := { diagonalState.view with posX := 30, posY := 40, scale := 2 } }

/-- The state after `n` steps of the mouse wheel towards zooming in. -/
def zoomInTimes (env : JSEnv) (n : Nat) (mo : MainObj) : MainObj :=
  (fun s => (onMouseWheel env 120 s).1)^[n] mo

/-- An eleven-stop palette from green to red, black from the third stop on. -/
def greenToRed : List String :=
  ["00ff00", "ff0000", "000000", "000000", "000000", "000000", "000000", "000000", "000000",
   "000000", "000000"]

/-- Three unmasked points on the diagonal, the colour bound to the numeric column 3 of
values -1, 0 and 1 on the scale `none`; the ranges are computed by `calcDispMinMax`. -/
def zeroColorState : MainObj :=
  let mo := sampleState 3 [.cat ["a", "b", "c"], .num [0, 1, 2], .num [0, 1, 2], .num [.fin (-1), 0, 1]] 50 50
  withRanges refEnv { mo with view := { mo.view with color := boundChannel 3 } }

/-- The pick count of the cache is the number of selected points. -/
def PickCounted (mo : MainObj) : Prop := mo.cache.npick = (countTrue mo.pick : Int)

/-- The state `diagonalState` with the middle point selected. -/
def pickedState : MainObj :=
  { diagonalState with pick := [false, true, false], cache := { diagonalState.cache with npick := 1 } }

/-- Three unmasked points with the values 0, 1 and 3, both axes bound to that column; the
ranges are computed by `calcDispMinMax`. -/
def thirdsState : MainObj :=
  let mo := sampleState 3 [.cat ["a", "b", "c"], .num [0, 1, 3]] 50 50
  withRanges refEnv { mo with view := { mo.view with y := boundChannel 1 } }

/-- The diagonal state with the base radius `0.5641895835477563`, the double that
`Math.sqrt(1 / Math.PI)` returns. -/
def boundaryRadiusState : MainObj :=
  { diagonalState with
    view := { diagonalState.view with rbase := .fin (5081767996463981 / 2 ^ 53) } }

/-- The `switch` of `scaleNum` over any kind of number: the value the scale `name` gives
for `num`, given the operations `Math.pow` (with the exponents 2 and 3), `Math.sqrt`,
`Math.cbrt`, `Math.log` and `Math.exp`; `none` for a name outside the `switch`. -/
def scaleByName {α : Type} (pow : α → Nat → α) (sqrt cbrt log exp : α → α) (name : String)
    (num : α) : Option α :=
  if name = "none" then some num
  else if name = "square" then some (pow num 2)
  else if name = "sqrt" then some (sqrt num)
  else if name = "cube" then some (pow num 3)
  else if name = "cbrt" then some (cbrt num)
  else if name = "log" then some (log num)
  else if name = "exp" then some (exp num)
  else none

/-- Six points whose colour is bound to the categorical column 3 with the categories `a`
twice, `constructor` once and `b` three times, and a colour map of one colour. -/
def inheritedNameState : MainObj :=
  let mo := sampleState 6
    [.cat ["p", "q", "r", "s", "t", "u"], .num [0, 1, 2, 3, 4, 5], .num [0, 1, 2, 3, 4, 5],
     .cat ["a", "a", "constructor", "b", "b", "b"]] 50 50
  { mo with view := { mo.view with color := boundChannel 3, ncolor := 1 } }

/-- Three points on the diagonal with the colour bound to the categorical column 3, of
which the discrete map holds the category `a`, and the opacity bound to column 4, of
values 1, 2 and 3; the ranges are computed by `calcDispMinMax`. -/
def styledState : MainObj :=
  let mo := sampleState 3
    [.cat ["p", "q", "r"], .num [0, 1, 2], .num [0, 1, 2], .cat ["a", "constructor", "b"],
     .num [1, 2, 3]] 50 50
  withRanges refEnv { mo with view := { mo.view with
    color := boundChannel 3, opacity := boundChannel 4, discmap := [("a", "ff0000")] } }

/-! ## Properties -/

/-! ### Arithmetic of numbers -/

namespace JSNum

@[simp] theorem fin_add_fin (a b : ℚ) : (fin a + fin b : JSNum) = fin (a + b) := rfl

@[simp] theorem fin_sub_fin (a b : ℚ) : (fin a - fin b : JSNum) = fin (a - b) := by
  show add (fin a) (neg (fin b)) = _
  simp [neg, add, sub_eq_add_neg]

@[simp] theorem fin_mul_fin (a b : ℚ) : (fin a * fin b : JSNum) = fin (a * b) := rfl

theorem fin_div_fin (a b : ℚ) (hb : b ≠ 0) : (fin a / fin b : JSNum) = fin (a / b) := by
  show div (fin a) (fin b) = _
  simp [div, hb]

theorem ofNat_eq_fin (n : Nat) : (OfNat.ofNat n : JSNum) = fin n := rfl

end JSNum

theorem scaleNum_ok_of_valid (env : JSEnv) (x : JSNum) (s : Scale) (h : s.valid = true) :
    ∃ r, scaleNum env x s = .ok r := by
  cases s with
  | null => exact ⟨_, rfl⟩
  | num p => exact ⟨_, rfl⟩
  | str name =>
    simp only [Scale.valid, knownScales, decide_eq_true_eq, List.mem_cons, List.mem_singleton,
      List.not_mem_nil, or_false] at h
    rcases h with h | h | h | h | h | h | h <;> subst h <;> simp [scaleNum]
  | other => simp [Scale.valid] at h

theorem scaleNum_error_of_not_valid (env : JSEnv) (x : JSNum) (s : Scale) (h : s.valid = false) :
    ∃ e, scaleNum env x s = .error e := by
  cases s with
  | null => simp [Scale.valid] at h
  | num p => simp [Scale.valid] at h
  | str name =>
    simp only [Scale.valid, knownScales, decide_eq_false_iff_not, List.mem_cons,
      List.mem_singleton, List.not_mem_nil, or_false, not_or] at h
    obtain ⟨h1, h2, h3, h4, h5, h6, h7⟩ := h
    simp [scaleNum, h1, h2, h3, h4, h5, h6, h7]
  | other => exact ⟨_, rfl⟩

/-! ### Rounding to binary64 -/

theorem pow2_eq (e : ℤ) : pow2 e = (2 : ℚ) ^ e := by
  unfold pow2
  split_ifs with h
  · obtain ⟨n, rfl⟩ := Int.eq_ofNat_of_zero_le h
    simp
  · obtain ⟨n, hn⟩ := Int.eq_ofNat_of_zero_le (show 0 ≤ -e by omega)
    have he : e = -(n : ℤ) := by omega
    rw [hn, he]
    simp [zpow_neg]

theorem pow2_pos (e : ℤ) : 0 < pow2 e := by
  rw [pow2_eq]
  exact zpow_pos (by norm_num) e

theorem pow2_add (a b : ℤ) : pow2 (a + b) = pow2 a * pow2 b := by
  rw [pow2_eq, pow2_eq, pow2_eq, zpow_add₀ (by norm_num)]

theorem pow2_le_pow2 {a b : ℤ} (h : a ≤ b) : pow2 a ≤ pow2 b := by
  rw [pow2_eq, pow2_eq]
  exact zpow_le_zpow_right₀ (by norm_num) h

theorem log2Aux_spec (fuel n : Nat) (hn : n ≠ 0) (hf : n ≤ fuel) :
    2 ^ log2Aux fuel n ≤ n ∧ n < 2 ^ (log2Aux fuel n + 1) := by
  induction fuel generalizing n with
  | zero => omega
  | succ f ih =>
    unfold log2Aux
    split_ifs with h2
    · constructor
      · simp; omega
      · simp; omega
    · have h3 : n / 2 ≠ 0 := by omega
      have h4 : n / 2 ≤ f := by omega
      obtain ⟨a, b⟩ := ih (n / 2) h3 h4
      constructor
      · rw [pow_succ]; omega
      · rw [pow_succ]; omega

theorem bitLog_spec (n : Nat) (hn : n ≠ 0) : 2 ^ bitLog n ≤ n ∧ n < 2 ^ (bitLog n + 1) :=
  log2Aux_spec n n hn (Nat.le_refl n)

theorem abs_eq_natAbs_div_den (q : ℚ) : |q| = (q.num.natAbs : ℚ) / (q.den : ℚ) := by
  have hd : (0 : ℚ) < q.den := by exact_mod_cast q.den_pos
  conv_lhs => rw [← Rat.num_div_den q]
  rw [abs_div, abs_of_pos hd, Nat.cast_natAbs, Int.cast_abs]

/-- The binary exponent brackets the magnitude of a number other than `0`. -/
theorem binExp_spec (q : ℚ) (hq : q ≠ 0) :
    pow2 (binExp q) ≤ |q| ∧ |q| < pow2 (binExp q + 1) := by
  have hn : q.num.natAbs ≠ 0 := by
    rw [Ne, Int.natAbs_eq_zero, Rat.num_eq_zero]; exact hq
  have hd : q.den ≠ 0 := q.den_nz
  obtain ⟨ha1, ha2⟩ := bitLog_spec _ hn
  obtain ⟨hb1, hb2⟩ := bitLog_spec _ hd
  have ha1q : (2 : ℚ) ^ bitLog q.num.natAbs ≤ (q.num.natAbs : ℚ) := by exact_mod_cast ha1
  have ha2q : (q.num.natAbs : ℚ) < (2 : ℚ) ^ (bitLog q.num.natAbs + 1) := by exact_mod_cast ha2
  have hb1q : (2 : ℚ) ^ bitLog q.den ≤ (q.den : ℚ) := by exact_mod_cast hb1
  have hb2q : (q.den : ℚ) < (2 : ℚ) ^ (bitLog q.den + 1) := by exact_mod_cast hb2
  have hdpos : (0 : ℚ) < q.den := by exact_mod_cast q.den_pos
  have habs := abs_eq_natAbs_div_den q
  have hpa : (0 : ℚ) < (2 : ℚ) ^ bitLog q.num.natAbs := pow_pos (by norm_num) _
  have hpb : (0 : ℚ) < (2 : ℚ) ^ bitLog q.den := pow_pos (by norm_num) _
  have hk : pow2 ((bitLog q.num.natAbs : ℤ) - (bitLog q.den : ℤ))
      = (2 : ℚ) ^ bitLog q.num.natAbs / (2 : ℚ) ^ bitLog q.den := by
    rw [pow2_eq, zpow_sub₀ (by norm_num), zpow_natCast, zpow_natCast]
  have hupper : |q| < pow2 ((bitLog q.num.natAbs : ℤ) - (bitLog q.den : ℤ) + 1) := by
    rw [pow2_add, hk, habs, div_lt_iff₀ hdpos]
    have h1 : pow2 1 = 2 := by decide!
    rw [h1]
    have : (2 : ℚ) ^ bitLog q.num.natAbs / (2 : ℚ) ^ bitLog q.den * 2 * (q.den : ℚ)
        = (2 : ℚ) ^ (bitLog q.num.natAbs + 1) * ((q.den : ℚ) / (2 : ℚ) ^ bitLog q.den) := by
      rw [pow_succ]; field_simp
    rw [this]
    have h2 : (1 : ℚ) ≤ (q.den : ℚ) / (2 : ℚ) ^ bitLog q.den := by
      rw [le_div_iff₀ hpb]; linarith
    calc (q.num.natAbs : ℚ) < (2 : ℚ) ^ (bitLog q.num.natAbs + 1) := ha2q
      _ = (2 : ℚ) ^ (bitLog q.num.natAbs + 1) * 1 := by ring
      _ ≤ _ := by
        apply mul_le_mul_of_nonneg_left h2
        positivity
  have hlower : pow2 ((bitLog q.num.natAbs : ℤ) - (bitLog q.den : ℤ) - 1) ≤ |q| := by
    have hsplit : (bitLog q.num.natAbs : ℤ) - (bitLog q.den : ℤ) - 1
        = ((bitLog q.num.natAbs : ℤ) - (bitLog q.den : ℤ)) + (-1) := by ring
    rw [hsplit, pow2_add, hk, habs, le_div_iff₀ hdpos]
    have h1 : pow2 (-1) = 1 / 2 := by decide!
    rw [h1]
    have : (2 : ℚ) ^ bitLog q.num.natAbs / (2 : ℚ) ^ bitLog q.den * (1 / 2) * (q.den : ℚ)
        = (2 : ℚ) ^ bitLog q.num.natAbs * ((q.den : ℚ) / (2 : ℚ) ^ (bitLog q.den + 1)) := by
      rw [pow_succ]; field_simp
    rw [this]
    have h2 : (q.den : ℚ) / (2 : ℚ) ^ (bitLog q.den + 1) ≤ 1 := by
      rw [div_le_one (by positivity)]; linarith
    calc (2 : ℚ) ^ bitLog q.num.natAbs * ((q.den : ℚ) / (2 : ℚ) ^ (bitLog q.den + 1))
        ≤ (2 : ℚ) ^ bitLog q.num.natAbs * 1 := by
          apply mul_le_mul_of_nonneg_left h2
          positivity
      _ = (2 : ℚ) ^ bitLog q.num.natAbs := by ring
      _ ≤ _ := ha1q
  unfold binExp
  split_ifs with h
  · exact ⟨h, hupper⟩
  · refine ⟨hlower, ?_⟩
    have : (bitLog q.num.natAbs : ℤ) - (bitLog q.den : ℤ) - 1 + 1
        = (bitLog q.num.natAbs : ℤ) - (bitLog q.den : ℤ) := by ring
    rw [this]
    exact lt_of_not_le h

theorem binExp_neg (q : ℚ) : binExp (-q) = binExp q := by
  unfold binExp
  simp only [Rat.neg_num, Rat.neg_den, Int.natAbs_neg, abs_neg]

theorem binExp_mono {q1 q2 : ℚ} (h1 : q1 ≠ 0) (h2 : q2 ≠ 0) (h : |q1| ≤ |q2|) :
    binExp q1 ≤ binExp q2 := by
  have a := (binExp_spec q1 h1).1
  have b := (binExp_spec q2 h2).2
  have hlt : pow2 (binExp q1) < pow2 (binExp q2 + 1) := lt_of_le_of_lt (a.trans h) b
  rw [pow2_eq, pow2_eq] at hlt
  have := (zpow_lt_zpow_iff_right₀ (by norm_num : (1 : ℚ) < 2)).mp hlt
  omega

theorem ulpExp_neg (q : ℚ) : ulpExp (-q) = ulpExp q := by
  unfold ulpExp
  rw [binExp_neg]

theorem ulpExp_mono {q1 q2 : ℚ} (h1 : q1 ≠ 0) (h2 : q2 ≠ 0) (h : |q1| ≤ |q2|) :
    ulpExp q1 ≤ ulpExp q2 := by
  unfold ulpExp
  have := binExp_mono h1 h2 h
  omega

theorem roundEven_bounds (x : ℚ) : ⌊x⌋ ≤ roundEven x ∧ roundEven x ≤ ⌊x⌋ + 1 := by
  unfold roundEven
  split_ifs <;> constructor <;> omega

theorem roundEven_error (x : ℚ) : |(roundEven x : ℚ) - x| ≤ 1 / 2 := by
  have h1 := Int.floor_le x
  have h2 := Int.lt_floor_add_one x
  unfold roundEven
  rw [abs_le]
  split_ifs <;> push_cast <;> constructor <;> linarith

theorem roundEven_intCast (n : ℤ) : roundEven (n : ℚ) = n := by
  unfold roundEven
  simp

theorem roundEven_mono {x y : ℚ} (h : x ≤ y) : roundEven x ≤ roundEven y := by
  have hf : ⌊x⌋ ≤ ⌊y⌋ := Int.floor_mono h
  rcases lt_or_eq_of_le hf with hlt | heq
  · have a := (roundEven_bounds x).2
    have b := (roundEven_bounds y).1
    omega
  · unfold roundEven
    rw [heq]
    split_ifs <;> first | omega | (exfalso; linarith)

theorem roundEven_neg (x : ℚ) : roundEven (-x) = -roundEven x := by
  have h1 := Int.floor_le x
  have h2 := Int.lt_floor_add_one x
  have h3 := Int.floor_le (-x)
  have h4 := Int.lt_floor_add_one (-x)
  have hg : ⌊-x⌋ = -⌊x⌋ ∨ ⌊-x⌋ = -⌊x⌋ - 1 := by
    have a : (⌊-x⌋ : ℚ) < (-⌊x⌋ + 1 : ℤ) := by push_cast; linarith
    have b : ((-⌊x⌋ - 2 : ℤ) : ℚ) < (⌊-x⌋ : ℚ) := by push_cast; linarith
    have a2 : ⌊-x⌋ < -⌊x⌋ + 1 := by exact_mod_cast a
    have b2 : -⌊x⌋ - 2 < ⌊-x⌋ := by exact_mod_cast b
    omega
  rcases hg with hg | hg
  · have hx : x = ⌊x⌋ := by
      have : (⌊-x⌋ : ℚ) = -(⌊x⌋ : ℚ) := by rw [hg]; push_cast; ring
      linarith
    rw [hx, ← Int.cast_neg, roundEven_intCast, roundEven_intCast]
  · have hgq : (⌊-x⌋ : ℚ) = -(⌊x⌋ : ℚ) - 1 := by rw [hg]; push_cast; ring
    unfold roundEven
    rw [hg]
    split_ifs <;> push_cast at * <;> first | omega | (exfalso; linarith)

theorem roundDouble_neg (q : ℚ) : roundDouble (-q) = -roundDouble q := by
  unfold roundDouble
  rw [ulpExp_neg, neg_div, roundEven_neg]
  push_cast
  ring

theorem roundDouble_zero : roundDouble 0 = 0 := by
  unfold roundDouble
  rw [zero_div]
  have : roundEven 0 = 0 := by simpa using roundEven_intCast 0
  rw [this]
  simp

/-- The rounding error is at most half a unit in the last place. -/
theorem roundDouble_error (q : ℚ) : |roundDouble q - q| ≤ pow2 (ulpExp q) / 2 := by
  have hp := pow2_pos (ulpExp q)
  have h := roundEven_error (q / pow2 (ulpExp q))
  have e : roundDouble q - q
      = ((roundEven (q / pow2 (ulpExp q)) : ℚ) - q / pow2 (ulpExp q)) * pow2 (ulpExp q) := by
    unfold roundDouble
    field_simp
  rw [e, abs_mul, abs_of_pos hp]
  calc |(roundEven (q / pow2 (ulpExp q)) : ℚ) - q / pow2 (ulpExp q)| * pow2 (ulpExp q)
      ≤ 1 / 2 * pow2 (ulpExp q) := mul_le_mul_of_nonneg_right h hp.le
    _ = pow2 (ulpExp q) / 2 := by ring

/-- In the normal range the rounding error is at most `2^-53` of the magnitude. -/
theorem roundDouble_rel (q : ℚ) (hq : pow2 (-1022) ≤ |q|) :
    |roundDouble q - q| ≤ |q| / 2 ^ 53 := by
  have hq0 : q ≠ 0 := by
    intro h
    rw [h, abs_zero] at hq
    exact absurd hq (not_le.mpr (pow2_pos _))
  obtain ⟨hlo, hhi⟩ := binExp_spec q hq0
  have hb : -1022 ≤ binExp q := by
    have : pow2 (-1022) < pow2 (binExp q + 1) := lt_of_le_of_lt hq hhi
    rw [pow2_eq, pow2_eq] at this
    have := (zpow_lt_zpow_iff_right₀ (by norm_num : (1 : ℚ) < 2)).mp this
    omega
  have he : ulpExp q = binExp q + (-52) := by
    unfold ulpExp
    omega
  have herr := roundDouble_error q
  rw [he, pow2_add] at herr
  have h52 : pow2 (-52) = 1 / 2 ^ 52 := by decide!
  rw [h52] at herr
  calc |roundDouble q - q| ≤ pow2 (binExp q) * (1 / 2 ^ 52) / 2 := herr
    _ = pow2 (binExp q) / 2 ^ 53 := by ring
    _ ≤ |q| / 2 ^ 53 := by
      apply div_le_div_of_nonneg_right hlo
      positivity

/-- The rounding error in general: relative `2^-53`, or half the smallest subnormal. -/
theorem roundDouble_abs (q : ℚ) : |roundDouble q - q| ≤ |q| / 2 ^ 53 + 1 / 2 ^ 1075 := by
  by_cases hq : pow2 (-1022) ≤ |q|
  · have : (0 : ℚ) ≤ 1 / 2 ^ 1075 := by positivity
    linarith [roundDouble_rel q hq]
  · have hlt : |q| < pow2 (-1022) := lt_of_not_le hq
    by_cases hq0 : q = 0
    · subst hq0
      rw [roundDouble_zero]
      norm_num
    · have he : ulpExp q = -1074 := by
        have hlo := (binExp_spec q hq0).1
        have : pow2 (binExp q) < pow2 (-1022) := lt_of_le_of_lt hlo hlt
        rw [pow2_eq, pow2_eq] at this
        have := (zpow_lt_zpow_iff_right₀ (by norm_num : (1 : ℚ) < 2)).mp this
        unfold ulpExp
        omega
      have herr := roundDouble_error q
      rw [he] at herr
      have h : pow2 (-1074) / 2 = 1 / 2 ^ 1075 := by decide!
      rw [h] at herr
      have : (0 : ℚ) ≤ |q| / 2 ^ 53 := by positivity
      linarith

theorem scaled_lt (q : ℚ) (hq : q ≠ 0) : |q| / pow2 (ulpExp q) < 2 ^ 53 := by
  have hp := pow2_pos (ulpExp q)
  rw [div_lt_iff₀ hp]
  have hhi := (binExp_spec q hq).2
  have h53 : (2 : ℚ) ^ 53 = pow2 53 := by decide!
  rw [h53, ← pow2_add]
  refine lt_of_lt_of_le hhi (pow2_le_pow2 ?_)
  unfold ulpExp
  omega

theorem scaled_ge (q : ℚ) (hq : q ≠ 0) (hn : -1074 < ulpExp q) :
    2 ^ 52 ≤ |q| / pow2 (ulpExp q) := by
  have hp := pow2_pos (ulpExp q)
  rw [le_div_iff₀ hp]
  have hlo := (binExp_spec q hq).1
  have h52 : (2 : ℚ) ^ 52 = pow2 52 := by decide!
  rw [h52, ← pow2_add]
  refine le_trans (pow2_le_pow2 ?_) hlo
  unfold ulpExp at hn ⊢
  omega

theorem roundDouble_nonneg {q : ℚ} (hq : 0 ≤ q) : 0 ≤ roundDouble q := by
  unfold roundDouble
  have hp := pow2_pos (ulpExp q)
  have h0 : roundEven 0 ≤ roundEven (q / pow2 (ulpExp q)) :=
    roundEven_mono (div_nonneg hq hp.le)
  have h00 : roundEven 0 = 0 := by simpa using roundEven_intCast 0
  rw [h00] at h0
  have : (0 : ℚ) ≤ (roundEven (q / pow2 (ulpExp q)) : ℚ) := by exact_mod_cast h0
  positivity

theorem roundDouble_mono_pos {q1 q2 : ℚ} (h1 : 0 < q1) (h : q1 ≤ q2) :
    roundDouble q1 ≤ roundDouble q2 := by
  have h2 : 0 < q2 := lt_of_lt_of_le h1 h
  have hab : |q1| ≤ |q2| := by rw [abs_of_pos h1, abs_of_pos h2]; exact h
  have he := ulpExp_mono h1.ne' h2.ne' hab
  have hp1 := pow2_pos (ulpExp q1)
  have hp2 := pow2_pos (ulpExp q2)
  rcases lt_or_eq_of_le he with hlt | heq
  · have ha : (roundEven (q1 / pow2 (ulpExp q1)) : ℚ) ≤ 2 ^ 53 := by
      have hs := scaled_lt q1 h1.ne'
      rw [abs_of_pos h1] at hs
      have := roundEven_mono hs.le
      have h53 : ((2 : ℚ) ^ 53) = ((2 ^ 53 : ℤ) : ℚ) := by norm_num
      rw [h53, roundEven_intCast] at this
      rw [h53]
      exact_mod_cast this
    have hb : (2 : ℚ) ^ 52 ≤ (roundEven (q2 / pow2 (ulpExp q2)) : ℚ) := by
      have hn : -1074 < ulpExp q2 := by
        have : -1074 ≤ ulpExp q1 := by unfold ulpExp; omega
        omega
      have hs := scaled_ge q2 h2.ne' hn
      rw [abs_of_pos h2] at hs
      have := roundEven_mono hs
      have h52 : ((2 : ℚ) ^ 52) = ((2 ^ 52 : ℤ) : ℚ) := by norm_num
      rw [h52, roundEven_intCast] at this
      rw [h52]
      exact_mod_cast this
    unfold roundDouble
    have hstep : pow2 (ulpExp q1) * 2 ≤ pow2 (ulpExp q2) := by
      have : pow2 (ulpExp q1 + 1) ≤ pow2 (ulpExp q2) := pow2_le_pow2 (by omega)
      rw [pow2_add] at this
      have h1' : pow2 1 = 2 := by decide!
      rwa [h1'] at this
    calc (roundEven (q1 / pow2 (ulpExp q1)) : ℚ) * pow2 (ulpExp q1)
        ≤ 2 ^ 53 * pow2 (ulpExp q1) := mul_le_mul_of_nonneg_right ha hp1.le
      _ = 2 ^ 52 * (pow2 (ulpExp q1) * 2) := by ring
      _ ≤ 2 ^ 52 * pow2 (ulpExp q2) := by
        apply mul_le_mul_of_nonneg_left hstep
        positivity
      _ ≤ (roundEven (q2 / pow2 (ulpExp q2)) : ℚ) * pow2 (ulpExp q2) :=
        mul_le_mul_of_nonneg_right hb hp2.le
  · unfold roundDouble
    rw [heq]
    have := roundEven_mono (div_le_div_of_nonneg_right h hp2.le)
    have hc : (roundEven (q1 / pow2 (ulpExp q2)) : ℚ) ≤ (roundEven (q2 / pow2 (ulpExp q2)) : ℚ) := by
      exact_mod_cast this
    exact mul_le_mul_of_nonneg_right hc hp2.le

/-- Rounding to the nearest binary64 value is monotone. -/
theorem roundDouble_mono {q1 q2 : ℚ} (h : q1 ≤ q2) : roundDouble q1 ≤ roundDouble q2 := by
  rcases lt_trichotomy q1 0 with h1 | h1 | h1
  · rcases lt_or_le q2 0 with h2 | h2
    · have := roundDouble_mono_pos (neg_pos.mpr h2) (neg_le_neg h)
      rw [roundDouble_neg, roundDouble_neg] at this
      linarith
    · have a := roundDouble_nonneg h2
      have b := roundDouble_nonneg (neg_pos.mpr h1).le
      rw [roundDouble_neg] at b
      linarith
  · subst h1
    rw [roundDouble_zero]
    exact roundDouble_nonneg h
  · exact roundDouble_mono_pos h1 h

theorem roundDouble_one : roundDouble 1 = 1 := by decide!

theorem roundDouble_half : roundDouble (1 / 2) = 1 / 2 := by decide!

theorem roundDouble_neg_half : roundDouble (-(1 / 2)) = -(1 / 2) := by decide!

/-- A result whose magnitude is at most `2^1023` does not overflow. -/
theorem ofExact_eq_fin (q : ℚ) (hq : |q| ≤ 2 ^ 1023) : JSNum.ofExact q = .fin (roundDouble q) := by
  have hb : roundDouble (2 ^ 1023) = 2 ^ 1023 := by decide!
  have hup : roundDouble q ≤ 2 ^ 1023 := by
    have := roundDouble_mono (le_trans (le_abs_self q) hq)
    rwa [hb] at this
  have hlo : -(2 ^ 1023) ≤ roundDouble q := by
    have h1 : -(2 ^ 1023 : ℚ) ≤ q := by
      have := neg_abs_le q
      linarith
    have := roundDouble_mono h1
    rwa [roundDouble_neg, hb] at this
  have habs : |roundDouble q| ≤ 2 ^ 1023 := abs_le.mpr ⟨hlo, hup⟩
  have h1024 : pow2 1024 = 2 ^ 1024 := by decide!
  unfold JSNum.ofExact
  rw [h1024, if_neg]
  rw [not_le]
  calc |roundDouble q| ≤ 2 ^ 1023 := habs
    _ < 2 ^ 1024 := by norm_num

theorem fl_fin_eq (q : ℚ) (hq : |q| ≤ 2 ^ 1023) : (JSNum.fin q).fl = .fin (roundDouble q) :=
  ofExact_eq_fin q hq

theorem pow2_neg_1022_le {q : ℚ} (h : 1 / 2 ^ 1000 ≤ q) : pow2 (-1022) ≤ |q| := by
  have h1 : pow2 (-1022) = 1 / 2 ^ 1022 := by decide!
  have h2 : (1 : ℚ) / 2 ^ 1022 ≤ 1 / 2 ^ 1000 := by
    apply one_div_le_one_div_of_le (by positivity)
    exact pow_le_pow_right₀ (by norm_num) (by norm_num)
  rw [h1]
  exact le_trans (le_trans h2 h) (le_abs_self q)

theorem isqrtAux_spec (n : Nat) : ∀ fuel lo hi, lo * lo ≤ n → n < hi * hi → hi ≤ lo + fuel + 1 →
    isqrtAux fuel lo hi n * isqrtAux fuel lo hi n ≤ n ∧
    n < (isqrtAux fuel lo hi n + 1) * (isqrtAux fuel lo hi n + 1) := by
  intro fuel
  induction fuel with
  | zero =>
    intro lo hi h1 h2 h3
    simp only [isqrtAux]
    have h4 : hi ≤ lo + 1 := by omega
    exact ⟨h1, lt_of_lt_of_le h2 (Nat.mul_le_mul h4 h4)⟩
  | succ k ih =>
    intro lo hi h1 h2 h3
    unfold isqrtAux
    split_ifs with ha hb
    · exact ⟨h1, lt_of_lt_of_le h2 (Nat.mul_le_mul ha ha)⟩
    · exact ih _ _ hb h2 (by omega)
    · exact ih _ _ h1 (not_le.mp hb) (by omega)

theorem isqrt_spec (n : Nat) : isqrt n * isqrt n ≤ n ∧ n < (isqrt n + 1) * (isqrt n + 1) := by
  unfold isqrt
  exact isqrtAux_spec n (n + 1) 0 (n + 1) (by omega) (by nlinarith) (by omega)

theorem half_step (m u : ℚ) (hm : 1 / 2 ≤ m * u) (hu : u ≤ 1) (t : ℚ) (hm0 : 0 ≤ m)
    (h1 : (m - 1 / 2) ^ 2 ≤ t) (h2 : t ≤ (m + 1 / 2) ^ 2) :
    m ^ 2 * (1 - u) ^ 2 ≤ t ∧ t ≤ m ^ 2 * (1 + u) ^ 2 := by
  have a : m * (1 - u) ≤ m - 1 / 2 := by linarith
  have a0 : 0 ≤ m * (1 - u) := mul_nonneg hm0 (by linarith)
  have b : m + 1 / 2 ≤ m * (1 + u) := by linarith
  have b0 : 0 ≤ m + 1 / 2 := by linarith
  constructor
  · have := pow_le_pow_left₀ a0 a 2
    rw [mul_pow] at this
    linarith
  · have := pow_le_pow_left₀ b0 b 2
    rw [mul_pow] at this
    linarith

theorem sqrtDouble_spec (q : ℚ) (hq : 0 < q) :
    0 < sqrtDouble q ∧ sqrtDouble q ^ 2 * (1 - 1 / 2 ^ 53) ^ 2 ≤ q ∧
      q ≤ sqrtDouble q ^ 2 * (1 + 1 / 2 ^ 53) ^ 2 := by
  obtain ⟨hb, _⟩ := binExp_spec q hq.ne'
  rw [abs_of_pos hq] at hb
  have hP := pow2_pos (binExp q / 2 - 52)
  have hP2 : pow2 (2 * (binExp q / 2 - 52)) = pow2 (binExp q / 2 - 52) ^ 2 := by
    rw [two_mul, pow2_add, sq]
  have h104 : pow2 104 = 2 ^ 104 := by
    rw [pow2_eq]
    norm_cast
  have hle : pow2 (2 * (binExp q / 2 - 52)) * 2 ^ 104 ≤ q := by
    rw [← h104, ← pow2_add]
    exact le_trans (pow2_le_pow2 (by omega)) hb
  have hPP : 0 < pow2 (2 * (binExp q / 2 - 52)) := pow2_pos _
  have ht : (2 : ℚ) ^ 104 ≤ q / pow2 (2 * (binExp q / 2 - 52)) := by
    rw [le_div_iff₀ hPP]
    linarith
  have ht0 : 0 ≤ q / pow2 (2 * (binExp q / 2 - 52)) := le_trans (by positivity) ht
  have hfl0 : 0 ≤ ⌊q / pow2 (2 * (binExp q / 2 - 52))⌋ := Int.floor_nonneg.mpr ht0
  have hn : ((⌊q / pow2 (2 * (binExp q / 2 - 52))⌋.toNat : ℕ) : ℤ)
      = ⌊q / pow2 (2 * (binExp q / 2 - 52))⌋ := Int.toNat_of_nonneg hfl0
  have hnq : ((⌊q / pow2 (2 * (binExp q / 2 - 52))⌋.toNat : ℕ) : ℚ)
      = ((⌊q / pow2 (2 * (binExp q / 2 - 52))⌋ : ℤ) : ℚ) := by
    rw [← hn]
    exact (Int.cast_natCast _).symm
  have hn1 : ((⌊q / pow2 (2 * (binExp q / 2 - 52))⌋.toNat : ℕ) : ℚ)
      ≤ q / pow2 (2 * (binExp q / 2 - 52)) := by
    rw [hnq]
    exact Int.floor_le _
  have hn2 : q / pow2 (2 * (binExp q / 2 - 52))
      < ((⌊q / pow2 (2 * (binExp q / 2 - 52))⌋.toNat : ℕ) : ℚ) + 1 := by
    rw [hnq]
    exact Int.lt_floor_add_one _
  have hpow : ((2 ^ 104 : ℕ) : ℚ) = 2 ^ 104 := by
    simp only [Nat.cast_pow, Nat.cast_ofNat]
  obtain ⟨hf1, hf2⟩ := isqrt_spec ⌊q / pow2 (2 * (binExp q / 2 - 52))⌋.toNat
  have hf52 : 2 ^ 52 ≤ isqrt ⌊q / pow2 (2 * (binExp q / 2 - 52))⌋.toNat := by
    by_contra hcon
    have h1 : isqrt ⌊q / pow2 (2 * (binExp q / 2 - 52))⌋.toNat + 1 ≤ 2 ^ 52 := by omega
    have h2 := Nat.mul_le_mul h1 h1
    have h3 : (2 : ℕ) ^ 52 * 2 ^ 52 = 2 ^ 104 := by rw [← pow_add]
    rw [h3] at h2
    have h4 : ⌊q / pow2 (2 * (binExp q / 2 - 52))⌋.toNat + 1 ≤ 2 ^ 104 :=
      le_trans hf2 h2
    have h5 : ((⌊q / pow2 (2 * (binExp q / 2 - 52))⌋.toNat + 1 : ℕ) : ℚ)
        ≤ ((2 ^ 104 : ℕ) : ℚ) := Nat.cast_le.mpr h4
    rw [hpow, Nat.cast_add, Nat.cast_one] at h5
    linarith
  have hf1q : ((isqrt ⌊q / pow2 (2 * (binExp q / 2 - 52))⌋.toNat : ℕ) : ℚ) ^ 2
      ≤ q / pow2 (2 * (binExp q / 2 - 52)) := by
    refine le_trans ?_ hn1
    rw [sq]
    exact_mod_cast hf1
  have hf2q : q / pow2 (2 * (binExp q / 2 - 52))
      ≤ (((isqrt ⌊q / pow2 (2 * (binExp q / 2 - 52))⌋.toNat : ℕ) : ℚ) + 1) ^ 2 := by
    have h1 : ⌊q / pow2 (2 * (binExp q / 2 - 52))⌋.toNat + 1
        ≤ (isqrt ⌊q / pow2 (2 * (binExp q / 2 - 52))⌋.toNat + 1)
          * (isqrt ⌊q / pow2 (2 * (binExp q / 2 - 52))⌋.toNat + 1) := hf2
    have h2 : ((⌊q / pow2 (2 * (binExp q / 2 - 52))⌋.toNat : ℕ) : ℚ) + 1
        ≤ (((isqrt ⌊q / pow2 (2 * (binExp q / 2 - 52))⌋.toNat : ℕ) : ℚ) + 1) ^ 2 := by
      rw [sq]
      exact_mod_cast h1
    linarith
  have hf52q : (2 : ℚ) ^ 52
      ≤ ((isqrt ⌊q / pow2 (2 * (binExp q / 2 - 52))⌋.toNat : ℕ) : ℚ) := by
    have h1 : ((2 ^ 52 : ℕ) : ℚ)
        ≤ ((isqrt ⌊q / pow2 (2 * (binExp q / 2 - 52))⌋.toNat : ℕ) : ℚ) := Nat.cast_le.mpr hf52
    simpa only [Nat.cast_pow, Nat.cast_ofNat] using h1
  have key : ∀ m : ℕ,
      (m = isqrt ⌊q / pow2 (2 * (binExp q / 2 - 52))⌋.toNat
          ∧ q / pow2 (2 * (binExp q / 2 - 52)) ≤ ((m : ℚ) + 1 / 2) ^ 2) ∨
        (m = isqrt ⌊q / pow2 (2 * (binExp q / 2 - 52))⌋.toNat + 1
          ∧ ((m : ℚ) - 1 / 2) ^ 2 ≤ q / pow2 (2 * (binExp q / 2 - 52))) →
      0 < (m : ℚ) * pow2 (binExp q / 2 - 52) ∧
      ((m : ℚ) * pow2 (binExp q / 2 - 52)) ^ 2 * (1 - 1 / 2 ^ 53) ^ 2 ≤ q ∧
      q ≤ ((m : ℚ) * pow2 (binExp q / 2 - 52)) ^ 2 * (1 + 1 / 2 ^ 53) ^ 2 := by
    intro m hm
    have hm52 : (2 : ℚ) ^ 52 ≤ (m : ℚ) := by
      rcases hm with ⟨h, _⟩ | ⟨h, _⟩
      · rw [h]; exact hf52q
      · rw [h]; push_cast; linarith
    have hlo : ((m : ℚ) - 1 / 2) ^ 2 ≤ q / pow2 (2 * (binExp q / 2 - 52)) := by
      rcases hm with ⟨h, _⟩ | ⟨_, h2⟩
      · refine le_trans ?_ hf1q
        rw [← h]
        have : (0 : ℚ) ≤ (m : ℚ) - 1 / 2 := by
          have : (1 : ℚ) ≤ 2 ^ 52 := by norm_num
          linarith
        exact pow_le_pow_left₀ this (by linarith) 2
      · exact h2
    have hhi : q / pow2 (2 * (binExp q / 2 - 52)) ≤ ((m : ℚ) + 1 / 2) ^ 2 := by
      rcases hm with ⟨_, h2⟩ | ⟨h, _⟩
      · exact h2
      · refine le_trans hf2q ?_
        rw [h]
        push_cast
        have : (0 : ℚ)
            ≤ ((isqrt ⌊q / pow2 (2 * (binExp q / 2 - 52))⌋.toNat : ℕ) : ℚ) + 1 := by
          positivity
        exact pow_le_pow_left₀ this (by linarith) 2
    have hm0 : (0 : ℚ) < (m : ℚ) := lt_of_lt_of_le (by positivity) hm52
    have hmu : (1 : ℚ) / 2 ≤ (m : ℚ) * (1 / 2 ^ 53) := by
      have h1 : (1 : ℚ) / 2 = 2 ^ 52 * (1 / 2 ^ 53) := by norm_num
      rw [h1]
      exact mul_le_mul_of_nonneg_right hm52 (by positivity)
    obtain ⟨r1, r2⟩ := half_step (m : ℚ) (1 / 2 ^ 53) hmu (by norm_num) _ hm0.le hlo hhi
    refine ⟨mul_pos hm0 hP, ?_, ?_⟩
    · rw [mul_pow, ← hP2]
      have := mul_le_mul_of_nonneg_right r1 hPP.le
      rw [div_mul_cancel₀ _ hPP.ne'] at this
      linarith
    · rw [mul_pow, ← hP2]
      have := mul_le_mul_of_nonneg_right r2 hPP.le
      rw [div_mul_cancel₀ _ hPP.ne'] at this
      linarith
  unfold sqrtDouble
  simp only
  split_ifs with c1 c2 c3
  · exact key _ (Or.inl ⟨rfl, c1.le⟩)
  · exact key _ (Or.inr ⟨rfl, by push_cast; ring_nf; ring_nf at c2; linarith⟩)
  · exact key _ (Or.inl ⟨rfl, not_lt.mp c2⟩)
  · exact key _ (Or.inr ⟨rfl, by
      have := not_lt.mp c1
      push_cast
      ring_nf
      ring_nf at this
      linarith⟩)

theorem ofExact_lt_fin (q t : ℚ) (hq : 0 ≤ q) (ht : t ≤ pow2 1024) :
    (JSNum.ofExact q).lt (.fin t) = decide (roundDouble q < t) := by
  have h0 := roundDouble_nonneg hq
  unfold JSNum.ofExact
  by_cases h1 : pow2 1024 ≤ |roundDouble q|
  · rw [if_pos h1]
    rw [abs_of_nonneg h0] at h1
    have hn : ¬ roundDouble q < t := not_lt.mpr (le_trans ht h1)
    rw [decide_eq_false hn]
    have hq0 : 0 < q := by
      rcases hq.lt_or_eq with h | h
      · exact h
      · rw [← h, roundDouble_zero] at h1
        exact absurd h1 (not_le.mpr (pow2_pos _))
    rw [if_pos hq0]
    rfl
  · rw [if_neg h1]
    rfl

theorem area_within (s r clo chi P e : ℝ) (h1 : r ^ 2 * clo ≤ s ^ 2) (h2 : s ^ 2 ≤ r ^ 2 * chi)
    (hlo : P * (1 - e) ≤ clo) (hhi : chi ≤ P * (1 + e)) :
    |s ^ 2 - P * r ^ 2| ≤ P * r ^ 2 * e := by
  have a := mul_le_mul_of_nonneg_left hlo (sq_nonneg r)
  have b := mul_le_mul_of_nonneg_left hhi (sq_nonneg r)
  rw [abs_le]
  constructor <;> nlinarith

theorem sq_within (s a u : ℚ) (ha : 0 ≤ a) (hu : u ≤ 1) (h : |s - a| ≤ a * u) :
    a ^ 2 * (1 - u) ^ 2 ≤ s ^ 2 ∧ s ^ 2 ≤ a ^ 2 * (1 + u) ^ 2 := by
  rw [abs_le] at h
  have hlo : a * (1 - u) ≤ s := by linarith [h.1]
  have hhi : s ≤ a * (1 + u) := by linarith [h.2]
  have h0 : 0 ≤ a * (1 - u) := mul_nonneg ha (by linarith)
  have hs : 0 ≤ s := le_trans h0 hlo
  constructor
  · have := pow_le_pow_left₀ h0 hlo 2
    rwa [mul_pow] at this
  · have := pow_le_pow_left₀ hs hhi 2
    rwa [mul_pow] at this

/-! ### Arrays -/

theorem length_setAt {α : Type} (arr : List α) (i : Nat) (v d : α) :
    (setAt arr i v d).length = max arr.length (i + 1) := by
  unfold setAt
  split_ifs with h
  · simp; omega
  · simp; omega

theorem get?_setAt_self {α : Type} (arr : List α) (i : Nat) (v d : α) :
    (setAt arr i v d).get? i = some v := by
  unfold setAt
  split_ifs with h
  · simp [List.getElem?_set, h]
  · have h1 : arr.length ≤ i := Nat.le_of_not_lt h
    rw [List.get?_eq_getElem?, List.getElem?_append_right (by simp; omega)]
    have : i - (arr ++ List.replicate (i - arr.length) d).length = 0 := by simp; omega
    rw [this]
    rfl

theorem get?_setAt_of_ne {α : Type} (arr : List α) (i j : Nat) (v d : α) (hne : j ≠ i)
    (hj : j < arr.length) : (setAt arr i v d).get? j = arr.get? j := by
  unfold setAt
  split_ifs with h
  · simp [List.getElem?_set, hne.symm]
  · rw [List.get?_eq_getElem?, List.get?_eq_getElem?, List.append_assoc,
      List.getElem?_append_left hj]

theorem length_assignAll_ge {α : Type} (val : Nat → α) (d : α) (l : List Nat) (target : List α) :
    target.length ≤ (assignAll val d l target).length := by
  induction l generalizing target with
  | nil => simp [assignAll]
  | cons i l ih =>
    simp only [assignAll, List.foldl_cons]
    refine le_trans ?_ (ih _)
    rw [length_setAt]
    exact le_max_left _ _

theorem get?_assignAll_of_not_mem {α : Type} (val : Nat → α) (d : α) (l : List Nat)
    (target : List α) (k : Nat) (hk : k ∉ l) (hlen : k < target.length) :
    (assignAll val d l target).get? k = target.get? k := by
  induction l generalizing target with
  | nil => simp [assignAll]
  | cons i l ih =>
    simp only [List.mem_cons, not_or] at hk
    simp only [assignAll, List.foldl_cons]
    have hlen2 : k < (setAt target i (val i) d).length := by
      rw [length_setAt]; exact lt_of_lt_of_le hlen (le_max_left _ _)
    have := ih (setAt target i (val i) d) hk.2 hlen2
    simp only [assignAll] at this
    rw [this, get?_setAt_of_ne _ _ _ _ _ hk.1 hlen]

theorem get?_assignAll_of_mem {α : Type} (val : Nat → α) (d : α) (l : List Nat)
    (target : List α) (k : Nat) (hk : k ∈ l) (hnd : l.Nodup) :
    (assignAll val d l target).get? k = some (val k) := by
  induction l generalizing target with
  | nil => simp at hk
  | cons i l ih =>
    simp only [List.nodup_cons] at hnd
    simp only [assignAll, List.foldl_cons]
    rcases List.mem_cons.mp hk with h | h
    · subst h
      have hlen : k < (setAt target k (val k) d).length := by
        rw [length_setAt]; exact lt_of_lt_of_le (Nat.lt_succ_self k) (le_max_right _ _)
      have := get?_assignAll_of_not_mem val d l (setAt target k (val k) d) k hnd.1 hlen
      simp only [assignAll] at this
      rw [this, get?_setAt_self]
    · have := ih (setAt target i (val i) d) h hnd.2
      simpa only [assignAll] using this

/-! ### Loops -/

theorem forEach_transStep_ok {α : Type} (env : JSEnv) (source : Option Column) (scale : Scale)
    (f : JSNum → α) (d : α) (g : Nat → JSNum) (l : List Nat) (target : List α)
    (h : ∀ i ∈ l, scaleAt env source i scale = .ok (g i)) :
    forEach (transStep env source scale f d) l target
      = (assignAll (fun i => f (g i)) d l target, none) := by
  induction l generalizing target with
  | nil => rfl
  | cons i l ih =>
    have hi := h i (List.mem_cons_self _ _)
    simp only [forEach, transStep, hi, assignAll, List.foldl_cons]
    exact ih _ (fun j hj => h j (List.mem_cons_of_mem _ hj))

/-! ### Rounding and the clip window -/

theorem clip_between (sv mn mx L H : ℚ) (h1 : mn ≤ sv) (h2 : sv ≤ mx) (h3 : mn < mx)
    (h4 : L ≤ H) :
    L ≤ (sv - mn) * ((H - L) / (mx - mn)) + L ∧ (sv - mn) * ((H - L) / (mx - mn)) + L ≤ H := by
  have hd : 0 < mx - mn := sub_pos.mpr h3
  have ht0 : 0 ≤ (sv - mn) / (mx - mn) := div_nonneg (sub_nonneg.mpr h1) hd.le
  have ht1 : (sv - mn) / (mx - mn) ≤ 1 := by
    rw [div_le_one hd]; linarith
  have he : (sv - mn) * ((H - L) / (mx - mn)) = (sv - mn) / (mx - mn) * (H - L) := by
    field_simp
  rw [he]
  have hHL : 0 ≤ H - L := sub_nonneg.mpr h4
  constructor
  · nlinarith [mul_nonneg ht0 hHL]
  · nlinarith [mul_le_mul_of_nonneg_right ht1 hHL]

theorem toFixed2_unit (q : ℚ) (h0 : 0 ≤ q) (h1 : q ≤ 1) :
    ∃ n : ℕ, (JSNum.fin q).toFixed2 = .dec false n ∧ n ≤ 100 ∧ |(n : ℚ) / 100 - q| ≤ 1 / 200 := by
  have habs : |q| = q := abs_of_nonneg h0
  have hbig : ¬ ((10 : ℚ) ^ 21 ≤ q) := by
    intro h; norm_num at h; linarith
  have hfl0 : (0 : ℤ) ≤ ⌊q * 100 + 1 / 2⌋ := Int.floor_nonneg.mpr (by positivity)
  have hfl1 : ⌊q * 100 + 1 / 2⌋ ≤ (100 : ℤ) := by
    have : ⌊q * 100 + 1 / 2⌋ < (101 : ℤ) := by
      rw [Int.floor_lt]; push_cast; linarith
    omega
  refine ⟨⌊q * 100 + 1 / 2⌋.toNat, ?_, ?_, ?_⟩
  · simp only [JSNum.toFixed2, habs, hbig, if_false]
    congr 1
    simp [not_lt.mpr h0]
  · omega
  · have hcast : ((⌊q * 100 + 1 / 2⌋.toNat : ℕ) : ℚ) = ((⌊q * 100 + 1 / 2⌋ : ℤ) : ℚ) := by
      rw [← Int.cast_natCast, Int.toNat_of_nonneg hfl0]
    rw [hcast, abs_le]
    have hle := Int.floor_le (q * 100 + 1 / 2)
    have hlt := Int.lt_floor_add_one (q * 100 + 1 / 2)
    constructor <;> linarith

theorem round_between (q : ℚ) (h0 : 0 ≤ q) (h1 : q ≤ 100) :
    ∃ n : ℕ, (JSNum.fin q).round = .fin n ∧ n ≤ 100 := by
  have hfl0 : (0 : ℤ) ≤ ⌊q + 1 / 2⌋ := Int.floor_nonneg.mpr (by positivity)
  have hfl1 : ⌊q + 1 / 2⌋ ≤ (100 : ℤ) := by
    have : ⌊q + 1 / 2⌋ < (101 : ℤ) := by
      rw [Int.floor_lt]; push_cast; linarith
    omega
  refine ⟨⌊q + 1 / 2⌋.toNat, ?_, by omega⟩
  simp only [JSNum.round]
  congr 1
  rw [← Int.cast_natCast, Int.toNat_of_nonneg hfl0]

theorem round_integer (x : JSNum) (q : ℚ) (h : x.round = .fin q) : q.den = 1 := by
  cases x with
  | fin a =>
    simp only [JSNum.round, JSNum.fin.injEq] at h
    rw [← h]
    exact Rat.den_intCast _
  | pinf => simp [JSNum.round] at h
  | ninf => simp [JSNum.round] at h
  | nan => simp [JSNum.round] at h

theorem rampAt_defined (cmap : List String) (n : ℕ) (hn : n < cmap.length) :
    ∃ c, rampAt cmap (.fin n) = some c := by
  refine ⟨cmap.get ⟨n, hn⟩, ?_⟩
  simp [rampAt, List.getElem?_eq_getElem hn]

theorem clipValue_fin (v : Channel) (s : JSNum) (lo hi mn mx sv : ℚ)
    (hlo : v.lower = .fin lo) (hhi : v.upper = .fin hi) (hmn : v.effMin = .fin mn)
    (hmx : v.max = .fin mx) (hs : s = .fin sv) (hne : mn < mx) :
    clipValue v s = .fin ((sv - mn) * ((hi / 100 - lo / 100) / (mx - mn)) + lo / 100) := by
  have hd : mx - mn ≠ 0 := ne_of_gt (sub_pos.mpr hne)
  have h100 : (100 : JSNum) = .fin 100 := by
    rw [JSNum.ofNat_eq_fin]; norm_num
  simp only [clipValue, hlo, hhi, hmn, hmx, hs, h100, JSNum.fin_sub_fin, JSNum.fin_mul_fin,
    JSNum.fin_add_fin, JSNum.fin_div_fin _ _ (by norm_num : (100 : ℚ) ≠ 0),
    JSNum.fin_div_fin _ _ hd]

theorem colorIndex_fin (v : Channel) (s : JSNum) (lo hi mn mx sv : ℚ)
    (hlo : v.lower = .fin lo) (hhi : v.upper = .fin hi) (hmn : v.effMin = .fin mn)
    (hmx : v.max = .fin mx) (hs : s = .fin sv) (hne : mn < mx) :
    colorIndex v s = (JSNum.fin ((sv - mn) * ((hi - lo) / (mx - mn)) + lo)).round := by
  have hd : mx - mn ≠ 0 := ne_of_gt (sub_pos.mpr hne)
  simp only [colorIndex, rampIndex, hlo, hhi, hmn, hmx, hs, JSNum.fin_sub_fin, JSNum.fin_mul_fin,
    JSNum.fin_add_fin, JSNum.fin_div_fin _ _ hd]

theorem forUpTo_transStep_get? {α : Type} (env : JSEnv) (col : Column) (scale : Scale)
    (f : JSNum → α) (d : α) (n : Nat) (target : List α) (hvalid : scale.valid = true) :
    (forUpTo n (transStep env (some col) scale f d) target).2 = none ∧
    ∀ k, k < n → ∃ s, scaleNum env (col.numAt k) scale = .ok s ∧
      (forUpTo n (transStep env (some col) scale f d) target).1.get? k = some (f s) := by
  choose g hg using fun i => scaleNum_ok_of_valid env (col.numAt i) scale hvalid
  have h := forEach_transStep_ok env (some col) scale f d g (List.range n) target
    (fun i _ => by simpa [scaleAt] using hg i)
  refine ⟨by simp [forUpTo, h], fun k hk => ⟨g k, hg k, ?_⟩⟩
  simp only [forUpTo, h]
  exact get?_assignAll_of_mem _ d _ target k (List.mem_range.mpr hk) (List.nodup_range n)

/-! ### The click handler -/

namespace JSNum

theorem zero_eq_fin : (0 : JSNum) = fin 0 := by
  rw [ofNat_eq_fin]; norm_num

theorem gt_sub_zero (a b : JSNum) (ha : a ≠ nan) (hb : b ≠ nan) : (a - b).gt 0 = b.lt a := by
  rw [zero_eq_fin]
  show lt (fin 0) (add a (neg b)) = lt b a
  cases a <;> cases b <;> simp_all [lt, add, neg, sub_eq_add_neg]

theorem ne_nan_of_le {a b : JSNum} (h : a.le b = true) : a ≠ nan ∧ b ≠ nan := by
  cases a <;> cases b <;> simp_all [le]

theorem le_refl_of_ne_nan {a : JSNum} (h : a ≠ nan) : a.le a = true := by
  cases a <;> simp_all [le]

theorem le_chain {a b c : JSNum} (h1 : a.le b = true) (h2 : b.le c = true) : a.le c = true := by
  cases a <;> cases b <;> cases c <;> simp_all [le]
  exact h1.trans h2

theorem le_of_lt {a b : JSNum} (h : a.lt b = true) : a.le b = true := by
  cases a <;> cases b <;> simp_all [le, lt]
  exact h.le

theorem le_of_not_lt {a b : JSNum} (ha : a ≠ nan) (hb : b ≠ nan) (h : b.lt a = false) :
    a.le b = true := by
  cases a <;> cases b <;> simp_all [le, lt]

theorem not_le_of_lt {a b : JSNum} (h : a.lt b = true) : b.le a = false := by
  cases a <;> cases b <;> simp_all [le, lt]

end JSNum

/-! ### Collecting loops -/

theorem forEach_collect_of_ok {α σ : Type} (f : Nat → Except JSError (Option α))
    (push : α → σ → σ) (l : List Nat) (s : σ) (h : ∀ i ∈ l, ∃ r, f i = .ok r) :
    forEach (collectStep f push) l s
      = ((l.filterMap (fun i => okSome (f i))).foldl (fun s a => push a s) s, none) := by
  induction l generalizing s with
  | nil => rfl
  | cons i l ih =>
    obtain ⟨r, hr⟩ := h i (List.mem_cons_self _ _)
    have ih2 := fun s => ih s (fun j hj => h j (List.mem_cons_of_mem _ hj))
    cases r with
    | none => simp [forEach, collectStep, hr, okSome, ih2]
    | some a => simp [forEach, collectStep, hr, okSome, ih2]

theorem forEach_collect_all_ok {α σ : Type} (f : Nat → Except JSError (Option α))
    (push : α → σ → σ) (l : List Nat) (s : σ)
    (h : (forEach (collectStep f push) l s).2 = none) : ∀ i ∈ l, ∃ r, f i = .ok r := by
  induction l generalizing s with
  | nil => simp
  | cons i l ih =>
    intro j hj
    cases hfi : f i with
    | error err => simp [forEach, collectStep, hfi] at h
    | ok r =>
      rcases List.mem_cons.mp hj with rfl | hj
      · exact ⟨r, hfi⟩
      · cases r with
        | none =>
          simp only [forEach, collectStep, hfi] at h
          exact ih _ h j hj
        | some a =>
          simp only [forEach, collectStep, hfi] at h
          exact ih _ h j hj

theorem forEach_collect_error {α σ : Type} (f : Nat → Except JSError (Option α))
    (push : α → σ → σ) (l : List Nat) (s : σ) (err : JSError)
    (h : (forEach (collectStep f push) l s).2 = some err) : ∃ i ∈ l, f i = .error err := by
  induction l generalizing s with
  | nil => simp [forEach] at h
  | cons i l ih =>
    cases hfi : f i with
    | error e2 =>
      simp only [forEach, collectStep, hfi, Option.some.injEq] at h
      exact ⟨i, List.mem_cons_self _ _, by rw [← h]; exact hfi⟩
    | ok r =>
      cases r with
      | none =>
        simp only [forEach, collectStep, hfi] at h
        obtain ⟨j, hj, hje⟩ := ih _ h
        exact ⟨j, List.mem_cons_of_mem _ hj, hje⟩
      | some a =>
        simp only [forEach, collectStep, hfi] at h
        obtain ⟨j, hj, hje⟩ := ih _ h
        exact ⟨j, List.mem_cons_of_mem _ hj, hje⟩

theorem foldl_append_singleton {α : Type} (l acc : List α) :
    l.foldl (fun s a => s ++ [a]) acc = acc ++ l := by
  induction l generalizing acc with
  | nil => simp
  | cons a l ih => simp [ih]

/-! ### Sorting -/

theorem jsSort_eq_nil {α : Type} (cmp : α → α → JSNum) (l : List α) :
    jsSort cmp l = [] ↔ l = [] := by
  cases l with
  | nil => simp [jsSort]
  | cons a l =>
    simp only [jsSort, List.foldr_cons, reduceCtorEq, iff_false]
    cases h : List.foldr (sortInsert cmp) [] l with
    | nil => simp [sortInsert]
    | cons b rest =>
      simp only [sortInsert]
      split_ifs <;> simp

theorem jsSort_head_min (l : List (Nat × JSNum)) (hl : ∀ a ∈ l, a.2 ≠ .nan)
    (w : Nat × JSNum) (rest : List (Nat × JSNum))
    (h : jsSort (fun a b => a.2 - b.2) l = w :: rest) :
    w ∈ l ∧ ∀ b ∈ l, w.2.le b.2 = true := by
  induction l generalizing w rest with
  | nil => simp [jsSort] at h
  | cons a l ih =>
    have ha : a.2 ≠ .nan := hl a (List.mem_cons_self _ _)
    have hl2 : ∀ b ∈ l, b.2 ≠ .nan := fun b hb => hl b (List.mem_cons_of_mem _ hb)
    simp only [jsSort, List.foldr_cons] at h
    cases hs : List.foldr (sortInsert (fun a b : Nat × JSNum => a.2 - b.2)) [] l with
    | nil =>
      have hnil : l = [] := (jsSort_eq_nil _ l).mp hs
      rw [hs] at h
      simp only [sortInsert, List.cons.injEq] at h
      subst hnil
      rw [← h.1]
      exact ⟨List.mem_cons_self _ _, fun b hb => by
        rw [List.mem_singleton.mp hb]; exact JSNum.le_refl_of_ne_nan ha⟩
    | cons b rest2 =>
      obtain ⟨hbmem, hbmin⟩ := ih hl2 b rest2 hs
      have hb : b.2 ≠ .nan := hl2 b hbmem
      rw [hs] at h
      simp only [sortInsert, JSNum.gt_sub_zero _ _ ha hb] at h
      by_cases hlt : b.2.lt a.2 = true
      · simp only [hlt, if_true, List.cons.injEq] at h
        rw [← h.1]
        refine ⟨List.mem_cons_of_mem _ hbmem, fun c hc => ?_⟩
        rcases List.mem_cons.mp hc with rfl | hc
        · exact JSNum.le_of_lt hlt
        · exact hbmin c hc
      · have hlt2 : b.2.lt a.2 = false := by simpa using hlt
        simp only [hlt2, Bool.false_eq_true, if_false, List.cons.injEq] at h
        rw [← h.1]
        have hab : a.2.le b.2 = true := JSNum.le_of_not_lt ha hb hlt2
        refine ⟨List.mem_cons_self _ _, fun c hc => ?_⟩
        rcases List.mem_cons.mp hc with rfl | hc
        · exact JSNum.le_refl_of_ne_nan ha
        · exact JSNum.le_chain hab (hbmin c hc)

theorem flagAt_setAt (arr : List Bool) (i j : Nat) (v : Bool) :
    flagAt (setAt arr i v false) j = if j = i then v else flagAt arr j := by
  unfold flagAt
  rw [List.getD_eq_getElem?_getD, List.getD_eq_getElem?_getD]
  by_cases hji : j = i
  · subst hji
    have h := get?_setAt_self arr j v false
    rw [List.get?_eq_getElem?] at h
    rw [h]
    simp
  · simp only [hji, if_false]
    by_cases hj : j < arr.length
    · have h := get?_setAt_of_ne arr i j v false hji hj
      rw [List.get?_eq_getElem?, List.get?_eq_getElem?] at h
      rw [h]
    · have hnone : arr[j]? = none := List.getElem?_eq_none (by omega)
      rw [hnone]
      unfold setAt
      split_ifs with h
      · rw [List.getElem?_set]
        simp only [Ne.symm hji, if_false]
        rw [List.getElem?_eq_none (by omega)]
      · rw [List.append_assoc, List.getElem?_append_right (by omega)]
        by_cases hlt : j - arr.length < i - arr.length
        · rw [List.getElem?_append_left (by simpa using hlt)]
          simp [List.getElem?_replicate, hlt]
        · rw [List.getElem?_append_right (by simpa using hlt)]
          rw [List.getElem?_eq_none (by simp; omega)]

theorem flagAt_map_false (arr : List Bool) (j : Nat) :
    flagAt (arr.map (fun _ => false)) j = false := by
  unfold flagAt
  rw [List.getD_eq_getElem?_getD]
  cases h : (arr.map (fun _ => false))[j]? with
  | none => rfl
  | some b =>
    rw [List.getElem?_map] at h
    cases h2 : arr[j]? with
    | none => simp [h2] at h
    | some c => simp [h2] at h; simp [← h]

theorem pick_clearSelection (mo : MainObj) (e : MouseEvent) :
    (clearSelection mo e).pick = basePick mo e := by
  unfold clearSelection basePick
  cases e.shiftKey <;> rfl

theorem flagAt_togglePick (mo : MainObj) (w j : Nat) :
    flagAt (togglePick mo w).pick j = if j = w then !flagAt mo.pick j else flagAt mo.pick j := by
  unfold togglePick
  by_cases hw : flagAt mo.pick w = true
  · simp only [hw, if_true, flagAt_setAt]
    by_cases hj : j = w
    · subst hj; simp [hw]
    · simp [hj]
  · have hw2 : flagAt mo.pick w = false := by simpa using hw
    simp only [hw2, Bool.false_eq_true, if_false, flagAt_setAt]
    by_cases hj : j = w
    · subst hj; simp [hw2]
    · simp [hj]

theorem hitPoint_some_iff (env : JSEnv) (mo : MainObj) (x0 y0 : JSNum) (i j : Nat) (d : JSNum) :
    hitPoint env mo x0 y0 i = .ok (some (j, d)) ↔ j = i ∧ Hit env mo x0 y0 i d := by
  unfold hitPoint Hit
  cases hm : flagAt mo.mask i with
  | true => simp
  | false =>
    simp only [Bool.false_eq_true, if_false, true_and]
    cases hr : hitRadiusAt env mo.view mo.data i with
    | error err => simp
    | ok radius =>
      cases hx : posXAt env (getCol mo.data mo.view.x.i) mo.view.x.scale mo.view.x.min
          (mo.view.x.max - mo.view.x.min) mo.rena.width i with
      | error err => simp
      | ok x =>
        cases hy : posYAt env (getCol mo.data mo.view.y.i) mo.view.y.scale mo.view.y.max
            (mo.view.y.max - mo.view.y.min) mo.rena.height i with
        | error err => simp
        | ok y =>
          simp only [Except.ok.injEq, exists_and_left, exists_eq_left']
          by_cases hle : (dist2 x y x0 y0).le (radius.powNat 2) = true
          · simp only [hle, if_true, Except.ok.injEq, Option.some.injEq, Prod.mk.injEq]
            constructor
            · rintro ⟨rfl, rfl⟩
              exact ⟨rfl, rfl, hle⟩
            · rintro ⟨rfl, rfl, _⟩
              exact ⟨rfl, rfl⟩
          · simp only [hle, Bool.false_eq_true, if_false, Except.ok.injEq, reduceCtorEq,
              false_iff, not_and]
            rintro rfl rfl
            exact hle

theorem sameScene_clearSelection (mo : MainObj) (e : MouseEvent) :
    SameScene (clearSelection mo e) mo := by
  unfold clearSelection SameScene
  cases e.shiftKey <;> simp

theorem sameScene_togglePick (mo : MainObj) (w : Nat) : SameScene (togglePick mo w) mo := by
  unfold togglePick SameScene
  split_ifs <;> simp

theorem SameScene.trans {a b c : MainObj} (h1 : SameScene a b) (h2 : SameScene b c) :
    SameScene a c := by
  obtain ⟨h11, h12, h13, h14, h15, h16⟩ := h1
  obtain ⟨h21, h22, h23, h24, h25, h26⟩ := h2
  exact ⟨h11.trans h21, h12.trans h22, h13.trans h23, h14.trans h24, h15.trans h25, h16.trans h26⟩

theorem hitPoint_congr (env : JSEnv) (mo1 mo2 : MainObj) (h : SameScene mo1 mo2)
    (x0 y0 : JSNum) (i : Nat) : hitPoint env mo1 x0 y0 i = hitPoint env mo2 x0 y0 i := by
  obtain ⟨h1, h2, h3, h4, _, _⟩ := h
  unfold hitPoint
  rw [h1, h2, h3, h4]

theorem winner_congr (env : JSEnv) (mo1 mo2 : MainObj) (h : SameScene mo1 mo2) (e : MouseEvent) :
    winner env mo1 e = winner env mo2 e := by
  have hp : ∀ x0 y0 i, hitPoint env mo1 x0 y0 i = hitPoint env mo2 x0 y0 i :=
    hitPoint_congr env mo1 mo2 h
  obtain ⟨_, h2, _, _, h5, _⟩ := h
  unfold winner hitList
  simp only [hp, h2, h5]

theorem hit_congr (env : JSEnv) (mo1 mo2 : MainObj) (h : SameScene mo1 mo2) (x0 y0 : JSNum)
    (i : Nat) (d : JSNum) : Hit env mo1 x0 y0 i d ↔ Hit env mo2 x0 y0 i d := by
  obtain ⟨h1, h2, h3, h4, _, _⟩ := h
  unfold Hit
  rw [h1, h2, h3, h4]

theorem clickReady_congr (mo1 mo2 : MainObj) (h : SameScene mo1 mo2) (hr : ClickReady mo2) :
    ClickReady mo1 := by
  obtain ⟨_, h2, h3, _, _, _⟩ := h
  unfold ClickReady at hr ⊢
  rw [h2, h3]
  exact hr

theorem mem_hitList (env : JSEnv) (mo : MainObj) (e : MouseEvent) (j : Nat) (d : JSNum) :
    (j, d) ∈ hitList env mo e ↔
      j < mo.cache.nctg ∧ Hit env mo (mousePos mo.view e).1 (mousePos mo.view e).2 j d := by
  unfold hitList
  simp only [List.mem_filterMap, List.mem_range]
  constructor
  · rintro ⟨i, hi, hsome⟩
    have hp : hitPoint env mo (mousePos mo.view e).1 (mousePos mo.view e).2 i
        = .ok (some (j, d)) := by
      cases hpt : hitPoint env mo (mousePos mo.view e).1 (mousePos mo.view e).2 i with
      | error err => simp [hpt, okSome] at hsome
      | ok r =>
        cases r with
        | none => simp [hpt, okSome] at hsome
        | some a => simp [hpt, okSome] at hsome; rw [hsome]
    obtain ⟨rfl, hh⟩ := (hitPoint_some_iff env mo _ _ i j d).mp hp
    exact ⟨hi, hh⟩
  · rintro ⟨hj, hh⟩
    refine ⟨j, hj, ?_⟩
    rw [(hitPoint_some_iff env mo _ _ j j d).mpr ⟨rfl, hh⟩]
    rfl

theorem winner_none_iff (env : JSEnv) (mo : MainObj) (e : MouseEvent) :
    winner env mo e = none ↔
      ∀ i d, i < mo.cache.nctg →
        ¬ Hit env mo (mousePos mo.view e).1 (mousePos mo.view e).2 i d := by
  unfold winner
  rw [List.head?_eq_none_iff, jsSort_eq_nil, List.eq_nil_iff_forall_not_mem]
  constructor
  · intro h i d hi hh
    exact h (i, d) ((mem_hitList env mo e i d).mpr ⟨hi, hh⟩)
  · rintro h ⟨i, d⟩ hmem
    obtain ⟨hi, hh⟩ := (mem_hitList env mo e i d).mp hmem
    exact h i d hi hh

theorem winner_some (env : JSEnv) (mo : MainObj) (e : MouseEvent) (w : Nat × JSNum)
    (h : winner env mo e = some w) :
    w.1 < mo.cache.nctg ∧
    Hit env mo (mousePos mo.view e).1 (mousePos mo.view e).2 w.1 w.2 ∧
    ∀ j dj, j < mo.cache.nctg →
      Hit env mo (mousePos mo.view e).1 (mousePos mo.view e).2 j dj → w.2.le dj = true := by
  unfold winner at h
  have hnan : ∀ a ∈ hitList env mo e, a.2 ≠ .nan := by
    rintro ⟨j, d⟩ hmem
    obtain ⟨_, _, radius, x, y, _, _, _, _, hle⟩ := (mem_hitList env mo e j d).mp hmem
    exact (JSNum.ne_nan_of_le hle).1
  cases hs : jsSort (fun a b : Nat × JSNum => a.2 - b.2) (hitList env mo e) with
  | nil => simp [hs] at h
  | cons a rest =>
    rw [hs] at h
    simp only [List.head?_cons, Option.some.injEq] at h
    subst h
    obtain ⟨hmem, hmin⟩ := jsSort_head_min _ hnan a rest hs
    obtain ⟨hlt, hh⟩ := (mem_hitList env mo e a.1 a.2).mp hmem
    exact ⟨hlt, hh, fun j dj hj hhj => hmin (j, dj) ((mem_hitList env mo e j dj).mpr ⟨hj, hhj⟩)⟩

theorem hitStep_clearSelection (env : JSEnv) (mo : MainObj) (e : MouseEvent) (x0 y0 : JSNum) :
    hitStep env (clearSelection mo e) x0 y0 = hitStep env mo x0 y0 := by
  unfold hitStep
  have h : hitPoint env (clearSelection mo e) x0 y0 = hitPoint env mo x0 y0 :=
    funext (hitPoint_congr env _ _ (sameScene_clearSelection mo e) x0 y0)
  rw [h]

theorem click_hit_branch (env : JSEnv) (e : MouseEvent) (mo : MainObj)
    (hmove : mo.stat.mousemove = false) (hdraw : mo.stat.drawing = false)
    (hn : 0 < mo.cache.nctg) :
    ((canvasMouseClick env e mo).2 = none ∧ canvasMouseClick env e mo = (clickOutcome env mo e, none)
      ∧ ∀ i, i < mo.cache.nctg →
          ∃ r, hitPoint env mo (mousePos mo.view e).1 (mousePos mo.view e).2 i = .ok r) ∨
    (∃ err, canvasMouseClick env e mo = (clearSelection mo e, some err) ∧
      ∃ i, i < mo.cache.nctg ∧
        hitPoint env mo (mousePos mo.view e).1 (mousePos mo.view e).2 i = .error err) := by
  have hn0 : mo.cache.nctg ≠ 0 := Nat.pos_iff_ne_zero.mp hn
  have hunf : canvasMouseClick env e mo =
      match forUpTo mo.cache.nctg
        (hitStep env mo (mousePos mo.view e).1 (mousePos mo.view e).2) [] with
      | (_, some err) => (clearSelection mo e, some err)
      | (arr, none) =>
        match jsSort (fun a b : Nat × JSNum => a.2 - b.2) arr with
        | [] => (clearSelection mo e, none)
        | hit :: _ => (togglePick (clearSelection mo e) hit.1, none) := by
    unfold canvasMouseClick
    simp only [hmove, hdraw, hn0, Bool.false_eq_true, if_false, hitStep_clearSelection]
  cases hres : (forUpTo mo.cache.nctg
      (hitStep env mo (mousePos mo.view e).1 (mousePos mo.view e).2) []).2 with
  | some err =>
    right
    obtain ⟨i, hi, hie⟩ := forEach_collect_error _ _ _ _ err hres
    refine ⟨err, ?_, i, List.mem_range.mp hi, hie⟩
    rw [hunf]
    cases hfu : forUpTo mo.cache.nctg
        (hitStep env mo (mousePos mo.view e).1 (mousePos mo.view e).2) [] with
    | mk arr oe =>
      rw [hfu] at hres
      simp only at hres
      subst hres
      rfl
  | none =>
    left
    have hall := forEach_collect_all_ok _ _ _ _ hres
    have hfu := forEach_collect_of_ok (hitPoint env mo (mousePos mo.view e).1 (mousePos mo.view e).2)
      (fun hit arr => arr ++ [hit]) (List.range mo.cache.nctg) [] hall
    rw [foldl_append_singleton, List.nil_append] at hfu
    have heq : canvasMouseClick env e mo = (clickOutcome env mo e, none) := by
      rw [hunf]
      unfold forUpTo hitStep
      rw [hfu]
      unfold clickOutcome winner hitList
      simp only
      cases jsSort (fun a b : Nat × JSNum => a.2 - b.2)
        ((List.range mo.cache.nctg).filterMap
          (fun i => okSome (hitPoint env mo (mousePos mo.view e).1 (mousePos mo.view e).2 i))) with
      | nil => rfl
      | cons a rest => rfl
    exact ⟨by rw [heq], heq, fun i hi => hall i (List.mem_range.mpr hi)⟩

theorem scaleAt_ok (env : JSEnv) (col : Column) (i : Nat) (scale : Scale)
    (h : scale.valid = true) : ∃ r, scaleAt env (some col) i scale = .ok r :=
  scaleNum_ok_of_valid env (col.numAt i) scale h

theorem posXAt_ok (env : JSEnv) (col : Column) (scale : Scale) (min range : JSNum) (w i : Nat)
    (h : scale.valid = true) : ∃ r, posXAt env (some col) scale min range w i = .ok r := by
  obtain ⟨s, hs⟩ := scaleAt_ok env col i scale h
  simp only [posXAt, hs]
  exact ⟨_, rfl⟩

theorem posYAt_ok (env : JSEnv) (col : Column) (scale : Scale) (max range : JSNum) (h i : Nat)
    (hv : scale.valid = true) : ∃ r, posYAt env (some col) scale max range h i = .ok r := by
  obtain ⟨s, hs⟩ := scaleAt_ok env col i scale hv
  simp only [posYAt, hs]
  exact ⟨_, rfl⟩

theorem hitRadiusAt_ok (env : JSEnv) (mo : MainObj) (i : Nat)
    (h : idxTruthy mo.view.size.i = true →
      (∃ S, getCol mo.data mo.view.size.i = some S) ∧ mo.view.size.scale.valid = true) :
    ∃ r, hitRadiusAt env mo.view mo.data i = .ok r := by
  unfold hitRadiusAt
  by_cases hsi : idxTruthy mo.view.size.i = true
  · obtain ⟨⟨S, hS⟩, hv⟩ := h hsi
    obtain ⟨s, hs⟩ := scaleAt_ok env S i mo.view.size.scale hv
    simp only [hsi, if_true, hS, hs]
    exact ⟨_, rfl⟩
  · simp only [hsi, if_false, Bool.false_eq_true]
    exact ⟨_, rfl⟩

theorem hitPoint_ok_of_ready (env : JSEnv) (mo : MainObj) (hr : ClickReady mo) (x0 y0 : JSNum)
    (i : Nat) : ∃ r, hitPoint env mo x0 y0 i = .ok r := by
  obtain ⟨⟨X, hX⟩, hxs, ⟨Y, hY⟩, hys, hsize⟩ := hr
  obtain ⟨radius, hrad⟩ := hitRadiusAt_ok env mo i hsize
  obtain ⟨x, hx⟩ := posXAt_ok env X mo.view.x.scale mo.view.x.min
    (mo.view.x.max - mo.view.x.min) mo.rena.width i hxs
  obtain ⟨y, hy⟩ := posYAt_ok env Y mo.view.y.scale mo.view.y.max
    (mo.view.y.max - mo.view.y.min) mo.rena.height i hys
  unfold hitPoint
  simp only [hX, hY, hrad, hx, hy]
  cases flagAt mo.mask i
  · by_cases hle : (dist2 x y x0 y0).le (radius.powNat 2) = true
    · simp only [hle, if_true, Bool.false_eq_true, if_false]
      exact ⟨_, rfl⟩
    · simp only [hle, if_false, Bool.false_eq_true]
      exact ⟨_, rfl⟩
  · simp only [if_true]
    exact ⟨_, rfl⟩

theorem click_of_ready (env : JSEnv) (e : MouseEvent) (mo : MainObj)
    (hmove : mo.stat.mousemove = false) (hdraw : mo.stat.drawing = false)
    (hn : 0 < mo.cache.nctg) (hr : ClickReady mo) :
    canvasMouseClick env e mo = (clickOutcome env mo e, none) := by
  rcases click_hit_branch env e mo hmove hdraw hn with ⟨_, h, _⟩ | ⟨err, _, i, _, hie⟩
  · exact h
  · obtain ⟨r, hr2⟩ := hitPoint_ok_of_ready env mo hr (mousePos mo.view e).1 (mousePos mo.view e).2 i
    rw [hr2] at hie
    exact absurd hie (by simp)

theorem sameScene_clickOutcome (env : JSEnv) (mo : MainObj) (e : MouseEvent) :
    SameScene (clickOutcome env mo e) mo := by
  unfold clickOutcome
  cases winner env mo e with
  | none => exact sameScene_clearSelection mo e
  | some w => exact (sameScene_togglePick _ _).trans (sameScene_clearSelection mo e)

theorem flagAt_clickOutcome (env : JSEnv) (mo : MainObj) (e : MouseEvent) (j : Nat) :
    flagAt (clickOutcome env mo e).pick j =
      match winner env mo e with
      | none => flagAt (basePick mo e) j
      | some w => if j = w.1 then !flagAt (basePick mo e) j else flagAt (basePick mo e) j := by
  unfold clickOutcome
  cases winner env mo e with
  | none => simp only [pick_clearSelection]
  | some w => simp only [flagAt_togglePick, pick_clearSelection]

theorem flagAt_basePick_of_not_shift (mo : MainObj) (e : MouseEvent) (h : e.shiftKey = false)
    (j : Nat) : flagAt (basePick mo e) j = false := by
  unfold basePick
  simp only [h, Bool.false_eq_true, if_false, flagAt_map_false]

/-! ### Evaluations on the sample states -/

/-- C1: `renderSelection` does not read the mask. In a state of three points where point 1
is both picked and masked, the path it fills consists of the arc of point 1, although
`renderArena` draws nothing for that point. -/
theorem renderSelection_halo_for_masked_pick :
    flagAt maskedPickState.mask 1 = true ∧ flagAt maskedPickState.pick 1 = true ∧
    renderSelection refEnv maskedPickState = .ok [⟨1, 0, 0, 5⟩] ∧
    (renderArena refEnv maskedPickState).toOption.map (fun paths => primCount paths 1) = some 0 := by
  decide!

/-- C7: on the column with values -3 and 1 and the scale `square`, `calcDispMinMax` stores
the minimum 9 and the maximum 1, the squares of the least and of the greatest raw
value, while the scaled values are 9 and 1: the stored minimum is above the scaled value
of point 1 and the stored maximum below the scaled value of point 0. -/
theorem calcDispMinMax_square_negative_range :
    (calcDispMinMax refEnv squareRangeState [.x]).2 = none ∧
    (calcDispMinMax refEnv squareRangeState [.x]).1.view.x.min = 9 ∧
    (calcDispMinMax refEnv squareRangeState [.x]).1.view.x.max = 1 ∧
    scaleNum refEnv (.fin (-3)) (.str "square") = .ok 9 ∧
    scaleNum refEnv 1 (.str "square") = .ok 1 := by
  decide!

/-- C8, as stated, fails: for a masked point holding 10 where the unmasked points range from 0
to 1, `transOpacityForDisplay` stores the string `10.00`. -/
theorem transOpacity_masked_point_above_one :
    (transOpacityForDisplay refEnv maskedOutlierState).1.trans.opacity.get? 2
      = some (.str (.dec false 1000)) ∧
    (Fixed2.dec false 1000).toNum = 10 ∧
    (Fixed2.dec false 1000).toString refEnv = "10.00" := by
  decide!

/-- C9, as stated, fails: for a masked point holding 10 where the unmasked points range from 0
to 1, the index `transColorForDisplay` computes is 1000 and the entry it stores is
`undefined`; and in `renderArena`, with the zero flag set, the unmasked point holding -1
gets the index -50 and the colour `undefined`. -/
theorem rampIndex_outside_ramp :
    sampleRamp.length = 101 ∧
    rampIndex 10 maskedOutlierState.view.color.effMin
      ((maskedOutlierState.view.color.upper - maskedOutlierState.view.color.lower) /
        (maskedOutlierState.view.color.max - maskedOutlierState.view.color.effMin))
      maskedOutlierState.view.color.lower = 1000 ∧
    (transColorForDisplay refEnv maskedOutlierState).1.trans.color
      = [some "0,0,0", some "100,0,0", none] ∧
    flagAt zeroFlagState.mask 0 = false ∧
    colorAt refEnv zeroFlagState.view zeroFlagState.data 0 = .ok none ∧
    (renderArena refEnv zeroFlagState).toOption.map (fun paths => paths.map Prod.fst)
      = some ["rgba(undefined,1)", "rgba(50,0,0,1)", "rgba(100,0,0,1)"] := by
  decide!

/-- C10: with every column constant, each range computed by `calcDispMinMax` is degenerate,
and the five transform functions divide by zero: every entry of the transformed x, y and
size arrays is `NaN`, every opacity is the string `NaN`, and every colour `undefined`. -/
theorem trans_degenerate_range_not_finite :
    constantState.view.x.max = constantState.view.x.min ∧
    (transXForDisplay refEnv constantState).1.trans.x = [.nan, .nan] ∧
    (transYForDisplay refEnv constantState).1.trans.y = [.nan, .nan] ∧
    (transSizeForDisplay refEnv constantState).1.trans.size = [.nan, .nan] ∧
    (transOpacityForDisplay refEnv constantState).1.trans.opacity
      = [.str .nan, .str .nan] ∧
    (transColorForDisplay refEnv constantState).1.trans.color = [none, none] ∧
    (transDataForDisplay refEnv constantState allItems).2 = none := by
  decide!

/-! ### General properties -/

/-- C8, amended: for a bound opacity channel with a known scale, `transOpacityForDisplay`
stores for every point below the point count, masked or not, the string
`toFixed(2)` of `(s - effMin) * fac + lower / 100`, where `s` is the scaled value: rounded to
two decimals and not clamped. The stored value lies between 0 and 1, within half a
hundredth of the exact value, when the scaled value lies between `effMin` and `max`,
`effMin < max` and `0 ≤ lower ≤ upper ≤ 100`. -/
theorem transOpacity_rounded_not_clamped (env : JSEnv) (mo : MainObj) (col : Column) (k : Nat)
    (hi : idxTruthy mo.view.opacity.i = true)
    (hcol : getCol mo.data mo.view.opacity.i = some col)
    (hvalid : mo.view.opacity.scale.valid = true)
    (hk : k < mo.cache.nctg) :
    (transOpacityForDisplay env mo).2 = none ∧
    ∃ s, scaleNum env (col.numAt k) mo.view.opacity.scale = .ok s ∧
      (transOpacityForDisplay env mo).1.trans.opacity.get? k
        = some (.str (clipValue mo.view.opacity s).toFixed2) ∧
      ∀ lo hi mn mx sv : ℚ, mo.view.opacity.lower = .fin lo → mo.view.opacity.upper = .fin hi →
        mo.view.opacity.effMin = .fin mn → mo.view.opacity.max = .fin mx → s = .fin sv →
        0 ≤ lo → lo ≤ hi → hi ≤ 100 → mn < mx → mn ≤ sv → sv ≤ mx →
        ∃ n : ℕ, (clipValue mo.view.opacity s).toFixed2 = .dec false n ∧ n ≤ 100 ∧
          |(n : ℚ) / 100 - ((sv - mn) * ((hi / 100 - lo / 100) / (mx - mn)) + lo / 100)|
            ≤ 1 / 200 := by
  have hloop := forUpTo_transStep_get? env col mo.view.opacity.scale
    (fun s => Alpha.str ((s - mo.view.opacity.effMin) *
      ((mo.view.opacity.upper / 100 - mo.view.opacity.lower / 100) /
        (mo.view.opacity.max - mo.view.opacity.effMin)) + mo.view.opacity.lower / 100).toFixed2)
    (.num .nan) mo.cache.nctg mo.trans.opacity hvalid
  refine ⟨?_, ?_⟩
  · simp only [transOpacityForDisplay, hi, hcol]
    exact hloop.1
  · obtain ⟨s, hs, hget⟩ := hloop.2 k hk
    refine ⟨s, hs, ?_, ?_⟩
    · simp only [transOpacityForDisplay, hi, hcol]
      exact hget
    · intro lo hi mn mx sv hlo hhi hmn hmx hsv h0 h1 h2 h3 h4 h5
      rw [clipValue_fin _ _ lo hi mn mx sv hlo hhi hmn hmx hsv h3]
      have hb := clip_between sv mn mx (lo / 100) (hi / 100) h4 h5 h3
        (by linarith)
      exact toFixed2_unit _ (by linarith [hb.1]) (by linarith [hb.2])

theorem transOpacity_rounded_not_clamped_witness :
    idxTruthy maskedOutlierState.view.opacity.i = true ∧
    getCol maskedOutlierState.data maskedOutlierState.view.opacity.i = some (.num [0, 1, 10]) ∧
    maskedOutlierState.view.opacity.scale.valid = true ∧
    1 < maskedOutlierState.cache.nctg ∧
    (transOpacityForDisplay refEnv maskedOutlierState).2 = none ∧
    ∃ n : ℕ, n ≤ 100 ∧
      (transOpacityForDisplay refEnv maskedOutlierState).1.trans.opacity.get? 1
        = some (.str (.dec false n)) := by
  obtain ⟨hdone, s, hs, hget, hrange⟩ :=
    transOpacity_rounded_not_clamped refEnv maskedOutlierState (.num [0, 1, 10]) 1
      (by decide) (by decide!) (by decide) (by decide)
  have hs1 : scaleNum refEnv ((Column.num [0, 1, 10]).numAt 1)
      maskedOutlierState.view.opacity.scale = .ok (.fin 1) := by decide!
  have hsv : s = .fin 1 := by
    rw [hs1] at hs
    exact (Except.ok.inj hs).symm
  obtain ⟨n, hn, hle, _⟩ := hrange 0 100 0 1 1 (by decide!) (by decide!) (by decide!) (by decide!)
    hsv (by norm_num) (by norm_num) (by norm_num) (by norm_num) (by norm_num) (by norm_num)
  exact ⟨by decide, by decide!, by decide, by decide, hdone, n, hle, by rw [hget, hn]⟩

/-- C9, amended: for a colour channel bound to a numeric column with a known scale, the index
into the continuous map computed for a point is `Math.round` of `(s - effMin) * fac + lower`,
both in `transColorForDisplay`, for every point below the point count, and in
`renderArena`, for every point with a truthy value: an integer whenever it is finite, and
not clamped. The index lies between 0 and 100, and the lookup in a map of 101 entries is
defined, when the scaled value lies between `effMin` and `max`, `effMin < max` and
`0 ≤ lower ≤ upper ≤ 100`. -/
theorem colorIndex_integer_not_clamped (env : JSEnv) (mo : MainObj) (vals : List JSNum) (k : Nat)
    (hi : idxTruthy mo.view.color.i = true)
    (hcol : getCol mo.data mo.view.color.i = some (.num vals))
    (hvalid : mo.view.color.scale.valid = true)
    (hk : k < mo.cache.nctg) :
    (transColorForDisplay env mo).2 = none ∧
    ∃ s, scaleNum env ((Column.num vals).numAt k) mo.view.color.scale = .ok s ∧
      (transColorForDisplay env mo).1.trans.color.get? k
        = some (rampAt mo.view.contmap (colorIndex mo.view.color s)) ∧
      (∀ val, vals.get? k = some val → val.truthy = true →
        colorAt env mo.view mo.data k
          = .ok (rampAt mo.view.contmap (colorIndex mo.view.color s))) ∧
      (∀ q : ℚ, colorIndex mo.view.color s = .fin q → q.den = 1) ∧
      ∀ lo hi mn mx sv : ℚ, mo.view.color.lower = .fin lo → mo.view.color.upper = .fin hi →
        mo.view.color.effMin = .fin mn → mo.view.color.max = .fin mx → s = .fin sv →
        0 ≤ lo → lo ≤ hi → hi ≤ 100 → mn < mx → mn ≤ sv → sv ≤ mx →
        ∃ n : ℕ, colorIndex mo.view.color s = .fin n ∧ n ≤ 100 ∧
          (mo.view.contmap.length = 101 →
            ∃ c, rampAt mo.view.contmap (colorIndex mo.view.color s) = some c) := by
  have hloop := forUpTo_transStep_get? env (.num vals) mo.view.color.scale
    (fun s => rampAt mo.view.contmap (rampIndex s mo.view.color.effMin
      ((mo.view.color.upper - mo.view.color.lower) /
        (mo.view.color.max - mo.view.color.effMin)) mo.view.color.lower))
    none mo.cache.nctg (mo.trans.color.map (fun _ => some "0,0,0")) hvalid
  refine ⟨?_, ?_⟩
  · simp only [transColorForDisplay, hi, hcol]
    exact hloop.1
  · obtain ⟨s, hs, hget⟩ := hloop.2 k hk
    refine ⟨s, hs, ?_, ?_, ?_, ?_⟩
    · simp only [transColorForDisplay, hi, hcol]
      exact hget
    · intro val hval htruthy
      have hnum : (Column.num vals).numAt k = val := by
        simp only [Column.numAt, List.getD_eq_getElem?_getD]
        rw [List.get?_eq_getElem?] at hval
        rw [hval]; rfl
      rw [hnum] at hs
      simp only [colorAt, hi, hcol, hval, htruthy, hs, if_true]
      rfl
    · intro q hq
      exact round_integer _ q hq
    · intro lo hi mn mx sv hlo hhi hmn hmx hsv h0 h1 h2 h3 h4 h5
      have hb := clip_between sv mn mx lo hi h4 h5 h3 h1
      obtain ⟨n, hn, hle⟩ := round_between ((sv - mn) * ((hi - lo) / (mx - mn)) + lo)
        (by linarith [hb.1]) (by linarith [hb.2])
      have hidx : colorIndex mo.view.color s = .fin n := by
        rw [colorIndex_fin _ _ lo hi mn mx sv hlo hhi hmn hmx hsv h3, hn]
      refine ⟨n, hidx, hle, fun hlen => ?_⟩
      rw [hidx]
      exact rampAt_defined _ n (by omega)

theorem colorIndex_integer_not_clamped_witness :
    idxTruthy maskedOutlierState.view.color.i = true ∧
    getCol maskedOutlierState.data maskedOutlierState.view.color.i = some (.num [0, 1, 10]) ∧
    maskedOutlierState.view.color.scale.valid = true ∧
    1 < maskedOutlierState.cache.nctg ∧
    (transColorForDisplay refEnv maskedOutlierState).2 = none ∧
    ∃ c, (transColorForDisplay refEnv maskedOutlierState).1.trans.color.get? 1 = some (some c) := by
  obtain ⟨hdone, s, hs, hget, _, _, hrange⟩ :=
    colorIndex_integer_not_clamped refEnv maskedOutlierState [0, 1, 10] 1
      (by decide) (by decide!) (by decide) (by decide)
  have hs1 : scaleNum refEnv ((Column.num [0, 1, 10]).numAt 1)
      maskedOutlierState.view.color.scale = .ok (.fin 1) := by decide!
  have hsv : s = .fin 1 := by
    rw [hs1] at hs
    exact (Except.ok.inj hs).symm
  obtain ⟨n, _, _, hdef⟩ := hrange 0 100 0 1 1 (by decide!) (by decide!) (by decide!) (by decide!)
    hsv (by norm_num) (by norm_num) (by norm_num) (by norm_num) (by norm_num) (by norm_num)
  obtain ⟨c, hc⟩ := hdef (by decide)
  exact ⟨by decide, by decide!, by decide, by decide, hdone, c, by rw [hget, hc]⟩

/-- C5: with the pan `(a, b)` and the zoom `z > 0` finite, the conversion from the canvas to
the plot, `(s - pan) / zoom`, and the transform of the renderer, `pan + zoom * p`, are
inverse to each other on every finite point, in exact arithmetic. -/
theorem viewport_roundtrip (view : View) (a b z p q : ℚ)
    (hx : view.posX = .fin a) (hy : view.posY = .fin b) (hz : view.scale = .fin z) (hpos : 0 < z) :
    screenToWorld view (worldToScreen view (.fin p, .fin q)) = (.fin p, .fin q) ∧
    worldToScreen view (screenToWorld view (.fin p, .fin q)) = (.fin p, .fin q) := by
  have hz0 : z ≠ 0 := ne_of_gt hpos
  simp only [screenToWorld, worldToScreen, hx, hy, hz, JSNum.fin_add_fin, JSNum.fin_sub_fin,
    JSNum.fin_mul_fin, JSNum.fin_div_fin _ _ hz0]
  refine ⟨?_, ?_⟩ <;> congr 2 <;> field_simp

theorem viewport_roundtrip_witness :
    zoomedView.posX = .fin 30 ∧ zoomedView.posY = .fin 40 ∧
    zoomedView.scale = .fin (4 / 3) ∧ (0 : ℚ) < 4 / 3 ∧
    screenToWorld zoomedView
      (worldToScreen zoomedView (.fin 7, .fin (-3))) = (.fin 7, .fin (-3)) ∧
    worldToScreen zoomedView
      (screenToWorld zoomedView (.fin 7, .fin (-3))) = (.fin 7, .fin (-3)) :=
  ⟨by decide!, by decide!, by decide!, by norm_num,
    viewport_roundtrip zoomedView 30 40 (4 / 3) 7 (-3)
      (by decide!) (by decide!) (by decide!) (by norm_num)⟩

/-- C2: a click handled by the hit-test branch on a well-formed state completes, and the
pick vector it leaves is the starting vector (the old one with Shift, the cleared one
without) when no unmasked point collides, and else the starting vector with the flag of
one colliding point flipped and every other entry as it was. Without Shift, a click on
empty space leaves nothing picked, a click that hits leaves exactly the flipped point
picked, whatever was picked before, and the same click repeated leaves exactly that
point picked again. -/
theorem canvasMouseClick_pick_vector (env : JSEnv) (e : MouseEvent) (mo : MainObj)
    (hmove : mo.stat.mousemove = false) (hdraw : mo.stat.drawing = false)
    (hn : 0 < mo.cache.nctg) (hready : ClickReady mo) :
    (canvasMouseClick env e mo).2 = none ∧
    (((∀ i d, i < mo.cache.nctg →
          ¬ Hit env mo (mousePos mo.view e).1 (mousePos mo.view e).2 i d) ∧
        (canvasMouseClick env e mo).1.pick = basePick mo e) ∨
      ∃ w d, w < mo.cache.nctg ∧
        Hit env mo (mousePos mo.view e).1 (mousePos mo.view e).2 w d ∧
        ∀ j, flagAt (canvasMouseClick env e mo).1.pick j =
          if j = w then !flagAt (basePick mo e) j else flagAt (basePick mo e) j) ∧
    (e.shiftKey = false →
      ((∀ i d, i < mo.cache.nctg →
          ¬ Hit env mo (mousePos mo.view e).1 (mousePos mo.view e).2 i d) →
        ∀ j, flagAt (canvasMouseClick env e mo).1.pick j = false) ∧
      ((∃ i d, i < mo.cache.nctg ∧
          Hit env mo (mousePos mo.view e).1 (mousePos mo.view e).2 i d) →
        ∃ w d, w < mo.cache.nctg ∧
          Hit env mo (mousePos mo.view e).1 (mousePos mo.view e).2 w d ∧
          (∀ j, flagAt (canvasMouseClick env e mo).1.pick j = decide (j = w)) ∧
          (canvasMouseClick env e (canvasMouseClick env e mo).1).2 = none ∧
          ∀ j, flagAt (canvasMouseClick env e (canvasMouseClick env e mo).1).1.pick j
            = decide (j = w))) := by
  have hclick := click_of_ready env e mo hmove hdraw hn hready
  have hscene := sameScene_clickOutcome env mo e
  have hclick2 : canvasMouseClick env e (clickOutcome env mo e)
      = (clickOutcome env (clickOutcome env mo e) e, none) :=
    click_of_ready env e _ (by rw [hscene.2.2.2.2.2]; exact hmove)
      (by rw [hscene.2.2.2.2.2]; exact hdraw)
      (by rw [hscene.2.2.2.2.1]; exact hn) (clickReady_congr _ _ hscene hready)
  have hwin2 : winner env (clickOutcome env mo e) e = winner env mo e :=
    winner_congr env _ _ hscene e
  rw [hclick]
  refine ⟨rfl, ?_, ?_⟩
  · cases hw : winner env mo e with
    | none =>
      left
      refine ⟨(winner_none_iff env mo e).mp hw, ?_⟩
      simp only [clickOutcome, hw, pick_clearSelection]
    | some w =>
      right
      obtain ⟨hlt, hhit, _⟩ := winner_some env mo e w hw
      refine ⟨w.1, w.2, hlt, hhit, fun j => ?_⟩
      rw [flagAt_clickOutcome, hw]
  · intro hshift
    refine ⟨fun hnone j => ?_, fun hsome => ?_⟩
    · have hw := (winner_none_iff env mo e).mpr hnone
      rw [flagAt_clickOutcome, hw]
      exact flagAt_basePick_of_not_shift mo e hshift j
    · cases hw : winner env mo e with
      | none =>
        obtain ⟨i, d, hi, hh⟩ := hsome
        exact absurd hh ((winner_none_iff env mo e).mp hw i d hi)
      | some w =>
        obtain ⟨hlt, hhit, _⟩ := winner_some env mo e w hw
        refine ⟨w.1, w.2, hlt, hhit, fun j => ?_, ?_, fun j => ?_⟩
        · rw [flagAt_clickOutcome, hw]
          simp only [flagAt_basePick_of_not_shift mo e hshift]
          by_cases hj : j = w.1 <;> simp [hj]
        · rw [hclick2]
        · rw [hclick2, flagAt_clickOutcome, hwin2, hw]
          simp only [flagAt_basePick_of_not_shift _ e hshift]
          by_cases hj : j = w.1 <;> simp [hj]

/-- C3: in the hit-test branch of `canvasMouseClick`, a point whose pick flag differs from the
starting vector is below the point count, is not masked, lies within its radius of the
click, and is at a squared distance no larger than that of any colliding point: when
`A` and `B` both collide and `A` is strictly nearer, the flag of `B` is not flipped, and
the flag of a masked point is never flipped. -/
theorem canvasMouseClick_winner_nearest (env : JSEnv) (e : MouseEvent) (mo : MainObj)
    (hmove : mo.stat.mousemove = false) (hdraw : mo.stat.drawing = false)
    (hn : 0 < mo.cache.nctg) :
    (∀ w, flagAt (canvasMouseClick env e mo).1.pick w ≠ flagAt (basePick mo e) w →
      w < mo.cache.nctg ∧ flagAt mo.mask w = false ∧
      ∃ d, Hit env mo (mousePos mo.view e).1 (mousePos mo.view e).2 w d ∧
        ∀ j dj, j < mo.cache.nctg →
          Hit env mo (mousePos mo.view e).1 (mousePos mo.view e).2 j dj → d.le dj = true) ∧
    (∀ a b da db, a < mo.cache.nctg →
      Hit env mo (mousePos mo.view e).1 (mousePos mo.view e).2 a da →
      Hit env mo (mousePos mo.view e).1 (mousePos mo.view e).2 b db →
      da.lt db = true →
      flagAt (canvasMouseClick env e mo).1.pick b = flagAt (basePick mo e) b) ∧
    (∀ m, flagAt mo.mask m = true →
      flagAt (canvasMouseClick env e mo).1.pick m = flagAt (basePick mo e) m) := by
  have key : ∀ w, flagAt (canvasMouseClick env e mo).1.pick w ≠ flagAt (basePick mo e) w →
      ∃ d, winner env mo e = some (w, d) := by
    intro w hne
    rcases click_hit_branch env e mo hmove hdraw hn with ⟨_, h, _⟩ | ⟨err, h, _⟩
    · rw [h] at hne
      simp only [flagAt_clickOutcome] at hne
      cases hw : winner env mo e with
      | none => rw [hw] at hne; exact absurd rfl hne
      | some a =>
        rw [hw] at hne
        by_cases hj : w = a.1
        · exact ⟨a.2, by rw [hj]⟩
        · simp only [hj, if_false] at hne
          exact absurd rfl hne
    · rw [h] at hne
      simp only [pick_clearSelection] at hne
      exact absurd rfl hne
  have main : ∀ w, flagAt (canvasMouseClick env e mo).1.pick w ≠ flagAt (basePick mo e) w →
      w < mo.cache.nctg ∧ flagAt mo.mask w = false ∧
      ∃ d, Hit env mo (mousePos mo.view e).1 (mousePos mo.view e).2 w d ∧
        ∀ j dj, j < mo.cache.nctg →
          Hit env mo (mousePos mo.view e).1 (mousePos mo.view e).2 j dj → d.le dj = true := by
    intro w hne
    obtain ⟨d, hw⟩ := key w hne
    obtain ⟨hlt, hhit, hmin⟩ := winner_some env mo e (w, d) hw
    exact ⟨hlt, hhit.1, d, hhit, hmin⟩
  refine ⟨main, ?_, ?_⟩
  · intro a b da db ha hA hB hlt
    by_contra hne
    obtain ⟨d, hw⟩ := key b hne
    obtain ⟨_, hhit, hmin⟩ := winner_some env mo e (b, d) hw
    simp only at hhit hmin
    have hd : d = db := by
      obtain ⟨_, r1, x1, y1, hr1, hx1, hy1, hd1, _⟩ := hhit
      obtain ⟨_, r2, x2, y2, hr2, hx2, hy2, hd2, _⟩ := hB
      rw [hx1] at hx2; rw [hy1] at hy2
      rw [hd1, hd2, Except.ok.inj hx2, Except.ok.inj hy2]
    have hle : d.le da = true := hmin a da ha hA
    rw [hd, JSNum.not_le_of_lt hlt] at hle
    exact absurd hle (by simp)
  · intro m hm
    by_contra hne
    obtain ⟨_, hmask, _⟩ := main m hne
    rw [hm] at hmask
    exact absurd hmask (by simp)

theorem canvasMouseClick_pick_vector_witness :
    diagonalState.stat.mousemove = false ∧ diagonalState.stat.drawing = false ∧
    0 < diagonalState.cache.nctg ∧ ClickReady diagonalState ∧
    (canvasMouseClick refEnv centreClick diagonalState).2 = none ∧
    (canvasMouseClick refEnv centreClick diagonalState).1.pick = [false, true, false] :=
  have hready : ClickReady diagonalState :=
    ⟨⟨.num [0, 1, 2], by decide!⟩, by decide, ⟨.num [0, 1, 2], by decide!⟩, by decide,
      fun h => absurd h (by decide)⟩
  ⟨by decide, by decide, by decide, hready,
    (canvasMouseClick_pick_vector refEnv centreClick diagonalState (by decide) (by decide)
      (by decide) hready).1, by decide!⟩

theorem canvasMouseClick_winner_nearest_witness :
    diagonalState.stat.mousemove = false ∧ diagonalState.stat.drawing = false ∧
    0 < diagonalState.cache.nctg ∧
    flagAt (canvasMouseClick refEnv centreClick diagonalState).1.pick 1
      ≠ flagAt (basePick diagonalState centreClick) 1 ∧
    flagAt diagonalState.mask 1 = false :=
  have hne : flagAt (canvasMouseClick refEnv centreClick diagonalState).1.pick 1
      ≠ flagAt (basePick diagonalState centreClick) 1 := by decide!
  ⟨by decide, by decide, by decide, hne,
    ((canvasMouseClick_winner_nearest refEnv centreClick diagonalState (by decide) (by decide)
      (by decide)).1 1 hne).2.1⟩

/-! ### The buckets of the renderer -/

theorem arenaPoint_some (env : JSEnv) (mo : MainObj) (i : Nat) (q : String × Bool × Prim)
    (h : arenaPoint env mo i = .ok (some q)) :
    q.2.2.src = i ∧ Drawn env mo i ∧
    ∃ c alpha, colorAt env mo.view mo.data i = .ok c ∧ alphaAt env mo.view mo.data i = .ok alpha ∧
      q.1 = fillStyle env c alpha := by
  unfold arenaPoint at h
  unfold Drawn
  simp only at h
  cases hm : flagAt mo.mask i with
  | true => simp [hm] at h
  | false =>
    simp only [hm, Bool.false_eq_true, if_false] at h
    cases hr : radiusAt env mo.view mo.data i with
    | error err => simp [hr] at h
    | ok radius =>
      simp only [hr] at h
      cases hsp : subPixel env mo.view radius with
      | true => simp [hsp] at h
      | false =>
        simp only [hsp, Bool.false_eq_true, if_false] at h
        cases hx : posXAt env (getCol mo.data mo.view.x.i) mo.view.x.scale mo.view.x.min
            (mo.view.x.max - mo.view.x.min) mo.rena.width i with
        | error err => simp [hx] at h
        | ok px =>
          simp only [hx] at h
          cases hy : posYAt env (getCol mo.data mo.view.y.i) mo.view.y.scale mo.view.y.max
              (mo.view.y.max - mo.view.y.min) mo.rena.height i with
          | error err => simp [hy] at h
          | ok py =>
            simp only [hy] at h
            cases hout : outsideView mo.view mo.rena px.round py.round radius with
            | true => simp [hout] at h
            | false =>
              simp only [hout, Bool.false_eq_true, if_false] at h
              cases hc : colorAt env mo.view mo.data i with
              | error err => simp [hc] at h
              | ok c =>
                simp only [hc] at h
                cases ha : alphaAt env mo.view mo.data i with
                | error err => simp [ha] at h
                | ok alpha =>
                  simp only [ha] at h
                  have hsrc : q.2.2.src = i ∧ q.1 = fillStyle env c alpha := by
                    split_ifs at h <;>
                      · simp only [Except.ok.injEq, Option.some.injEq] at h
                        rw [← h]
                        exact ⟨rfl, rfl⟩
                  exact ⟨hsrc.1, ⟨rfl, radius, px, py, rfl, rfl, rfl, hsp, hout⟩,
                    c, alpha, rfl, rfl, hsrc.2⟩

theorem arenaPoint_none (env : JSEnv) (mo : MainObj) (i : Nat)
    (h : arenaPoint env mo i = .ok none) : ¬ Drawn env mo i := by
  rintro ⟨hm, radius, px, py, hr, hx, hy, hsp, hout⟩
  unfold arenaPoint at h
  simp only [hm, hr, hsp, hx, hy, hout, Bool.false_eq_true, if_false] at h
  cases hc : colorAt env mo.view mo.data i with
  | error err => simp [hc] at h
  | ok c =>
    simp only [hc] at h
    cases ha : alphaAt env mo.view mo.data i with
    | error err => simp [ha] at h
    | ok alpha =>
      simp only [ha] at h
      split_ifs at h <;> simp at h

theorem primCount_nil (i : Nat) : primCount [] i = 0 := rfl

theorem primCount_cons (kb : String × Bucket) (paths : Paths) (i : Nat) :
    primCount (kb :: paths) i
      = kb.2.square.countP (fun p => p.src = i) + kb.2.circle.countP (fun p => p.src = i)
        + primCount paths i := by
  simp [primCount]

theorem primCount_pushPrim (fs : String) (isSquare : Bool) (p : Prim) (paths : Paths) (i : Nat) :
    primCount (pushPrim fs isSquare p paths) i
      = primCount paths i + (if p.src = i then 1 else 0) := by
  induction paths with
  | nil =>
    cases isSquare <;> by_cases h : p.src = i <;>
      simp [pushPrim, primCount, List.countP_cons, h]
  | cons kb rest ih =>
    obtain ⟨k, b⟩ := kb
    unfold pushPrim
    by_cases hk : k = fs
    · simp only [hk, if_true, primCount_cons]
      cases isSquare <;> by_cases h : p.src = i <;>
        simp [List.countP_append, List.countP_cons, h] <;> omega
    · simp only [hk, if_false, primCount_cons, ih]
      omega

theorem keys_pushPrim (fs : String) (isSquare : Bool) (p : Prim) (paths : Paths) :
    (pushPrim fs isSquare p paths).map Prod.fst
      = if fs ∈ paths.map Prod.fst then paths.map Prod.fst else paths.map Prod.fst ++ [fs] := by
  induction paths with
  | nil => simp [pushPrim]
  | cons kb rest ih =>
    obtain ⟨k, b⟩ := kb
    unfold pushPrim
    by_cases hk : k = fs
    · simp [hk]
    · have hk2 : ¬ fs = k := fun h => hk h.symm
      simp only [hk, if_false, List.map_cons, ih, List.mem_cons, hk2, false_or]
      split_ifs <;> simp

theorem keys_pushPrim_nodup (fs : String) (isSquare : Bool) (p : Prim) (paths : Paths)
    (h : (paths.map Prod.fst).Nodup) : ((pushPrim fs isSquare p paths).map Prod.fst).Nodup := by
  rw [keys_pushPrim]
  split_ifs with hmem
  · exact h
  · rw [List.nodup_append]
    refine ⟨h, List.nodup_singleton _, ?_⟩
    intro a ha hb
    rw [List.mem_singleton] at hb
    exact hmem (hb ▸ ha)

theorem mem_pushPrim (fs : String) (isSquare : Bool) (p : Prim) (paths : Paths)
    (key : String) (b : Bucket) (p2 : Prim) (hkb : (key, b) ∈ pushPrim fs isSquare p paths)
    (hp : p2 ∈ b.prims) :
    (∃ b0, (key, b0) ∈ paths ∧ p2 ∈ b0.prims) ∨ (key = fs ∧ p2 = p) := by
  induction paths with
  | nil =>
    simp only [pushPrim, List.mem_singleton, Prod.mk.injEq] at hkb
    obtain ⟨rfl, rfl⟩ := hkb
    right
    cases isSquare <;> simp [Bucket.prims] at hp <;> exact ⟨rfl, hp⟩
  | cons kb rest ih =>
    obtain ⟨k, b1⟩ := kb
    unfold pushPrim at hkb
    by_cases hk : k = fs
    · simp only [hk, if_true, List.mem_cons, Prod.mk.injEq] at hkb
      rcases hkb with ⟨rfl, rfl⟩ | hrest
      · cases isSquare
        · simp only [Bucket.prims, Bool.false_eq_true, if_false, List.mem_append,
            List.mem_singleton] at hp
          rcases hp with hp | hp | hp
          · exact Or.inl ⟨b1, by simp [hk], by simp [Bucket.prims, hp]⟩
          · exact Or.inl ⟨b1, by simp [hk], by simp [Bucket.prims, hp]⟩
          · exact Or.inr ⟨rfl, hp⟩
        · simp only [Bucket.prims, if_true, List.mem_append, List.mem_singleton] at hp
          rcases hp with (hp | hp) | hp
          · exact Or.inl ⟨b1, by simp [hk], by simp [Bucket.prims, hp]⟩
          · exact Or.inr ⟨rfl, hp⟩
          · exact Or.inl ⟨b1, by simp [hk], by simp [Bucket.prims, hp]⟩
      · exact Or.inl ⟨b, List.mem_cons_of_mem _ hrest, hp⟩
    · simp only [hk, if_false, List.mem_cons, Prod.mk.injEq] at hkb
      rcases hkb with ⟨rfl, rfl⟩ | hrest
      · exact Or.inl ⟨b, List.mem_cons_self _ _, hp⟩
      · rcases ih hrest with ⟨b0, hb0, hp0⟩ | hnew
        · exact Or.inl ⟨b0, List.mem_cons_of_mem _ hb0, hp0⟩
        · exact Or.inr hnew

theorem foldl_pushPrim (L : List (String × Bool × Prim)) (acc : Paths) :
    (∀ i, primCount (L.foldl (fun s q => pushPrim q.1 q.2.1 q.2.2 s) acc) i
        = primCount acc i + L.countP (fun q => q.2.2.src = i)) ∧
    ((acc.map Prod.fst).Nodup →
      ((L.foldl (fun s q => pushPrim q.1 q.2.1 q.2.2 s) acc).map Prod.fst).Nodup) ∧
    (∀ key b p, (key, b) ∈ L.foldl (fun s q => pushPrim q.1 q.2.1 q.2.2 s) acc → p ∈ b.prims →
      (∃ b0, (key, b0) ∈ acc ∧ p ∈ b0.prims) ∨ ∃ q ∈ L, q.1 = key ∧ q.2.2 = p) := by
  induction L generalizing acc with
  | nil => exact ⟨fun i => by simp, fun h => h, fun key b p hkb hp => Or.inl ⟨b, hkb, hp⟩⟩
  | cons q L ih =>
    obtain ⟨h1, h2, h3⟩ := ih (pushPrim q.1 q.2.1 q.2.2 acc)
    refine ⟨fun i => ?_, fun hnd => ?_, fun key b p hkb hp => ?_⟩
    · simp only [List.foldl_cons, h1, primCount_pushPrim, List.countP_cons]
      by_cases hq : q.2.2.src = i <;> simp [hq]; omega
    · exact h2 (keys_pushPrim_nodup _ _ _ _ hnd)
    · rcases h3 key b p hkb hp with ⟨b0, hb0, hp0⟩ | ⟨q2, hq2, hk, hpq⟩
      · rcases mem_pushPrim _ _ _ _ key b0 p hb0 hp0 with hold | ⟨hk, hpq⟩
        · exact Or.inl hold
        · exact Or.inr ⟨q, List.mem_cons_self _ _, hk.symm, hpq.symm⟩
      · exact Or.inr ⟨q2, List.mem_cons_of_mem _ hq2, hk, hpq⟩

theorem countP_filterMap_src (g : Nat → Option (String × Bool × Prim)) (l : List Nat)
    (hnd : l.Nodup) (hsrc : ∀ j q, g j = some q → q.2.2.src = j) (i : Nat) :
    (l.filterMap g).countP (fun q => q.2.2.src = i)
      = if i ∈ l ∧ (g i).isSome = true then 1 else 0 := by
  induction l with
  | nil => simp
  | cons j l ih =>
    have hj : j ∉ l := (List.nodup_cons.mp hnd).1
    have ih2 := ih (List.nodup_cons.mp hnd).2
    cases hg : g j with
    | none =>
      rw [List.filterMap_cons_none hg, ih2]
      by_cases hij : i = j
      · subst hij; simp [hg, hj]
      · simp [hij]
    | some q =>
      have hq := hsrc j q hg
      rw [List.filterMap_cons_some hg, List.countP_cons, ih2]
      by_cases hij : i = j
      · subst hij; simp [hg, hj, hq]
      · have : ¬ q.2.2.src = i := fun h => hij (by rw [← h, hq])
        simp [hij, this]

theorem radiusAt_ok (env : JSEnv) (mo : MainObj) (i : Nat)
    (h : ChannelReady mo.data mo.view.size) : ∃ r, radiusAt env mo.view mo.data i = .ok r := by
  unfold radiusAt
  by_cases hsi : idxTruthy mo.view.size.i = true
  · obtain ⟨⟨S, hS⟩, hv⟩ := h hsi
    obtain ⟨s, hs⟩ := scaleAt_ok env S i mo.view.size.scale hv
    simp only [hsi, if_true, hS, hs]
    exact ⟨_, rfl⟩
  · simp only [hsi, if_false, Bool.false_eq_true]
    exact ⟨_, rfl⟩

theorem alphaAt_ok (env : JSEnv) (mo : MainObj) (i : Nat)
    (h : ChannelReady mo.data mo.view.opacity) : ∃ r, alphaAt env mo.view mo.data i = .ok r := by
  unfold alphaAt
  by_cases hsi : idxTruthy mo.view.opacity.i = true
  · obtain ⟨⟨S, hS⟩, hv⟩ := h hsi
    obtain ⟨s, hs⟩ := scaleAt_ok env S i mo.view.opacity.scale hv
    simp only [hsi, if_true, hS, hs]
    exact ⟨_, rfl⟩
  · simp only [hsi, if_false, Bool.false_eq_true]
    exact ⟨_, rfl⟩

theorem alphaAt_str_of_bound (env : JSEnv) (mo : MainObj) (i : Nat) (alpha : Alpha)
    (hb : idxTruthy mo.view.opacity.i = true)
    (h : alphaAt env mo.view mo.data i = .ok alpha) : ∃ f, alpha = .str f := by
  unfold alphaAt at h
  simp only [hb, if_true] at h
  cases hs : scaleAt env (getCol mo.data mo.view.opacity.i) i mo.view.opacity.scale with
  | error err => simp [hs] at h
  | ok s =>
    simp only [hs, Except.ok.injEq] at h
    exact ⟨_, h.symm⟩

theorem colorAt_ok (env : JSEnv) (mo : MainObj) (i : Nat)
    (h : ChannelReady mo.data mo.view.color) : ∃ r, colorAt env mo.view mo.data i = .ok r := by
  unfold colorAt
  by_cases hci : idxTruthy mo.view.color.i = true
  · obtain ⟨⟨C, hC⟩, hv⟩ := h hci
    simp only [hci, if_true, hC]
    cases C with
    | cat vals =>
      simp only
      cases vals.get? i with
      | none => exact ⟨_, rfl⟩
      | some val =>
        simp only
        by_cases hval : val = ""
        · simp only [hval, if_true]; exact ⟨_, rfl⟩
        · simp only [hval, if_false]
          cases objGet mo.view.discmap val with
          | none => exact ⟨_, rfl⟩
          | some hex => exact ⟨_, rfl⟩
    | num vals =>
      simp only
      cases vals.get? i with
      | none => exact ⟨_, rfl⟩
      | some val =>
        simp only
        by_cases ht : val.truthy = true
        · obtain ⟨s, hs⟩ := scaleNum_ok_of_valid env val mo.view.color.scale hv
          simp only [ht, if_true, hs]
          exact ⟨_, rfl⟩
        · simp only [ht, if_false, Bool.false_eq_true]
          exact ⟨_, rfl⟩
  · simp only [hci, if_false, Bool.false_eq_true]
    exact ⟨_, rfl⟩

theorem arenaPoint_ok_of_ready (env : JSEnv) (mo : MainObj) (hr : ArenaReady mo) (i : Nat) :
    ∃ r, arenaPoint env mo i = .ok r := by
  obtain ⟨⟨X, hX⟩, hxs, ⟨Y, hY⟩, hys, hsize, hop, hcol⟩ := hr
  obtain ⟨radius, hrad⟩ := radiusAt_ok env mo i hsize
  obtain ⟨px, hx⟩ := posXAt_ok env X mo.view.x.scale mo.view.x.min
    (mo.view.x.max - mo.view.x.min) mo.rena.width i hxs
  obtain ⟨py, hy⟩ := posYAt_ok env Y mo.view.y.scale mo.view.y.max
    (mo.view.y.max - mo.view.y.min) mo.rena.height i hys
  obtain ⟨c, hc⟩ := colorAt_ok env mo i hcol
  obtain ⟨alpha, ha⟩ := alphaAt_ok env mo i hop
  unfold arenaPoint
  simp only [hX, hY, hrad, hx, hy, hc, ha]
  cases flagAt mo.mask i
  · simp only [Bool.false_eq_true, if_false]
    cases subPixel env mo.view radius
    · simp only [Bool.false_eq_true, if_false]
      cases outsideView mo.view mo.rena px.round py.round radius
      · simp only [Bool.false_eq_true, if_false]
        split_ifs <;> exact ⟨_, rfl⟩
      · exact ⟨_, rfl⟩
    · exact ⟨_, rfl⟩
  · exact ⟨_, rfl⟩

theorem getCol_nil (idx : Option Nat) : getCol [] idx = none := by
  cases idx <;> simp [getCol]

/-- C4: when `renderArena` completes on a state whose x-axis is the column `X`, the buckets
of `paths` partition the drawn points. A point below the length of `X` that is not
masked and passes the sub-pixel and the bounding-box tests has exactly one primitive in
all buckets together, every other point, a masked one in particular, has none; each
primitive lies in the bucket whose key is the string `rgba(c,alpha)` built from the
colour `c` and the opacity `alpha` of its own point, the opacity being a `toFixed(2)`
string when the opacity item is set; and no two buckets share a key. On a well-formed
state `renderArena` completes. -/
theorem renderArena_buckets_partition (env : JSEnv) (mo : MainObj) (X : Column)
    (hX : getCol mo.data mo.view.x.i = some X) :
    (ArenaReady mo → ∃ paths, renderArena env mo = .ok paths) ∧
    ∀ paths, renderArena env mo = .ok paths →
      (∀ i, i < X.length → Drawn env mo i → primCount paths i = 1) ∧
      (∀ i, ¬ (i < X.length ∧ Drawn env mo i) → primCount paths i = 0) ∧
      (∀ i, flagAt mo.mask i = true → primCount paths i = 0) ∧
      (∀ key b p, (key, b) ∈ paths → p ∈ b.prims →
        p.src < X.length ∧ Drawn env mo p.src ∧
        ∃ c alpha, colorAt env mo.view mo.data p.src = .ok c ∧
          alphaAt env mo.view mo.data p.src = .ok alpha ∧
          key = "rgba(" ++ c.getD "undefined" ++ "," ++ alpha.toString env ++ ")" ∧
          (idxTruthy mo.view.opacity.i = true → ∃ f, alpha = .str f)) ∧
      (paths.map Prod.fst).Nodup := by
  have hdata : mo.data.length ≠ 0 := by
    intro h
    rw [List.length_eq_zero.mp h, getCol_nil] at hX
    exact absurd hX (by simp)
  have hmasked : ∀ i, flagAt mo.mask i = true → ¬ Drawn env mo i := by
    rintro i hm ⟨hm2, _⟩
    rw [hm] at hm2
    exact absurd hm2 (by simp)
  refine ⟨fun hready => ?_, fun paths hres => ?_⟩
  · obtain ⟨Y, hY⟩ := hready.2.2.1
    have hall : ∀ i ∈ List.range X.length, ∃ r, arenaPoint env mo i = .ok r :=
      fun i _ => arenaPoint_ok_of_ready env mo hready i
    have hfu := forEach_collect_of_ok (arenaPoint env mo)
      (fun q paths => pushPrim q.1 q.2.1 q.2.2 paths) (List.range X.length) [] hall
    unfold renderArena
    simp only [hdata, if_false, hX, hY]
    unfold forUpTo arenaStep
    rw [hfu]
    exact ⟨_, rfl⟩
  · unfold renderArena at hres
    simp only [hdata, if_false, hX] at hres
    cases hY : getCol mo.data mo.view.y.i with
    | none =>
      simp only [hY, Except.ok.injEq] at hres
      subst hres
      refine ⟨fun i _ hd => ?_, fun i _ => rfl, fun i _ => rfl, fun key b p hkb _ => ?_,
        List.nodup_nil⟩
      · obtain ⟨_, radius, px, py, _, _, hy, _⟩ := hd
        rw [hY] at hy
        simp [posYAt, scaleAt] at hy
      · simp at hkb
    | some Y =>
      simp only [hY] at hres
      cases hfu : forUpTo X.length (arenaStep env mo) [] with
      | mk res oe =>
        rw [hfu] at hres
        cases oe with
        | some err => simp at hres
        | none =>
          simp only [Except.ok.injEq] at hres
          subst hres
          have hnone : (forEach (collectStep (arenaPoint env mo)
              (fun q paths => pushPrim q.1 q.2.1 q.2.2 paths)) (List.range X.length) []).2
                = none := by
            have := congrArg Prod.snd hfu
            simpa [forUpTo, arenaStep] using this
          have hall := forEach_collect_all_ok _ _ _ _ hnone
          have hcoll := forEach_collect_of_ok (arenaPoint env mo)
            (fun q paths => pushPrim q.1 q.2.1 q.2.2 paths) (List.range X.length) [] hall
          have hres2 : res = ((List.range X.length).filterMap
              (fun i => okSome (arenaPoint env mo i))).foldl
                (fun s q => pushPrim q.1 q.2.1 q.2.2 s) [] := by
            have := congrArg Prod.fst hfu
            simp only [forUpTo, arenaStep] at this
            rw [hcoll] at this
            exact this.symm
          have hg : ∀ j q, okSome (arenaPoint env mo j) = some q →
              arenaPoint env mo j = .ok (some q) := by
            intro j q hq
            cases hp : arenaPoint env mo j with
            | error err => simp [hp, okSome] at hq
            | ok r =>
              cases r with
              | none => simp [hp, okSome] at hq
              | some a => simp [hp, okSome] at hq; rw [hq]
          obtain ⟨hcount, hkeys, hmem⟩ := foldl_pushPrim ((List.range X.length).filterMap
            (fun i => okSome (arenaPoint env mo i))) []
          have hcnt : ∀ i, primCount res i
              = if i ∈ List.range X.length ∧ (okSome (arenaPoint env mo i)).isSome = true
                then 1 else 0 := by
            intro i
            rw [hres2, hcount, primCount_nil, Nat.zero_add]
            exact countP_filterMap_src _ _ (List.nodup_range _)
              (fun j q hq => (arenaPoint_some env mo j q (hg j q hq)).1) i
          have hzero : ∀ i, ¬ (i < X.length ∧ Drawn env mo i) → primCount res i = 0 := by
            intro i hnd
            rw [hcnt]
            have : ¬ (i ∈ List.range X.length ∧ (okSome (arenaPoint env mo i)).isSome = true) := by
              rintro ⟨hi, hsome⟩
              obtain ⟨q, hq⟩ := Option.isSome_iff_exists.mp hsome
              exact hnd ⟨List.mem_range.mp hi, (arenaPoint_some env mo i q (hg i q hq)).2.1⟩
            simp only [this, if_false]
          refine ⟨fun i hi hd => ?_, hzero, fun i hm => hzero i (fun h => hmasked i hm h.2),
            fun key b p hkb hp => ?_, ?_⟩
          · rw [hcnt]
            obtain ⟨r, hr⟩ := hall i (List.mem_range.mpr hi)
            cases r with
            | none => exact absurd hd (arenaPoint_none env mo i hr)
            | some q => simp [hr, okSome, hi]
          · rw [hres2] at hkb
            rcases hmem key b p hkb hp with ⟨b0, hb0, _⟩ | ⟨q, hq, hk, hpq⟩
            · simp at hb0
            · obtain ⟨j, hj, hqj⟩ := List.mem_filterMap.mp hq
              obtain ⟨hsrc, hdr, c, alpha, hc, ha, hfs⟩ := arenaPoint_some env mo j q (hg j q hqj)
              have hpj : p.src = j := by rw [← hpq, hsrc]
              rw [hpj]
              exact ⟨List.mem_range.mp hj, hdr, c, alpha, hc, ha, by rw [← hk, hfs]; rfl,
                fun hb => alphaAt_str_of_bound env mo j alpha hb ha⟩
          · rw [hres2]
            exact hkeys List.nodup_nil

theorem renderArena_buckets_partition_witness :
    getCol styledState.data styledState.view.x.i = some (.num [0, 1, 2]) ∧
    renderArena refEnv styledState
      = .ok [("rgba(255,0,0,0.00)", ⟨[], [⟨0, .fin (-50), 50, 5⟩]⟩),
             ("rgba(0,0,15,0.50)", ⟨[], [⟨1, 0, 0, 5⟩]⟩),
             ("rgba(0,0,0,1.00)", ⟨[], [⟨2, 50, .fin (-50), 5⟩]⟩)] ∧
    ∀ key b p,
      (key, b) ∈ [("rgba(255,0,0,0.00)", (⟨[], [⟨0, .fin (-50), 50, 5⟩]⟩ : Bucket)),
                  ("rgba(0,0,15,0.50)", ⟨[], [⟨1, 0, 0, 5⟩]⟩),
                  ("rgba(0,0,0,1.00)", ⟨[], [⟨2, 50, .fin (-50), 5⟩]⟩)] →
      p ∈ b.prims →
        p.src < (Column.num [0, 1, 2]).length ∧ Drawn refEnv styledState p.src ∧
        ∃ c alpha, colorAt refEnv styledState.view styledState.data p.src = .ok c ∧
          alphaAt refEnv styledState.view styledState.data p.src = .ok alpha ∧
          key = "rgba(" ++ c.getD "undefined" ++ "," ++ alpha.toString refEnv ++ ")" ∧
          (idxTruthy styledState.view.opacity.i = true → ∃ f, alpha = .str f) :=
  ⟨by decide!, by decide!,
    ((renderArena_buckets_partition refEnv styledState (.num [0, 1, 2]) (by decide!)).2 _
      (by decide!)).2.2.2.1⟩

/-! ### Unknown scales and missing axes -/

theorem scaleNum_error_is_scale_error (env : JSEnv) (x : JSNum) (s : Scale) (e : JSError)
    (h : scaleNum env x s = .error e) : IsScaleError e := by
  cases s with
  | null => simp [scaleNum] at h
  | num p => simp [scaleNum] at h
  | str name =>
    simp only [scaleNum] at h
    split_ifs at h
    simp only [Except.error.injEq] at h
    exact Or.inr ⟨name, h.symm⟩
  | other =>
    simp only [scaleNum, Except.error.injEq] at h
    exact Or.inl h.symm

theorem scaleNum_error_indep (env : JSEnv) (x y : JSNum) (s : Scale) (e : JSError)
    (h : scaleNum env x s = .error e) : scaleNum env y s = .error e := by
  cases s with
  | null => simp [scaleNum] at h
  | num p => simp [scaleNum] at h
  | str name =>
    simp only [scaleNum] at h ⊢
    split_ifs at h ⊢
    exact h
  | other => exact h

theorem range_pos (n : Nat) (h : 0 < n) : List.range n = 0 :: (List.range (n - 1)).map Nat.succ := by
  obtain ⟨m, rfl⟩ : ∃ m, n = m + 1 := ⟨n - 1, by omega⟩
  simp [List.range_succ_eq_map]

theorem forUpTo_transStep_error {α : Type} (env : JSEnv) (col : Column) (scale : Scale)
    (f : JSNum → α) (d : α) (n : Nat) (target : List α) (hn : 0 < n)
    (hinv : scale.valid = false) :
    ∃ e, IsScaleError e ∧
      forUpTo n (transStep env (some col) scale f d) target = (target, some e) := by
  obtain ⟨e, he⟩ := scaleNum_error_of_not_valid env (col.numAt 0) scale hinv
  refine ⟨e, scaleNum_error_is_scale_error env _ _ e he, ?_⟩
  unfold forUpTo
  rw [range_pos n hn]
  simp only [forEach, transStep, scaleAt, he]

theorem forEach_single {ι σ : Type} (body : ι → σ → Step σ) (i : ι) (s : σ) :
    forEach body [i] s = body i s := by
  simp only [forEach]
  rcases h : body i s with ⟨s1, _ | e⟩ <;> rfl

/-- C11, as stated, fails for the colour: with the colour bound to a numeric column and the
unknown scale `bogus`, the recomputation throws, but `trans.color` holds `0,0,0` for
every point and no longer its earlier values; bound to a categorical column, the
recomputation does not read the scale and completes. -/
theorem transColor_unknown_scale_resets :
    badColorScaleState.trans.color = [some "10,0,0", some "90,0,0"] ∧
    transDataForDisplay refEnv badColorScaleState [.color]
      = ({ badColorScaleState with trans := { badColorScaleState.trans with
            color := [some "0,0,0", some "0,0,0"] } }, some (.invalidScaleName "bogus")) ∧
    badCatScaleState.view.color.scale.valid = false ∧
    (transDataForDisplay refEnv badCatScaleState [.color]).2 = none := by
  decide!

/-- C11, amended: when a display item is bound to a column, there is at least one point and
the scale of the item is not a known scale, `transDataForDisplay(mo, [item])` throws the
invalid-scale error and leaves the main object, all transformed arrays included, as it
was, for the items x, y, size and opacity. For the colour bound to a numeric column it
throws the same error and leaves the transformed arrays of the other four items as they
were; for the colour bound to a categorical column it completes and leaves those four
arrays as they were. -/
theorem transData_unknown_scale (env : JSEnv) (mo : MainObj) (item : Item) (col : Column)
    (hn : 0 < mo.cache.nctg)
    (hset : item = .x ∨ item = .y ∨ idxTruthy (mo.view.get item).i = true)
    (hcol : getCol mo.data (mo.view.get item).i = some col)
    (hinv : (mo.view.get item).scale.valid = false) :
    (item ≠ .color →
      ∃ e, IsScaleError e ∧ transDataForDisplay env mo [item] = (mo, some e)) ∧
    (item = .color →
      ((∃ vals, col = .num vals) →
        ∃ e, IsScaleError e ∧ (transDataForDisplay env mo [item]).2 = some e) ∧
      ((∃ vals, col = .cat vals) → (transDataForDisplay env mo [item]).2 = none) ∧
      (transDataForDisplay env mo [item]).1.trans.x = mo.trans.x ∧
      (transDataForDisplay env mo [item]).1.trans.y = mo.trans.y ∧
      (transDataForDisplay env mo [item]).1.trans.size = mo.trans.size ∧
      (transDataForDisplay env mo [item]).1.trans.opacity = mo.trans.opacity) := by
  have hn0 : mo.cache.nctg ≠ 0 := Nat.pos_iff_ne_zero.mp hn
  have hunf : transDataForDisplay env mo [item] = transItem env item mo := by
    simp only [transDataForDisplay, hn0, if_false, forEach_single]
  rw [hunf]
  cases item with
  | x =>
    refine ⟨fun _ => ?_, fun h => absurd h (by simp)⟩
    obtain ⟨e, he, hloop⟩ := forUpTo_transStep_error env col mo.view.x.scale
      (fun s => (((s - mo.view.x.min).fl / (mo.view.x.max - mo.view.x.min).fl).fl
        - JSNum.half).fl) .nan
      mo.cache.nctg mo.trans.x hn hinv
    simp only [View.get] at hcol
    exact ⟨e, he, by simp only [transItem, transXForDisplay, hcol, hloop]⟩
  | y =>
    refine ⟨fun _ => ?_, fun h => absurd h (by simp)⟩
    obtain ⟨e, he, hloop⟩ := forUpTo_transStep_error env col mo.view.y.scale
      (fun s => (((mo.view.y.max - s).fl / (mo.view.y.max - mo.view.y.min).fl).fl
        - JSNum.half).fl) .nan
      mo.cache.nctg mo.trans.y hn hinv
    simp only [View.get] at hcol
    exact ⟨e, he, by simp only [transItem, transYForDisplay, hcol, hloop]⟩
  | size =>
    refine ⟨fun _ => ?_, fun h => absurd h (by simp)⟩
    have hi : idxTruthy mo.view.size.i = true := by
      rcases hset with h | h | h
      · exact absurd h (by simp)
      · exact absurd h (by simp)
      · exact h
    obtain ⟨e, he, hloop⟩ := forUpTo_transStep_error env col mo.view.size.scale
      (fun s => ((s - mo.view.size.effMin) * ((mo.view.size.upper / 100 - mo.view.size.lower / 100) /
        (mo.view.size.max - mo.view.size.effMin)) + mo.view.size.lower / 100) * mo.view.rbase) .nan
      mo.cache.nctg mo.trans.size hn hinv
    simp only [View.get] at hcol
    exact ⟨e, he, by simp only [transItem, transSizeForDisplay, hi, hcol, hloop,
      Bool.not_true, Bool.false_eq_true, if_false]⟩
  | opacity =>
    refine ⟨fun _ => ?_, fun h => absurd h (by simp)⟩
    have hi : idxTruthy mo.view.opacity.i = true := by
      rcases hset with h | h | h
      · exact absurd h (by simp)
      · exact absurd h (by simp)
      · exact h
    obtain ⟨e, he, hloop⟩ := forUpTo_transStep_error env col mo.view.opacity.scale
      (fun s => Alpha.str ((s - mo.view.opacity.effMin) *
        ((mo.view.opacity.upper / 100 - mo.view.opacity.lower / 100) /
          (mo.view.opacity.max - mo.view.opacity.effMin)) + mo.view.opacity.lower / 100).toFixed2)
      (.num .nan) mo.cache.nctg mo.trans.opacity hn hinv
    simp only [View.get] at hcol
    exact ⟨e, he, by simp only [transItem, transOpacityForDisplay, hi, hcol, hloop,
      Bool.not_true, Bool.false_eq_true, if_false]⟩
  | color =>
    refine ⟨fun h => absurd rfl h, fun _ => ?_⟩
    have hi : idxTruthy mo.view.color.i = true := by
      rcases hset with h | h | h
      · exact absurd h (by simp)
      · exact absurd h (by simp)
      · exact h
    simp only [View.get] at hcol hinv
    cases col with
    | num vals =>
      obtain ⟨e, he, hloop⟩ := forUpTo_transStep_error env (.num vals) mo.view.color.scale
        (fun s => rampAt mo.view.contmap (rampIndex s mo.view.color.effMin
          ((mo.view.color.upper - mo.view.color.lower) /
            (mo.view.color.max - mo.view.color.effMin)) mo.view.color.lower))
        none mo.cache.nctg (mo.trans.color.map (fun _ => some "0,0,0")) hn hinv
      have hres : transItem env .color mo
          = ({ mo with trans := { mo.trans with
                color := mo.trans.color.map (fun _ => some "0,0,0") } }, some e) := by
        simp only [transItem, transColorForDisplay, hi, hcol, hloop, Bool.not_true,
          Bool.false_eq_true, if_false]
      rw [hres]
      exact ⟨fun _ => ⟨e, he, rfl⟩, fun h => by simp at h, rfl, rfl, rfl, rfl⟩
    | cat vals =>
      have hall : ∀ (l : List Nat) (t : List (Option String)),
          (forEach (transColorCatStep (some (.cat vals)) mo.view.discmap) l t).2 = none := by
        intro l
        induction l with
        | nil => intro t; rfl
        | cons i l ih =>
          intro t
          simp only [forEach, transColorCatStep]
          cases vals.get? i with
          | none => exact ih t
          | some val =>
            simp only
            cases objGet mo.view.discmap val with
            | none => exact ih t
            | some hex => exact ih _
      have hres : transItem env .color mo
          = ({ mo with trans := { mo.trans with
                color := (forUpTo mo.cache.nctg
                  (transColorCatStep (some (.cat vals)) mo.view.discmap)
                  (mo.trans.color.map (fun _ => some "0,0,0"))).1 } },
              (forUpTo mo.cache.nctg
                  (transColorCatStep (some (.cat vals)) mo.view.discmap)
                  (mo.trans.color.map (fun _ => some "0,0,0"))).2) := by
        simp only [transItem, transColorForDisplay, hi, hcol, Bool.not_true,
          Bool.false_eq_true, if_false]
      rw [hres]
      exact ⟨fun h => by simp at h, fun _ => hall _ _, rfl, rfl, rfl, rfl⟩

theorem transData_unknown_scale_witness :
    0 < badColorScaleState.cache.nctg ∧
    idxTruthy (badColorScaleState.view.get .color).i = true ∧
    getCol badColorScaleState.data (badColorScaleState.view.get .color).i = some (.num [1, 2]) ∧
    (badColorScaleState.view.get .color).scale.valid = false ∧
    (transDataForDisplay refEnv badColorScaleState [.color]).1.trans.x
      = badColorScaleState.trans.x :=
  ⟨by decide, by decide, by decide!, by decide,
    ((transData_unknown_scale refEnv badColorScaleState .color (.num [1, 2]) (by decide)
      (Or.inr (Or.inr (by decide))) (by decide!) (by decide)).2 rfl).2.2.1⟩

/-- C12: with no field for the x-axis and an unmasked point, a click without Shift in the
hit-test branch clears the selection and then throws a `TypeError` on reading `X[0]`;
with Shift it throws as well. `renderArena` returns without drawing on the same state. -/
theorem canvasMouseClick_no_axis_throws :
    getCol noAxisState.data noAxisState.view.x.i = none ∧
    noAxisState.pick = [true, false] ∧ noAxisState.cache.npick = 1 ∧
    canvasMouseClick refEnv ⟨50, 50, false⟩ noAxisState
      = ({ noAxisState with pick := [false, false], cache := ⟨2, 0⟩ }, some .typeError) ∧
    canvasMouseClick refEnv ⟨50, 50, true⟩ noAxisState = (noAxisState, some .typeError) ∧
    renderArena refEnv noAxisState = .ok [] := by
  decide!

/-! ### The transforms of the two axes -/

theorem arrMinMax_fold_fin (rest : List JSNum) (a b : ℚ)
    (hfin : ∀ x ∈ rest, x.isFinite = true) :
    ∃ mn mx,
      rest.foldl (fun acc val =>
          (if val.lt acc.1 then val else acc.1, if val.gt acc.2 then val else acc.2))
        (JSNum.fin a, JSNum.fin b) = (.fin mn, .fin mx) ∧
      mn ≤ a ∧ b ≤ mx ∧ (mn = a ∨ JSNum.fin mn ∈ rest) ∧ (mx = b ∨ JSNum.fin mx ∈ rest) ∧
      ∀ q, JSNum.fin q ∈ rest → mn ≤ q ∧ q ≤ mx := by
  induction rest generalizing a b with
  | nil => exact ⟨a, b, rfl, le_refl _, le_refl _, Or.inl rfl, Or.inl rfl, fun q hq => by simp at hq⟩
  | cons v rest ih =>
    have hv := hfin v (List.mem_cons_self _ _)
    cases v with
    | fin c =>
      have hrest : ∀ x ∈ rest, x.isFinite = true := fun x hx => hfin x (List.mem_cons_of_mem _ hx)
      obtain ⟨mn, mx, hfold, h1, h2, h3, h4, h5⟩ := ih (min c a) (max c b) hrest
      have hstep : (if (JSNum.fin c).lt (JSNum.fin a) then JSNum.fin c else JSNum.fin a,
          if (JSNum.fin c).gt (JSNum.fin b) then JSNum.fin c else JSNum.fin b)
          = (JSNum.fin (min c a), JSNum.fin (max c b)) := by
        simp only [JSNum.lt, JSNum.gt, decide_eq_true_eq]
        congr 1
        · by_cases h : c < a
          · simp [h, min_eq_left h.le]
          · simp [h, min_eq_right (not_lt.mp h)]
        · by_cases h : b < c
          · simp [h, max_eq_left h.le]
          · simp [h, max_eq_right (not_lt.mp h)]
      refine ⟨mn, mx, ?_, le_trans h1 (min_le_right _ _), le_trans (le_max_right _ _) h2, ?_, ?_, ?_⟩
      · simp only [List.foldl_cons]
        rw [hstep]
        exact hfold
      · rcases h3 with h | h
        · rcases min_choice c a with hc | hc
          · right; rw [h, hc]; exact List.mem_cons_self _ _
          · left; rw [h, hc]
        · right; exact List.mem_cons_of_mem _ h
      · rcases h4 with h | h
        · rcases max_choice c b with hc | hc
          · right; rw [h, hc]; exact List.mem_cons_self _ _
          · left; rw [h, hc]
        · right; exact List.mem_cons_of_mem _ h
      · intro q hq
        rcases List.mem_cons.mp hq with h | h
        · simp only [JSNum.fin.injEq] at h
          subst h
          exact ⟨le_trans h1 (min_le_left _ _), le_trans (le_max_left _ _) h2⟩
        · exact h5 q h
    | pinf => simp [JSNum.isFinite] at hv
    | ninf => simp [JSNum.isFinite] at hv
    | nan => simp [JSNum.isFinite] at hv

theorem arrMinMax_fin (l : List JSNum) (hne : l ≠ []) (hfin : ∀ x ∈ l, x.isFinite = true) :
    ∃ mn mx, arrMinMax l = (.fin mn, .fin mx) ∧ JSNum.fin mn ∈ l ∧ JSNum.fin mx ∈ l ∧
      ∀ q, JSNum.fin q ∈ l → mn ≤ q ∧ q ≤ mx := by
  cases l with
  | nil => exact absurd rfl hne
  | cons v rest =>
    have hv := hfin v (List.mem_cons_self _ _)
    cases v with
    | fin a =>
      obtain ⟨mn, mx, hfold, h1, h2, h3, h4, h5⟩ := arrMinMax_fold_fin rest a a
        (fun x hx => hfin x (List.mem_cons_of_mem _ hx))
      refine ⟨mn, mx, hfold, ?_, ?_, ?_⟩
      · rcases h3 with h | h
        · rw [h]; exact List.mem_cons_self _ _
        · exact List.mem_cons_of_mem _ h
      · rcases h4 with h | h
        · rw [h]; exact List.mem_cons_self _ _
        · exact List.mem_cons_of_mem _ h
      · intro q hq
        rcases List.mem_cons.mp hq with h | h
        · simp only [JSNum.fin.injEq] at h
          subst h
          exact ⟨h1, h2⟩
        · exact h5 q h
    | pinf => simp [JSNum.isFinite] at hv
    | ninf => simp [JSNum.isFinite] at hv
    | nan => simp [JSNum.isFinite] at hv

theorem mem_unmaskedVals (col : Column) (mask : List Bool) (n : Nat) (x : JSNum) :
    x ∈ unmaskedVals col mask n ↔
      ∃ i, i < n ∧ col.numAt i = x ∧ x.selfEq = true ∧ flagAt mask i = false := by
  unfold unmaskedVals
  simp only [List.mem_filterMap, List.mem_range]
  constructor
  · rintro ⟨i, hi, h⟩
    split_ifs at h with hc
    simp only [Option.some.injEq] at h
    simp only [Bool.and_eq_true, Bool.not_eq_true'] at hc
    exact ⟨i, hi, h, h ▸ hc.1, hc.2⟩
  · rintro ⟨i, hi, hx, hs, hm⟩
    refine ⟨i, hi, ?_⟩
    simp [hx, hs, hm]

theorem half_eq_fin : JSNum.half = .fin (1 / 2) := rfl

theorem valid_of_scaleNum_ok (env : JSEnv) (x r : JSNum) (s : Scale)
    (h : scaleNum env x s = .ok r) : s.valid = true := by
  cases hv : s.valid with
  | true => rfl
  | false =>
    obtain ⟨e, he⟩ := scaleNum_error_of_not_valid env x s hv
    rw [he] at h
    exact absurd h (by simp)

theorem ofExact_eq_fin_iff (q r : ℚ) :
    JSNum.ofExact q = .fin r ↔ r = roundDouble q ∧ |roundDouble q| < pow2 1024 := by
  unfold JSNum.ofExact
  by_cases h : pow2 1024 ≤ |roundDouble q|
  · rw [if_pos h]
    constructor
    · intro h2
      split_ifs at h2
    · rintro ⟨_, h2⟩
      exact absurd h (not_le.mpr h2)
  · rw [if_neg h]
    constructor
    · intro h2
      exact ⟨(JSNum.fin.inj h2).symm, lt_of_not_le h⟩
    · rintro ⟨h2, _⟩
      rw [h2]

/-- The value the x and the y transform compute from the exact difference `a` between the
scaled value and the end of the range they start from, and the exact width `D` of the
range, when the rounded width `R` is finite and not zero and `0 ≤ a ≤ D`: a double between
-1/2 and 1/2, -1/2 for `a = 0` and 1/2 for `a = D`. -/
theorem unit_value (a D R : ℚ) (h0 : 0 ≤ a) (haD : a ≤ D) (hR : (JSNum.fin D).fl = .fin R)
    (hR0 : R ≠ 0) :
    (((JSNum.fin a).fl / JSNum.fin R).fl - JSNum.half).fl
      = .fin (roundDouble (roundDouble (roundDouble a / R) - 1 / 2)) ∧
    -(1 / 2) ≤ roundDouble (roundDouble (roundDouble a / R) - 1 / 2) ∧
    roundDouble (roundDouble (roundDouble a / R) - 1 / 2) ≤ 1 / 2 ∧
    (a = 0 → roundDouble (roundDouble (roundDouble a / R) - 1 / 2) = -(1 / 2)) ∧
    (a = D → roundDouble (roundDouble (roundDouble a / R) - 1 / 2) = 1 / 2) := by
  obtain ⟨hRd, hRlt⟩ := (ofExact_eq_fin_iff D R).mp hR
  have hD0 : 0 ≤ D := le_trans h0 haD
  have hRnn : 0 ≤ R := by rw [hRd]; exact roundDouble_nonneg hD0
  have hRpos : 0 < R := lt_of_le_of_ne hRnn (Ne.symm hR0)
  have hA0 : 0 ≤ roundDouble a := roundDouble_nonneg h0
  have hAR : roundDouble a ≤ R := by rw [hRd]; exact roundDouble_mono haD
  have hAfl : (JSNum.fin a).fl = .fin (roundDouble a) := by
    refine (ofExact_eq_fin_iff a _).mpr ⟨rfl, ?_⟩
    rw [abs_of_nonneg hA0]
    rw [← hRd, abs_of_pos hRpos] at hRlt
    exact lt_of_le_of_lt hAR hRlt
  have hq0 : 0 ≤ roundDouble a / R := div_nonneg hA0 hRpos.le
  have hq1 : roundDouble a / R ≤ 1 := (div_le_one hRpos).mpr hAR
  have hQ0 : 0 ≤ roundDouble (roundDouble a / R) := roundDouble_nonneg hq0
  have hQ1 : roundDouble (roundDouble a / R) ≤ 1 := by
    have := roundDouble_mono hq1
    rwa [roundDouble_one] at this
  have hbig : (1 : ℚ) ≤ 2 ^ 1023 := one_le_pow₀ (by norm_num)
  have hQfl : (JSNum.fin (roundDouble a / R)).fl = .fin (roundDouble (roundDouble a / R)) :=
    fl_fin_eq _ (by rw [abs_of_nonneg hq0]; linarith)
  have hlo : -(1 / 2) ≤ roundDouble (roundDouble (roundDouble a / R) - 1 / 2) := by
    have := roundDouble_mono (show -(1 / 2 : ℚ) ≤ roundDouble (roundDouble a / R) - 1 / 2 by linarith)
    rwa [roundDouble_neg_half] at this
  have hhi : roundDouble (roundDouble (roundDouble a / R) - 1 / 2) ≤ 1 / 2 := by
    have := roundDouble_mono (show roundDouble (roundDouble a / R) - 1 / 2 ≤ (1 / 2 : ℚ) by linarith)
    rwa [roundDouble_half] at this
  refine ⟨?_, hlo, hhi, fun ha => ?_, fun ha => ?_⟩
  · rw [hAfl, JSNum.fin_div_fin _ _ hR0, hQfl, half_eq_fin, JSNum.fin_sub_fin]
    refine fl_fin_eq _ ?_
    rw [abs_le]
    constructor <;> linarith
  · rw [ha, roundDouble_zero, zero_div, roundDouble_zero, zero_sub, roundDouble_neg_half]
  · rw [ha, ← hRd, div_self hR0, roundDouble_one]
    norm_num
    exact roundDouble_half

/-- The error of a quotient of two rounded numbers, for a relative error `u` of the
rounding and an absolute error `η` below the last place of the denominator. -/
theorem quotient_error (a D A R u η : ℚ) (h0 : 0 ≤ a) (haD : a ≤ D) (hD0 : 0 < D)
    (hu0 : 0 ≤ u) (hu : u ≤ 1 / 8) (hη0 : 0 ≤ η) (hη : η ≤ D * u / 4) (hRpos : 0 < R)
    (hR1 : D - D * u ≤ R) (hR2 : R ≤ D + D * u)
    (hA1 : a - (a * u + η) ≤ A) (hA2 : A ≤ a + (a * u + η)) :
    |A / R - a / D| ≤ 3 * u := by
  have hDne : D ≠ 0 := hD0.ne'
  have e : a / D * D = a := div_mul_cancel₀ a hDne
  have ht0 : 0 ≤ a / D := div_nonneg h0 hD0.le
  have hau : a * u ≤ D * u := mul_le_mul_of_nonneg_right haD hu0
  have hDu : 0 ≤ D * u := mul_nonneg hD0.le hu0
  have huu : u * (D * u) ≤ 1 / 8 * (D * u) := mul_le_mul_of_nonneg_right hu hDu
  rw [abs_le]
  constructor
  · have key : (a / D - 3 * u) * R ≤ A := by
      by_cases hneg : a / D - 3 * u ≤ 0
      · have : (a / D - 3 * u) * R ≤ 0 := mul_nonpos_of_nonpos_of_nonneg hneg hRpos.le
        nlinarith
      · have hp : 0 < a / D - 3 * u := lt_of_not_le hneg
        have h1 : (a / D - 3 * u) * R ≤ (a / D - 3 * u) * (D + D * u) :=
          mul_le_mul_of_nonneg_left hR2 hp.le
        have h2 : (a / D - 3 * u) * (D + D * u)
            = a / D * D + a / D * D * u - 3 * (D * u) - 3 * (u * (D * u)) := by ring
        rw [e] at h2
        nlinarith
    have := (le_div_iff₀ hRpos).mpr key
    linarith
  · have key : A ≤ (a / D + 3 * u) * R := by
      have hp : 0 ≤ a / D + 3 * u := by positivity
      have h1 : (a / D + 3 * u) * (D - D * u) ≤ (a / D + 3 * u) * R :=
        mul_le_mul_of_nonneg_left hR1 hp
      have h2 : (a / D + 3 * u) * (D - D * u)
          = a / D * D - a / D * D * u + 3 * (D * u) - 3 * (u * (D * u)) := by ring
      rw [e] at h2
      nlinarith
    have := (div_le_iff₀ hRpos).mpr key
    linarith

/-- The value of `unit_value` differs from `a / D - 1/2` by at most `2^-50` when the width
of the range is in the normal range. -/
theorem unit_value_error (a D : ℚ) (h0 : 0 ≤ a) (haD : a ≤ D) (hDlo : 1 / 2 ^ 1000 ≤ D) :
    |roundDouble (roundDouble (roundDouble a / roundDouble D) - 1 / 2) - (a / D - 1 / 2)|
      ≤ 1 / 2 ^ 50 := by
  have hD0 : 0 < D := lt_of_lt_of_le (by positivity) hDlo
  have hR := roundDouble_rel D (pow2_neg_1022_le hDlo)
  rw [abs_of_pos hD0, abs_le] at hR
  have hA := roundDouble_abs a
  rw [abs_of_nonneg h0, abs_le] at hA
  have hA0 : 0 ≤ roundDouble a := roundDouble_nonneg h0
  have hAR : roundDouble a ≤ roundDouble D := roundDouble_mono haD
  have hRpos : 0 < roundDouble D := by
    have : (0 : ℚ) < D - D / 2 ^ 53 := by
      have : D / 2 ^ 53 < D := div_lt_self hD0 (by norm_num)
      linarith
    linarith [hR.1]
  have hq0 : 0 ≤ roundDouble a / roundDouble D := div_nonneg hA0 hRpos.le
  have hq1 : roundDouble a / roundDouble D ≤ 1 := (div_le_one hRpos).mpr hAR
  have hQ := roundDouble_abs (roundDouble a / roundDouble D)
  rw [abs_of_nonneg hq0, abs_le] at hQ
  have hQ0 : 0 ≤ roundDouble (roundDouble a / roundDouble D) := roundDouble_nonneg hq0
  have hQ1 : roundDouble (roundDouble a / roundDouble D) ≤ 1 := by
    have := roundDouble_mono hq1
    rwa [roundDouble_one] at this
  have hx := roundDouble_abs (roundDouble (roundDouble a / roundDouble D) - 1 / 2)
  have hQh : |roundDouble (roundDouble a / roundDouble D) - 1 / 2| ≤ 1 / 2 := by
    rw [abs_le]; constructor <;> linarith
  rw [abs_le] at hx
  -- the smallest subnormal is far below the last place of the range
  have heta : (1 : ℚ) / 2 ^ 1075 ≤ D / 2 ^ 53 / 4 := by
    have : (1 : ℚ) / 2 ^ 1075 ≤ 1 / 2 ^ 1000 / 2 ^ 53 / 4 := by norm_num
    have h2 : (1 : ℚ) / 2 ^ 1000 / 2 ^ 53 / 4 ≤ D / 2 ^ 53 / 4 := by
      apply div_le_div_of_nonneg_right _ (by norm_num)
      exact div_le_div_of_nonneg_right hDlo (by positivity)
    linarith
  have heta1 : (1 : ℚ) / 2 ^ 1075 ≤ 1 / 2 ^ 53 / 4 := by norm_num
  have hquot : |roundDouble a / roundDouble D - a / D| ≤ 3 * (1 / 2 ^ 53) := by
    refine quotient_error a D (roundDouble a) (roundDouble D) (1 / 2 ^ 53) (1 / 2 ^ 1075) h0 haD
      hD0 (by positivity) (by norm_num) (by positivity) ?_ hRpos ?_ ?_ ?_ ?_
    · have : D * (1 / 2 ^ 53) / 4 = D / 2 ^ 53 / 4 := by ring
      rw [this]; exact heta
    · have : D * (1 / 2 ^ 53) = D / 2 ^ 53 := by ring
      rw [this]; linarith [hR.1]
    · have : D * (1 / 2 ^ 53) = D / 2 ^ 53 := by ring
      rw [this]; linarith [hR.2]
    · have : a * (1 / 2 ^ 53) = a / 2 ^ 53 := by ring
      rw [this]; linarith [hA.1]
    · have : a * (1 / 2 ^ 53) = a / 2 ^ 53 := by ring
      rw [this]; linarith [hA.2]
  rw [abs_le] at hquot hQh
  have hq53 : roundDouble a / roundDouble D / 2 ^ 53 ≤ 1 / 2 ^ 53 :=
    div_le_div_of_nonneg_right hq1 (by positivity)
  have hh53 : |roundDouble (roundDouble a / roundDouble D) - 1 / 2| / 2 ^ 53 ≤ 1 / 2 / 2 ^ 53 := by
    apply div_le_div_of_nonneg_right _ (by positivity)
    rw [abs_le]; exact hQh
  have hfin : (1 : ℚ) / 2 / 2 ^ 53 + 1 / 2 ^ 53 / 4 + (1 / 2 ^ 53 + 1 / 2 ^ 53 / 4)
      + 3 * (1 / 2 ^ 53) ≤ 1 / 2 ^ 50 := by norm_num
  rw [abs_le]
  constructor <;> linarith [hx.1, hx.2, hQ.1, hQ.2, hquot.1, hquot.2]

theorem updateLegends_unset (env : JSEnv) (mo : MainObj)
    (hs : idxTruthy mo.view.size.i = false) (ho : idxTruthy mo.view.opacity.i = false)
    (hc : idxTruthy mo.view.color.i = false) :
    updateLegends env mo legendItems = none := by
  simp [updateLegends, legendItems, legendItem, View.get, hs, ho, hc]

/-- C13: with the x-axis bound to a column of finite or `NaN` values on the scale `none`,
and every point the ranges leave out masked, `calcDispMinMax` stores the least and the
greatest value of the points it counts and throws only what the update of the legends
throws, nothing when size, opacity and colour are unset. When the width of the range,
rounded, is finite and not zero, `transXForDisplay` stores for every unmasked point with
a value `r` other than `NaN` the value of `(r - min) / (max - min) - 1/2` in binary64,
each operation rounded: a number between -1/2 and 1/2, exactly -1/2 for a point holding
the minimum and exactly 1/2 for one holding the maximum, and within `2^-50` of the exact
quotient minus 1/2 when the width is at least `2^-1000`. -/
theorem transX_unit_interval (env : JSEnv) (mo : MainObj) (col : Column) (k : Nat) (r : ℚ)
    (hi : idxTruthy mo.view.x.i = true) (hcol : getCol mo.data mo.view.x.i = some col)
    (hscale : mo.view.x.scale = .str "none") (hk : k < mo.cache.nctg)
    (hfinite : ∀ i, i < mo.cache.nctg → flagAt mo.masked i = false →
      (col.numAt i).selfEq = true → (col.numAt i).isFinite = true)
    (hsub : ∀ i, flagAt mo.mask i = false → flagAt mo.masked i = false)
    (hmask : flagAt mo.mask k = false) (hr : col.numAt k = .fin r) :
    ∃ mn mx : ℚ,
      (calcDispMinMax env mo [.x]).1.view.x.min = .fin mn ∧
      (calcDispMinMax env mo [.x]).1.view.x.max = .fin mx ∧
      (calcDispMinMax env mo [.x]).2
        = updateLegends env (calcDispMinMax env mo [.x]).1 legendItems ∧
      (idxTruthy mo.view.size.i = false → idxTruthy mo.view.opacity.i = false →
        idxTruthy mo.view.color.i = false → (calcDispMinMax env mo [.x]).2 = none) ∧
      (∃ i, i < mo.cache.nctg ∧ flagAt mo.masked i = false ∧ col.numAt i = .fin mn) ∧
      (∃ i, i < mo.cache.nctg ∧ flagAt mo.masked i = false ∧ col.numAt i = .fin mx) ∧
      (∀ i q, i < mo.cache.nctg → flagAt mo.mask i = false → col.numAt i = .fin q →
        mn ≤ q ∧ q ≤ mx) ∧
      (∀ R : ℚ, (JSNum.fin mx - JSNum.fin mn).fl = .fin R → R ≠ 0 →
        (transXForDisplay env (calcDispMinMax env mo [.x]).1).2 = none ∧
        (transXForDisplay env (calcDispMinMax env mo [.x]).1).1.trans.x.get? k
          = some (.fin (roundDouble (roundDouble (roundDouble (r - mn) / R) - 1 / 2))) ∧
        -(1 / 2) ≤ roundDouble (roundDouble (roundDouble (r - mn) / R) - 1 / 2) ∧
        roundDouble (roundDouble (roundDouble (r - mn) / R) - 1 / 2) ≤ 1 / 2 ∧
        (r = mn → roundDouble (roundDouble (roundDouble (r - mn) / R) - 1 / 2) = -(1 / 2)) ∧
        (r = mx → roundDouble (roundDouble (roundDouble (r - mn) / R) - 1 / 2) = 1 / 2) ∧
        (1 / 2 ^ 1000 ≤ mx - mn →
          |roundDouble (roundDouble (roundDouble (r - mn) / R) - 1 / 2)
            - ((r - mn) / (mx - mn) - 1 / 2)| ≤ 1 / 2 ^ 50)) := by
  have hn0 : mo.cache.nctg ≠ 0 := by omega
  have hmaskedk : flagAt mo.masked k = false := hsub k hmask
  have hmemk : JSNum.fin r ∈ unmaskedVals col mo.masked mo.cache.nctg :=
    (mem_unmaskedVals _ _ _ _).mpr ⟨k, hk, hr, rfl, hmaskedk⟩
  have hne : unmaskedVals col mo.masked mo.cache.nctg ≠ [] := List.ne_nil_of_mem hmemk
  have hfin : ∀ x ∈ unmaskedVals col mo.masked mo.cache.nctg, x.isFinite = true := by
    intro x hx
    obtain ⟨i, hi2, hx2, hs, hm⟩ := (mem_unmaskedVals _ _ _ _).mp hx
    rw [← hx2]
    exact hfinite i hi2 hm (hx2 ▸ hs)
  obtain ⟨mn, mx, hmm, hmnmem, hmxmem, hbounds⟩ := arrMinMax_fin _ hne hfin
  have hitem : calcDispMinMaxItem env .x mo
      = ({ mo with view := mo.view.set .x { mo.view.x with min := .fin mn, max := .fin mx } },
          none) := by
    simp only [calcDispMinMaxItem, View.get, hi, Bool.not_true, Bool.false_eq_true, if_false,
      hcol, hmm, hscale, scaleNum, if_true]
  have hcalc : calcDispMinMax env mo [.x]
      = ({ mo with view := mo.view.set .x { mo.view.x with min := .fin mn, max := .fin mx } },
          updateLegends env
            { mo with view := mo.view.set .x { mo.view.x with min := .fin mn, max := .fin mx } }
            legendItems) := by
    simp only [calcDispMinMax, hn0, if_false, forEach_single, hitem]
  rw [hcalc]
  refine ⟨mn, mx, rfl, rfl, rfl, fun hs ho hc => ?_, ?_, ?_, ?_, ?_⟩
  · exact updateLegends_unset env _ hs ho hc
  · obtain ⟨i, hi2, hx2, _, hm⟩ := (mem_unmaskedVals _ _ _ _).mp hmnmem
    exact ⟨i, hi2, hm, hx2⟩
  · obtain ⟨i, hi2, hx2, _, hm⟩ := (mem_unmaskedVals _ _ _ _).mp hmxmem
    exact ⟨i, hi2, hm, hx2⟩
  · intro i q hi2 hm hq
    exact hbounds q ((mem_unmaskedVals _ _ _ _).mpr ⟨i, hi2, hq, rfl, hsub i hm⟩)
  · intro R hR hR0
    obtain ⟨hrlo, hrhi⟩ := hbounds r hmemk
    have hRD : (JSNum.fin (mx - mn)).fl = .fin R := by rw [← JSNum.fin_sub_fin]; exact hR
    obtain ⟨hval, hlo, hhi, hzero, hfull⟩ :=
      unit_value (r - mn) (mx - mn) R (sub_nonneg.mpr hrlo) (by linarith) hRD hR0
    have hloop := forUpTo_transStep_get? env col (.str "none")
      (fun s => (((s - JSNum.fin mn).fl / JSNum.fin R).fl - JSNum.half).fl) .nan
      mo.cache.nctg mo.trans.x (by decide)
    obtain ⟨s, hs, hget⟩ := hloop.2 k hk
    have hsr : s = .fin r := by
      simp only [scaleNum, if_true, hr, Except.ok.injEq] at hs
      exact hs.symm
    refine ⟨?_, ?_, hlo, hhi, fun h => hzero (by rw [h, sub_self]),
      fun h => hfull (by rw [h]), fun hD => ?_⟩
    · simp only [transXForDisplay, View.set, hcol, hscale, hR]
      exact hloop.1
    · simp only [transXForDisplay, View.set, hcol, hscale, hR]
      rw [hget, hsr]
      simp only [JSNum.fin_sub_fin, hval]
    · have hRd := ((ofExact_eq_fin_iff (mx - mn) R).mp hRD).1
      rw [hRd]
      exact unit_value_error (r - mn) (mx - mn) (sub_nonneg.mpr hrlo) (by linarith) hD

theorem transX_unit_interval_witness :
    idxTruthy thirdsState.view.x.i = true ∧
    getCol thirdsState.data thirdsState.view.x.i = some (.num [0, 1, 3]) ∧
    thirdsState.view.x.scale = .str "none" ∧ 1 < thirdsState.cache.nctg ∧
    flagAt thirdsState.mask 1 = false ∧ (Column.num [0, 1, 3]).numAt 1 = .fin 1 ∧
    (transXForDisplay refEnv (calcDispMinMax refEnv thirdsState [.x]).1).1.trans.x.get? 1
      = some (.fin (-3002399751580331 / 2 ^ 54)) := by
  have hfinite : ∀ i, i < thirdsState.cache.nctg → flagAt thirdsState.masked i = false →
      ((Column.num [0, 1, 3]).numAt i).selfEq = true →
      ((Column.num [0, 1, 3]).numAt i).isFinite = true := by
    intro i hi _ _
    have h3 : i < 3 := hi
    interval_cases i <;> decide!
  have hsub : ∀ i, flagAt thirdsState.mask i = false → flagAt thirdsState.masked i = false := by
    intro i _
    have hm : thirdsState.masked = [false, false, false] := by decide!
    rw [hm]
    unfold flagAt
    rcases i with _ | _ | _ | i <;> rfl
  obtain ⟨mn, mx, hmin, hmax, _, _, _, _, _, hrest⟩ :=
    transX_unit_interval refEnv thirdsState (.num [0, 1, 3]) 1 1 (by decide) (by decide!)
      (by decide) (by decide) hfinite hsub (by decide) (by decide!)
  have h0 : (calcDispMinMax refEnv thirdsState [.x]).1.view.x.min = .fin 0 := by decide!
  have h3 : (calcDispMinMax refEnv thirdsState [.x]).1.view.x.max = .fin 3 := by decide!
  have emn : mn = 0 := JSNum.fin.inj (hmin.symm.trans h0)
  have emx : mx = 3 := JSNum.fin.inj (hmax.symm.trans h3)
  subst emn emx
  have hR : (JSNum.fin 3 - JSNum.fin 0).fl = .fin 3 := by decide!
  have hget := (hrest 3 hR (by norm_num)).2.1
  have hv : roundDouble (roundDouble (roundDouble (1 - 0) / 3) - 1 / 2)
      = -3002399751580331 / 2 ^ 54 := by decide!
  rw [hv] at hget
  exact ⟨by decide, by decide!, by decide, by decide, by decide, by decide!, hget⟩

/-- C14, as stated, fails: with both axes on the column of values 0, 1 and 3, the point
holding 1 gets `-0.16666666666666669` from `transXForDisplay` and `0.16666666666666663`
from `transYForDisplay`, two doubles that are not the negative of each other. -/
theorem transY_not_negated :
    thirdsState.view.y.i = thirdsState.view.x.i ∧
    thirdsState.view.y.scale = thirdsState.view.x.scale ∧
    thirdsState.view.y.min = thirdsState.view.x.min ∧
    thirdsState.view.y.max = thirdsState.view.x.max ∧
    (transXForDisplay refEnv thirdsState).1.trans.x.get? 1
      = some (.fin (-3002399751580331 / 2 ^ 54)) ∧
    (transYForDisplay refEnv thirdsState).1.trans.y.get? 1
      = some (.fin (1501199875790165 / 2 ^ 53)) ∧
    (1501199875790165 / 2 ^ 53 : ℚ) ≠ -(-3002399751580331 / 2 ^ 54) := by
  decide!

/-- C14, amended: when the x- and the y-axis have the same column, scale, minimum and
maximum, with a width of the range that, rounded, is finite and not zero, then for a
point whose scaled value `s` lies between the minimum and the maximum the values that
`transXForDisplay` and `transYForDisplay` store are the values of
`(s - min) / (max - min) - 1/2` and `(max - s) / (max - min) - 1/2` in binary64, each
operation rounded. The maximum goes to 1/2 and -1/2, the minimum to -1/2 and 1/2,
exactly; for a width of at least `2^-1000` each value is within `2^-50` of its exact
counterpart, so that the two add up to at most `2^-49` in magnitude. -/
theorem transY_negates_transX_rounded (env : JSEnv) (mo : MainObj) (col : Column) (k : Nat)
    (mn mx s R : ℚ)
    (hcol : getCol mo.data mo.view.x.i = some col)
    (hyi : mo.view.y.i = mo.view.x.i) (hysc : mo.view.y.scale = mo.view.x.scale)
    (hxmin : mo.view.x.min = .fin mn) (hymin : mo.view.y.min = .fin mn)
    (hxmax : mo.view.x.max = .fin mx) (hymax : mo.view.y.max = .fin mx)
    (hR : (JSNum.fin mx - JSNum.fin mn).fl = .fin R) (hR0 : R ≠ 0) (hk : k < mo.cache.nctg)
    (hs : scaleNum env (col.numAt k) mo.view.x.scale = .ok (.fin s))
    (hlo : mn ≤ s) (hhi : s ≤ mx) :
    (transXForDisplay env mo).1.trans.x.get? k
      = some (.fin (roundDouble (roundDouble (roundDouble (s - mn) / R) - 1 / 2))) ∧
    (transYForDisplay env mo).1.trans.y.get? k
      = some (.fin (roundDouble (roundDouble (roundDouble (mx - s) / R) - 1 / 2))) ∧
    (s = mx → roundDouble (roundDouble (roundDouble (s - mn) / R) - 1 / 2) = 1 / 2 ∧
      roundDouble (roundDouble (roundDouble (mx - s) / R) - 1 / 2) = -(1 / 2)) ∧
    (s = mn → roundDouble (roundDouble (roundDouble (s - mn) / R) - 1 / 2) = -(1 / 2) ∧
      roundDouble (roundDouble (roundDouble (mx - s) / R) - 1 / 2) = 1 / 2) ∧
    (1 / 2 ^ 1000 ≤ mx - mn →
      |roundDouble (roundDouble (roundDouble (s - mn) / R) - 1 / 2)
        - ((s - mn) / (mx - mn) - 1 / 2)| ≤ 1 / 2 ^ 50 ∧
      |roundDouble (roundDouble (roundDouble (mx - s) / R) - 1 / 2)
        - ((mx - s) / (mx - mn) - 1 / 2)| ≤ 1 / 2 ^ 50 ∧
      |roundDouble (roundDouble (roundDouble (mx - s) / R) - 1 / 2)
        + roundDouble (roundDouble (roundDouble (s - mn) / R) - 1 / 2)| ≤ 1 / 2 ^ 49) := by
  have hRD : (JSNum.fin (mx - mn)).fl = .fin R := by rw [← JSNum.fin_sub_fin]; exact hR
  have hRd := ((ofExact_eq_fin_iff (mx - mn) R).mp hRD).1
  obtain ⟨hxv, _, _, hx0, hx1⟩ :=
    unit_value (s - mn) (mx - mn) R (sub_nonneg.mpr hlo) (by linarith) hRD hR0
  obtain ⟨hyv, _, _, hy0, hy1⟩ :=
    unit_value (mx - s) (mx - mn) R (sub_nonneg.mpr hhi) (by linarith) hRD hR0
  have hvalid := valid_of_scaleNum_ok env _ _ _ hs
  have hx := forUpTo_transStep_get? env col mo.view.x.scale
    (fun s => (((s - JSNum.fin mn).fl / JSNum.fin R).fl - JSNum.half).fl) .nan
    mo.cache.nctg mo.trans.x hvalid
  have hy := forUpTo_transStep_get? env col mo.view.x.scale
    (fun s => (((JSNum.fin mx - s).fl / JSNum.fin R).fl - JSNum.half).fl) .nan
    mo.cache.nctg mo.trans.y hvalid
  obtain ⟨s1, hs1, hget1⟩ := hx.2 k hk
  obtain ⟨s2, hs2, hget2⟩ := hy.2 k hk
  rw [hs] at hs1 hs2
  have e1 : s1 = .fin s := (Except.ok.inj hs1).symm
  have e2 : s2 = .fin s := (Except.ok.inj hs2).symm
  refine ⟨?_, ?_, fun h => ⟨hx1 (by rw [h]), hy0 (by rw [h, sub_self])⟩,
    fun h => ⟨hx0 (by rw [h, sub_self]), hy1 (by rw [h])⟩, fun hD => ?_⟩
  · simp only [transXForDisplay, hcol, hxmin, hxmax, hR]
    rw [hget1, e1]
    simp only [JSNum.fin_sub_fin, hxv]
  · simp only [transYForDisplay, hyi, hysc, hcol, hymin, hymax, hR]
    rw [hget2, e2]
    simp only [JSNum.fin_sub_fin, hyv]
  · have ex := unit_value_error (s - mn) (mx - mn) (sub_nonneg.mpr hlo) (by linarith) hD
    have ey := unit_value_error (mx - s) (mx - mn) (sub_nonneg.mpr hhi) (by linarith) hD
    rw [← hRd] at ex ey
    refine ⟨ex, ey, ?_⟩
    have hD0 : mx - mn ≠ 0 := by
      have : (0 : ℚ) < 1 / 2 ^ 1000 := by positivity
      linarith
    have hsum : ((mx - s) / (mx - mn) - 1 / 2) + ((s - mn) / (mx - mn) - 1 / 2) = 0 := by
      field_simp
      ring
    rw [abs_le] at ex ey ⊢
    have h49 : (1 : ℚ) / 2 ^ 50 + 1 / 2 ^ 50 = 1 / 2 ^ 49 := by norm_num
    constructor <;> linarith [ex.1, ex.2, ey.1, ey.2]

theorem transY_negates_transX_rounded_witness :
    getCol thirdsState.data thirdsState.view.x.i = some (.num [0, 1, 3]) ∧
    (transYForDisplay refEnv thirdsState).1.trans.y.get? 1
      = some (.fin (roundDouble (roundDouble (roundDouble (3 - 1) / 3) - 1 / 2))) ∧
    |roundDouble (roundDouble (roundDouble (3 - 1) / 3) - 1 / 2)
      + roundDouble (roundDouble (roundDouble (1 - 0) / 3) - 1 / 2)| ≤ 1 / 2 ^ 49 := by
  have h := transY_negates_transX_rounded refEnv thirdsState (.num [0, 1, 3]) 1 0 3 1 3
    (by decide!) (by decide!) (by decide!) (by decide!) (by decide!) (by decide!) (by decide!)
    (by decide!) (by norm_num) (by decide) (by decide!) (by norm_num) (by norm_num)
  exact ⟨by decide!, h.2.1, (h.2.2.2.2 (by norm_num)).2.2⟩

/-! ### The tests of the renderer -/

theorem neg_fin (a : ℚ) : (-(JSNum.fin a) : JSNum) = .fin (-a) := rfl

theorem lt_fin_fin (a b : ℚ) : (JSNum.fin a).lt (.fin b) = decide (a < b) := rfl

theorem gt_fin_fin (a b : ℚ) : (JSNum.fin a).gt (.fin b) = decide (b < a) := rfl

theorem dim_eq_fin (n : Nat) : dim n = .fin (n : ℚ) := rfl

/-- C16: with the pan `(px, py)`, the zoom `z > 0` and a point at `(x, y)` of radius
`r ≥ 0`, all finite, the culling test of `renderArena` holds exactly when no point of
the box `[x - r, x + r] × [y - r, y + r]` has its image under the transform of the
canvas, `pan + zoom * p`, inside the rectangle of the canvas `[0, w] × [0, h]`. -/
theorem outsideView_iff_disjoint (view : View) (rena : Canvas) (px py z x y r : ℚ)
    (hpx : view.posX = .fin px) (hpy : view.posY = .fin py) (hz : view.scale = .fin z)
    (hzpos : 0 < z) (hr : 0 ≤ r) :
    outsideView view rena (.fin x) (.fin y) (.fin r) = true ↔
      ¬ ∃ u v : ℚ, x - r ≤ u ∧ u ≤ x + r ∧ y - r ≤ v ∧ v ≤ y + r ∧
        ∃ su sv : ℚ, worldToScreen view (.fin u, .fin v) = (.fin su, .fin sv) ∧
          0 ≤ su ∧ su ≤ rena.width ∧ 0 ≤ sv ∧ sv ≤ rena.height := by
  have hz0 : z ≠ 0 := ne_of_gt hzpos
  have hw : (0 : ℚ) ≤ rena.width := Nat.cast_nonneg _
  have hh : (0 : ℚ) ≤ rena.height := Nat.cast_nonneg _
  simp only [outsideView, outsideX, outsideY, worldToScreen, hpx, hpy, hz, neg_fin, dim_eq_fin,
    JSNum.fin_add_fin,
    JSNum.fin_sub_fin, JSNum.fin_mul_fin, JSNum.fin_div_fin _ _ hz0, lt_fin_fin, gt_fin_fin,
    Bool.or_eq_true, decide_eq_true_eq, Prod.mk.injEq, JSNum.fin.injEq]
  constructor
  · rintro hout ⟨u, v, hu1, hu2, hv1, hv2, su, sv, ⟨hsu, hsv⟩, h0u, hwu, h0v, hhv⟩
    subst hsu hsv
    rcases hout with (h | h) | (h | h)
    · rw [lt_div_iff₀ hzpos] at h; nlinarith
    · rw [div_lt_iff₀ hzpos] at h; nlinarith
    · rw [lt_div_iff₀ hzpos] at h; nlinarith
    · rw [div_lt_iff₀ hzpos] at h; nlinarith
  · intro hno
    by_contra hcon
    simp only [not_or, not_lt] at hcon
    obtain ⟨⟨hA, hB⟩, hC, hD⟩ := hcon
    rw [div_le_iff₀ hzpos] at hA hC
    rw [le_div_iff₀ hzpos] at hB hD
    apply hno
    refine ⟨max (x - r) (-px / z), max (y - r) (-py / z), le_max_left _ _, ?_, le_max_left _ _, ?_,
      px + z * max (x - r) (-px / z), py + z * max (y - r) (-py / z), ⟨rfl, rfl⟩, ?_, ?_, ?_, ?_⟩
    · apply max_le; linarith
      rw [div_le_iff₀ hzpos]; linarith
    · apply max_le; linarith
      rw [div_le_iff₀ hzpos]; linarith
    · have := le_max_right (x - r) (-px / z)
      rw [div_le_iff₀ hzpos] at this
      linarith
    · have h1 : max (x - r) (-px / z) ≤ (rena.width - px) / z := by
        apply max_le
        · rw [le_div_iff₀ hzpos]; linarith
        · rw [div_le_div_iff_of_pos_right hzpos]; linarith
      rw [le_div_iff₀ hzpos] at h1
      linarith
    · have := le_max_right (y - r) (-py / z)
      rw [div_le_iff₀ hzpos] at this
      linarith
    · have h1 : max (y - r) (-py / z) ≤ (rena.height - py) / z := by
        apply max_le
        · rw [le_div_iff₀ hzpos]; linarith
        · rw [div_le_div_iff_of_pos_right hzpos]; linarith
      rw [le_div_iff₀ hzpos] at h1
      linarith

theorem outsideView_iff_disjoint_witness :
    zoomedOutState.view.posX = .fin 50 ∧ zoomedOutState.view.posY = .fin 50 ∧
    zoomedOutState.view.scale = .fin (1 / 5) ∧
    outsideView zoomedOutState.view zoomedOutState.rena (.fin 300) (.fin 0) (.fin 5) = true ∧
    ¬ ∃ u v : ℚ, 300 - 5 ≤ u ∧ u ≤ 300 + 5 ∧ 0 - 5 ≤ v ∧ v ≤ 0 + 5 ∧
      ∃ su sv : ℚ, worldToScreen zoomedOutState.view (.fin u, .fin v) = (.fin su, .fin sv) ∧
        0 ≤ su ∧ su ≤ zoomedOutState.rena.width ∧ 0 ≤ sv ∧ sv ≤ zoomedOutState.rena.height :=
  ⟨by decide!, by decide!, by decide!, by decide!,
    (outsideView_iff_disjoint zoomedOutState.view zoomedOutState.rena 50 50 (1 / 5) 300 0 5
      (by decide!) (by decide!) (by decide!) (by norm_num) (by norm_num)).mp (by decide!)⟩

/-- C15, as stated, fails: a point whose radius on screen is the double
`0.5641895835477563`, the value of `Math.sqrt(1 / Math.PI)`, has a disc of less than one
square pixel, passes the sub-pixel test and is drawn. -/
theorem subPixel_boundary_drawn :
    refEnv.sqrt (1 / refEnv.PI).fl = .fin (5081767996463981 / 2 ^ 53) ∧
    flagAt boundaryRadiusState.mask 1 = false ∧
    radiusAt refEnv boundaryRadiusState.view boundaryRadiusState.data 1
      = .ok (.fin (5081767996463981 / 2 ^ 53)) ∧
    boundaryRadiusState.view.scale = .fin 1 ∧
    Real.pi * (((5081767996463981 / 2 ^ 53 * 1 : ℚ) : ℝ)) ^ 2 < 1 ∧
    subPixel refEnv boundaryRadiusState.view (.fin (5081767996463981 / 2 ^ 53)) = false ∧
    arenaPoint refEnv boundaryRadiusState 1 = .ok (some ("rgba(0,0,0,1)", true, ⟨1, 0, 0, 1⟩)) := by
  refine ⟨by decide!, by decide!, by decide!, by decide!, ?_, by decide!, by decide!⟩
  have hpi := Real.pi_lt_d20
  have hc : (3.14159265358979323847 : ℝ) * (((5081767996463981 / 2 ^ 53 * 1 : ℚ) : ℝ)) ^ 2 < 1 := by
    push_cast
    norm_num
  have hsq : (0 : ℝ) < (((5081767996463981 / 2 ^ 53 * 1 : ℚ) : ℝ)) ^ 2 := by
    push_cast
    positivity
  nlinarith

/-- C15, amended: for a point of finite radius `r ≥ 0` at the zoom `z > 0`, in a runtime
with `Math.PI` and the square root of binary64, the sub-pixel test of `renderArena`
holds exactly when the product `r * z`, rounded, is below the double
`0.5641895835477563` that `Math.sqrt(1 / Math.PI)` returns; an unmasked point for which
it holds is skipped. Every skipped point has an on-screen radius below that double and a
disc `π (r z)²` of less than one square pixel, and every point whose disc is below
`1 - 2^-50` is skipped. -/
theorem subPixel_iff_rounded (env : JSEnv) (mo : MainObj) (i : Nat) (r z : ℚ)
    (hPI : env.PI = .fin piDouble)
    (hsqrt : env.sqrt (.fin (5734161139222659 / 2 ^ 54)) = .fin (5081767996463981 / 2 ^ 53))
    (hz : mo.view.scale = .fin z) (hzpos : 0 < z) (hr : 0 ≤ r) :
    env.sqrt (1 / env.PI).fl = .fin (5081767996463981 / 2 ^ 53) ∧
    (subPixel env mo.view (.fin r) = true ↔ roundDouble (r * z) < 5081767996463981 / 2 ^ 53) ∧
    (subPixel env mo.view (.fin r) = true →
      r * z < 5081767996463981 / 2 ^ 53 ∧ Real.pi * ((r * z : ℚ) : ℝ) ^ 2 < 1) ∧
    (Real.pi * ((r * z : ℚ) : ℝ) ^ 2 < 1 - 1 / 2 ^ 50 → subPixel env mo.view (.fin r) = true) ∧
    (flagAt mo.mask i = false → radiusAt env mo.view mo.data i = .ok (.fin r) →
      subPixel env mo.view (.fin r) = true → arenaPoint env mo i = .ok none) := by
  have hinv : (1 / env.PI).fl = .fin (5734161139222659 / 2 ^ 54) := by
    rw [hPI]
    decide!
  have hthr : env.sqrt (1 / env.PI).fl = .fin (5081767996463981 / 2 ^ 53) := by
    rw [hinv, hsqrt]
  have hrz : 0 ≤ r * z := mul_nonneg hr hzpos.le
  have hbig : (5081767996463981 / 2 ^ 53 : ℚ) ≤ pow2 1024 := by
    rw [pow2_eq]
    have : (1 : ℚ) ≤ 2 ^ (1024 : ℤ) := one_le_zpow₀ (by norm_num) (by norm_num)
    have h2 : (5081767996463981 / 2 ^ 53 : ℚ) ≤ 1 := by norm_num
    linarith
  have h1 : subPixel env mo.view (.fin r) = true
      ↔ roundDouble (r * z) < 5081767996463981 / 2 ^ 53 := by
    unfold subPixel
    rw [hthr, hz, JSNum.fin_mul_fin]
    show (JSNum.ofExact (r * z)).lt _ = true ↔ _
    rw [ofExact_lt_fin _ _ hrz hbig, decide_eq_true_eq]
  have hfix : roundDouble (5081767996463981 / 2 ^ 53) = 5081767996463981 / 2 ^ 53 := by decide!
  have hpred : roundDouble (5081767996463980 / 2 ^ 53) = 5081767996463980 / 2 ^ 53 := by decide!
  refine ⟨hthr, h1, fun hsp => ?_, fun harea => ?_, fun hm hrad hsp => ?_⟩
  · have hlt : r * z < 5081767996463981 / 2 ^ 53 := by
      by_contra hcon
      have := roundDouble_mono (not_lt.mp hcon)
      rw [hfix] at this
      exact absurd (h1.mp hsp) (not_lt.mpr this)
    refine ⟨hlt, ?_⟩
    have hsq : (r * z) ^ 2 ≤ (5081767996463981 / 2 ^ 53 : ℚ) ^ 2 := pow_le_pow_left₀ hrz hlt.le 2
    have hsqR : ((r * z : ℚ) : ℝ) ^ 2 ≤ ((5081767996463981 / 2 ^ 53 : ℚ) : ℝ) ^ 2 := by
      exact_mod_cast hsq
    have hpi := Real.pi_lt_d20
    have hc : (3.14159265358979323847 : ℝ) * ((5081767996463981 / 2 ^ 53 : ℚ) : ℝ) ^ 2 < 1 := by
      push_cast
      norm_num
    have hpos : (0 : ℝ) ≤ ((r * z : ℚ) : ℝ) ^ 2 := sq_nonneg _
    have hpi0 := Real.pi_pos
    nlinarith
  · rw [h1]
    by_contra hcon
    have hge : (5081767996463981 / 2 ^ 53 : ℚ) ≤ roundDouble (r * z) := not_lt.mp hcon
    have hgt : (5081767996463980 / 2 ^ 53 : ℚ) < r * z := by
      by_contra hc2
      have := roundDouble_mono (not_lt.mp hc2)
      rw [hpred] at this
      have hlt : (5081767996463980 / 2 ^ 53 : ℚ) < 5081767996463981 / 2 ^ 53 := by norm_num
      linarith
    have hsq : (5081767996463980 / 2 ^ 53 : ℚ) ^ 2 ≤ (r * z) ^ 2 :=
      pow_le_pow_left₀ (by norm_num) hgt.le 2
    have hsqR : ((5081767996463980 / 2 ^ 53 : ℚ) : ℝ) ^ 2 ≤ ((r * z : ℚ) : ℝ) ^ 2 := by
      exact_mod_cast hsq
    have hpi := Real.pi_gt_d20
    have hc : (1 : ℝ) - 1 / 2 ^ 50
        ≤ 3.14159265358979323846 * ((5081767996463980 / 2 ^ 53 : ℚ) : ℝ) ^ 2 := by
      push_cast
      norm_num
    have hpos : (0 : ℝ) ≤ ((5081767996463980 / 2 ^ 53 : ℚ) : ℝ) ^ 2 := sq_nonneg _
    have hpi0 := Real.pi_pos
    nlinarith
  · simp only [arenaPoint, hm, hrad, hsp, Bool.false_eq_true, if_false, if_true]

theorem subPixel_iff_rounded_witness :
    refEnv.PI = .fin piDouble ∧
    refEnv.sqrt (.fin (5734161139222659 / 2 ^ 54)) = .fin (5081767996463981 / 2 ^ 53) ∧
    zoomedOutState.view.scale = .fin (1 / 5) ∧
    (subPixel refEnv zoomedOutState.view (.fin 2) = true
      ↔ roundDouble (2 * (1 / 5)) < 5081767996463981 / 2 ^ 53) ∧
    subPixel refEnv zoomedOutState.view (.fin 2) = true ∧
    Real.pi * ((2 * (1 / 5) : ℚ) : ℝ) ^ 2 < 1 :=
  ⟨by decide!, by decide!, by decide!,
    (subPixel_iff_rounded refEnv zoomedOutState 1 2 (1 / 5) (by decide!) (by decide!)
      (by decide!) (by norm_num) (by norm_num)).2.1, by decide!,
    ((subPixel_iff_rounded refEnv zoomedOutState 1 2 (1 / 5) (by decide!) (by decide!)
      (by decide!) (by norm_num) (by norm_num)).2.2.1 (by decide!)).2⟩

/-- C17, as stated, fails: at the zoom 1/5 a point of radius 5, which is not below
`sqrt(4/π)`, is queued as a square, of side 9, since its radius on screen is 1. -/
theorem arenaPoint_square_at_low_zoom :
    radiusAt refEnv zoomedOutState.view zoomedOutState.data 1 = .ok 5 ∧
    (5 : JSNum).lt (refEnv.sqrt (4 / refEnv.PI).fl) = false ∧
    arenaPoint refEnv zoomedOutState 1 = .ok (some ("rgba(0,0,0,1)", true, ⟨1, 0, 0, 9⟩)) := by
  decide!

/-- C17, amended: a point that `renderArena` draws is queued as a square exactly when its
radius on screen, `radius * zoom` rounded, is below `Math.sqrt(4 / Math.PI)`, with the
side `Math.round(radius * Math.sqrt(Math.PI))`, and as a circle of radius
`Math.round(radius)` otherwise. With `Math.PI` and the square root of binary64 the
threshold is the double `1.1283791670955126`, and for a radius `r` between `2^-1000` and
`2^1000` the side before `Math.round` is the product of `r` and `1.7724538509055159`,
rounded, whose square differs from the area `π r²` of the circle by at most `π r² / 2^50`. -/
theorem arenaPoint_square_iff_screen_radius (env : JSEnv) (mo : MainObj) (i : Nat)
    (fs : String) (isSquare : Bool) (p : Prim)
    (h : arenaPoint env mo i = .ok (some (fs, isSquare, p))) :
    ∃ radius, radiusAt env mo.view mo.data i = .ok radius ∧
      isSquare = (radius * mo.view.scale).fl.lt (env.sqrt (4 / env.PI).fl) ∧
      p.size = (if isSquare then (radius * env.sqrt env.PI).fl.round else radius.round) ∧
      (env.PI = .fin piDouble →
        env.sqrt (.fin (5734161139222659 / 2 ^ 52)) = .fin (5081767996463981 / 2 ^ 52) →
        env.sqrt (4 / env.PI).fl = .fin (5081767996463981 / 2 ^ 52) ∧
        ∀ r z : ℚ, radius = .fin r → mo.view.scale = .fin z → 0 ≤ r → 0 < z →
          (isSquare = true ↔ roundDouble (r * z) < 5081767996463981 / 2 ^ 52)) ∧
      (env.PI = .fin piDouble →
        env.sqrt (.fin piDouble) = .fin (3991211251234741 / 2 ^ 51) →
        ∀ r : ℚ, radius = .fin r → 1 / 2 ^ 1000 ≤ r → r ≤ 2 ^ 1000 →
          (radius * env.sqrt env.PI).fl
            = .fin (roundDouble (r * (3991211251234741 / 2 ^ 51))) ∧
          |((roundDouble (r * (3991211251234741 / 2 ^ 51)) : ℚ) : ℝ) ^ 2
              - Real.pi * ((r : ℚ) : ℝ) ^ 2| ≤ Real.pi * ((r : ℚ) : ℝ) ^ 2 * (1 / 2 ^ 50)) := by
  unfold arenaPoint at h
  simp only at h
  cases hm : flagAt mo.mask i with
  | true => simp [hm] at h
  | false =>
    simp only [hm, Bool.false_eq_true, if_false] at h
    cases hr : radiusAt env mo.view mo.data i with
    | error err => simp [hr] at h
    | ok radius =>
      simp only [hr] at h
      refine ⟨radius, rfl, ?_⟩
      cases hsp : subPixel env mo.view radius with
      | true => simp [hsp] at h
      | false =>
        simp only [hsp, Bool.false_eq_true, if_false] at h
        cases hx : posXAt env (getCol mo.data mo.view.x.i) mo.view.x.scale mo.view.x.min
            (mo.view.x.max - mo.view.x.min) mo.rena.width i with
        | error err => simp [hx] at h
        | ok px =>
          simp only [hx] at h
          cases hy : posYAt env (getCol mo.data mo.view.y.i) mo.view.y.scale mo.view.y.max
              (mo.view.y.max - mo.view.y.min) mo.rena.height i with
          | error err => simp [hy] at h
          | ok py =>
            simp only [hy] at h
            cases hout : outsideView mo.view mo.rena px.round py.round radius with
            | true => simp [hout] at h
            | false =>
              simp only [hout, Bool.false_eq_true, if_false] at h
              cases hc : colorAt env mo.view mo.data i with
              | error err => simp [hc] at h
              | ok c =>
                simp only [hc] at h
                cases ha : alphaAt env mo.view mo.data i with
                | error err => simp [ha] at h
                | ok alpha =>
                  simp only [ha] at h
                  have hiff : ∀ b : Bool,
                      b = (radius * mo.view.scale).fl.lt (env.sqrt (4 / env.PI).fl) →
                      env.PI = .fin piDouble →
                      env.sqrt (.fin (5734161139222659 / 2 ^ 52))
                        = .fin (5081767996463981 / 2 ^ 52) →
                      env.sqrt (4 / env.PI).fl = .fin (5081767996463981 / 2 ^ 52) ∧
                      ∀ r z : ℚ, radius = .fin r → mo.view.scale = .fin z → 0 ≤ r → 0 < z →
                        (b = true ↔ roundDouble (r * z) < 5081767996463981 / 2 ^ 52) := by
                    intro b hb hPI hsqrt
                    have hinv : (4 / env.PI).fl = .fin (5734161139222659 / 2 ^ 52) := by
                      rw [hPI]
                      decide!
                    have hthr : env.sqrt (4 / env.PI).fl = .fin (5081767996463981 / 2 ^ 52) := by
                      rw [hinv, hsqrt]
                    refine ⟨hthr, fun r z hr2 hz2 hr0 hz0 => ?_⟩
                    have hbig : (5081767996463981 / 2 ^ 52 : ℚ) ≤ pow2 1024 := by
                      rw [pow2_eq]
                      have h1 : (2 : ℚ) ≤ 2 ^ (1024 : ℤ) := by
                        have := zpow_le_zpow_right₀ (show (1 : ℚ) ≤ 2 by norm_num)
                          (show (1 : ℤ) ≤ 1024 by norm_num)
                        simpa using this
                      have h2 : (5081767996463981 / 2 ^ 52 : ℚ) ≤ 2 := by norm_num
                      linarith
                    rw [hb, hthr, hr2, hz2, JSNum.fin_mul_fin]
                    show (JSNum.ofExact (r * z)).lt _ = true ↔ _
                    rw [ofExact_lt_fin _ _ (mul_nonneg hr0 hz0.le) hbig, decide_eq_true_eq]
                  have harea : env.PI = .fin piDouble →
                      env.sqrt (.fin piDouble) = .fin (3991211251234741 / 2 ^ 51) →
                      ∀ r : ℚ, radius = .fin r → 1 / 2 ^ 1000 ≤ r → r ≤ 2 ^ 1000 →
                      (radius * env.sqrt env.PI).fl
                        = .fin (roundDouble (r * (3991211251234741 / 2 ^ 51))) ∧
                      |((roundDouble (r * (3991211251234741 / 2 ^ 51)) : ℚ) : ℝ) ^ 2
                          - Real.pi * ((r : ℚ) : ℝ) ^ 2|
                        ≤ Real.pi * ((r : ℚ) : ℝ) ^ 2 * (1 / 2 ^ 50) := by
                    intro hPI hsqrt r hr2 hlo hhi
                    have hr0 : (0 : ℚ) < r := lt_of_lt_of_le (by positivity) hlo
                    have hS1 : (1 : ℚ) ≤ 3991211251234741 / 2 ^ 51 := by norm_num
                    have hS2 : (3991211251234741 / 2 ^ 51 : ℚ) ≤ 2 := by norm_num
                    have ha0 : 0 ≤ r * (3991211251234741 / 2 ^ 51) :=
                      mul_nonneg hr0.le (by norm_num)
                    have halo : 1 / 2 ^ 1000 ≤ r * (3991211251234741 / 2 ^ 51) := by
                      nlinarith
                    have hahi : |r * (3991211251234741 / 2 ^ 51)| ≤ 2 ^ 1023 := by
                      rw [abs_of_nonneg ha0]
                      have h3 : (2 : ℚ) ^ 1023 = 2 ^ 1000 * 2 ^ 23 := by rw [← pow_add]
                      have h4 : (2 : ℚ) ≤ 2 ^ 23 := by norm_num
                      have h5 : (0 : ℚ) < 2 ^ 1000 := by positivity
                      rw [h3]
                      calc r * (3991211251234741 / 2 ^ 51) ≤ 2 ^ 1000 * 2 :=
                            mul_le_mul hhi hS2 (by norm_num) h5.le
                        _ ≤ 2 ^ 1000 * 2 ^ 23 := mul_le_mul_of_nonneg_left h4 h5.le
                    refine ⟨?_, ?_⟩
                    · rw [hr2, hPI, hsqrt, JSNum.fin_mul_fin]
                      exact fl_fin_eq _ hahi
                    · have hrel := roundDouble_rel _ (pow2_neg_1022_le halo)
                      rw [abs_of_nonneg ha0] at hrel
                      have hrel2 : |roundDouble (r * (3991211251234741 / 2 ^ 51))
                          - r * (3991211251234741 / 2 ^ 51)|
                          ≤ r * (3991211251234741 / 2 ^ 51) * (1 / 2 ^ 53) := by
                        rw [mul_one_div]
                        exact hrel
                      obtain ⟨q1, q2⟩ := sq_within _ _ (1 / 2 ^ 53) ha0 (by norm_num) hrel2
                      have e1 : (r * (3991211251234741 / 2 ^ 51)) ^ 2 * (1 - 1 / 2 ^ 53) ^ 2
                          = r ^ 2 * ((3991211251234741 / 2 ^ 51) ^ 2 * (1 - 1 / 2 ^ 53) ^ 2) := by
                        ring
                      have e2 : (r * (3991211251234741 / 2 ^ 51)) ^ 2 * (1 + 1 / 2 ^ 53) ^ 2
                          = r ^ 2 * ((3991211251234741 / 2 ^ 51) ^ 2 * (1 + 1 / 2 ^ 53) ^ 2) := by
                        ring
                      rw [e1] at q1
                      rw [e2] at q2
                      have q1R : ((r : ℚ) : ℝ) ^ 2
                          * (((3991211251234741 / 2 ^ 51) ^ 2 * (1 - 1 / 2 ^ 53) ^ 2 : ℚ) : ℝ)
                          ≤ ((roundDouble (r * (3991211251234741 / 2 ^ 51)) : ℚ) : ℝ) ^ 2 := by
                        exact_mod_cast q1
                      have q2R : ((roundDouble (r * (3991211251234741 / 2 ^ 51)) : ℚ) : ℝ) ^ 2
                          ≤ ((r : ℚ) : ℝ) ^ 2
                            * (((3991211251234741 / 2 ^ 51) ^ 2 * (1 + 1 / 2 ^ 53) ^ 2 : ℚ) : ℝ) := by
                        exact_mod_cast q2
                      have hlo2 : Real.pi * (1 - 1 / 2 ^ 50)
                          ≤ (((3991211251234741 / 2 ^ 51) ^ 2 * (1 - 1 / 2 ^ 53) ^ 2 : ℚ) : ℝ) := by
                        have hpi := Real.pi_lt_d20
                        have hc : (3.14159265358979323847 : ℝ) * (1 - 1 / 2 ^ 50)
                            ≤ (((3991211251234741 / 2 ^ 51) ^ 2 * (1 - 1 / 2 ^ 53) ^ 2 : ℚ) : ℝ) := by
                          push_cast
                          norm_num
                        have hpos : (0 : ℝ) ≤ 1 - 1 / 2 ^ 50 := by norm_num
                        nlinarith
                      have hhi2 : (((3991211251234741 / 2 ^ 51) ^ 2 * (1 + 1 / 2 ^ 53) ^ 2 : ℚ) : ℝ)
                          ≤ Real.pi * (1 + 1 / 2 ^ 50) := by
                        have hpi := Real.pi_gt_d20
                        have hc : (((3991211251234741 / 2 ^ 51) ^ 2 * (1 + 1 / 2 ^ 53) ^ 2 : ℚ) : ℝ)
                            ≤ 3.14159265358979323846 * (1 + 1 / 2 ^ 50) := by
                          push_cast
                          norm_num
                        have hpos : (0 : ℝ) ≤ 1 + 1 / 2 ^ 50 := by norm_num
                        nlinarith
                      exact area_within _ _ _ _ _ _ q1R q2R hlo2 hhi2
                  by_cases hlt : (radius * mo.view.scale).fl.lt (env.sqrt (4 / env.PI).fl) = true
                  · simp only [hlt, if_true, Except.ok.injEq, Option.some.injEq,
                      Prod.mk.injEq] at h
                    obtain ⟨_, hsq, hp⟩ := h
                    subst hsq hp
                    exact ⟨hlt.symm, by simp, hiff true hlt.symm, harea⟩
                  · simp only [hlt, if_false, Except.ok.injEq, Option.some.injEq,
                      Prod.mk.injEq, Bool.false_eq_true] at h
                    obtain ⟨_, hsq, hp⟩ := h
                    subst hsq hp
                    have hf : false = (radius * mo.view.scale).fl.lt (env.sqrt (4 / env.PI).fl) := by
                      simpa using hlt
                    exact ⟨hf, by simp, hiff false hf, harea⟩

theorem arenaPoint_square_iff_screen_radius_witness :
    arenaPoint refEnv zoomedOutState 1 = .ok (some ("rgba(0,0,0,1)", true, ⟨1, 0, 0, 9⟩)) ∧
    radiusAt refEnv zoomedOutState.view zoomedOutState.data 1 = .ok (.fin 5) ∧
    true = ((JSNum.fin 5) * zoomedOutState.view.scale).fl.lt (refEnv.sqrt (4 / refEnv.PI).fl) ∧
    refEnv.sqrt (4 / refEnv.PI).fl = .fin (5081767996463981 / 2 ^ 52) ∧
    ((JSNum.fin 5) * refEnv.sqrt refEnv.PI).fl
      = .fin (roundDouble (5 * (3991211251234741 / 2 ^ 51))) ∧
    |((roundDouble (5 * (3991211251234741 / 2 ^ 51)) : ℚ) : ℝ) ^ 2
        - Real.pi * ((5 : ℚ) : ℝ) ^ 2| ≤ Real.pi * ((5 : ℚ) : ℝ) ^ 2 * (1 / 2 ^ 50) := by
  obtain ⟨radius, hrad, hsq, _, hthr, harea⟩ :=
    arenaPoint_square_iff_screen_radius refEnv zoomedOutState 1 "rgba(0,0,0,1)" true
      ⟨1, 0, 0, 9⟩ (by decide!)
  have h5 : radiusAt refEnv zoomedOutState.view zoomedOutState.data 1 = .ok (.fin 5) := by
    decide!
  have hr : radius = .fin 5 := by
    rw [h5] at hrad
    exact (Except.ok.inj hrad).symm
  subst hr
  have hlo : (1 : ℚ) / 2 ^ 1000 ≤ 5 :=
    le_trans (one_div_le_one_div_of_le (by norm_num) (one_le_pow₀ (by norm_num)))
      (by norm_num)
  have hhi : (5 : ℚ) ≤ 2 ^ 1000 :=
    le_trans (by norm_num : (5 : ℚ) ≤ 2 ^ 3)
      (pow_le_pow_right₀ (by norm_num : (1 : ℚ) ≤ 2) (by norm_num : 3 ≤ 1000))
  have ha := harea (by decide!) (by decide!) 5 rfl hlo hhi
  exact ⟨by decide!, h5, hsq, (hthr (by decide!) (by decide!)).1, ha.1, ha.2⟩

/-- C6, as stated, fails: with the pan at `(0, 0)` the points with x equal to 0 and 1 get no
primitive; the culling test on x skips them. -/
theorem fivePoints_origin_pan_culls_two :
    arenaPoint refEnv (fivePoints 0 0) 0 = .ok none ∧
    arenaPoint refEnv (fivePoints 0 0) 1 = .ok none := by
  decide!

/-- C6, amended: for the five unmasked points with x from 0 to 4, size unset, base radius
5 and zoom 1 on a 100 by 100 canvas with the pan at `(0, 0)`, no point is skipped by the
sub-pixel test; the points are placed at x = -50, -25, 0, 25 and 50, so that the culling
test on x, `x + 5 < 0 || x - 5 > 100`, holds for the points 0 and 1, which get no
primitive, and fails for the points 2, 3 and 4. -/
theorem fivePoints_x_culling :
    (fivePoints 0 0).rena = ⟨100, 100⟩ ∧ (fivePoints 0 0).view.scale = 1 ∧
    (fivePoints 0 0).view.posX = 0 ∧ (fivePoints 0 0).view.posY = 0 ∧
    (List.range 5).map (flagAt (fivePoints 0 0).mask) = [false, false, false, false, false] ∧
    (List.range 5).map (radiusAt refEnv (fivePoints 0 0).view (fivePoints 0 0).data)
      = [.ok 5, .ok 5, .ok 5, .ok 5, .ok 5] ∧
    subPixel refEnv (fivePoints 0 0).view 5 = false ∧
    (List.range 5).map (posXAt refEnv (getCol (fivePoints 0 0).data (fivePoints 0 0).view.x.i)
        (fivePoints 0 0).view.x.scale (fivePoints 0 0).view.x.min
        ((fivePoints 0 0).view.x.max - (fivePoints 0 0).view.x.min)
        (fivePoints 0 0).rena.width)
      = [.ok (.fin (-50)), .ok (.fin (-25)), .ok 0, .ok 25, .ok 50] ∧
    [.fin (-50), .fin (-25), 0, 25, 50].map
        (fun x => outsideX (fivePoints 0 0).view (fivePoints 0 0).rena (JSNum.round x) 5)
      = [true, true, false, false, false] ∧
    arenaPoint refEnv (fivePoints 0 0) 0 = .ok none ∧
    arenaPoint refEnv (fivePoints 0 0) 1 = .ok none := by
  decide!

/-! ### The hit radius and the polygon -/

/-- C18: with the size bound to a column of values 1, 2 and 3 and the zero flag off, the
renderer gives the point of value 2 the radius 5/2 and draws it as a circle of radius 3
at `(0, 0)`, while the click handler gives it the radius 10/3: a click at the distance
16/5 from its centre, outside the circle drawn, selects the point. -/
theorem hitRadius_differs_from_rendered :
    radiusAt refEnv sizedState.view sizedState.data 1 = .ok (.fin (5 / 2)) ∧
    hitRadiusAt refEnv sizedState.view sizedState.data 1 = .ok (.fin (10 / 3)) ∧
    arenaPoint refEnv sizedState 1 = .ok (some ("rgba(0,0,0,1)", false, ⟨1, 0, 0, 3⟩)) ∧
    mousePos sizedState.view ⟨.fin (266 / 5), 50, false⟩ = (.fin (16 / 5), 0) ∧
    (canvasMouseClick refEnv ⟨.fin (266 / 5), 50, false⟩ sizedState).1.pick
      = [false, true, false] := by
  decide!

theorem polygonPoint_ok (env : JSEnv) (pnpoly : JSNum → JSNum → List (JSNum × JSNum) → Bool)
    (mo : MainObj) (hr : ClickReady mo) (i : Nat) :
    polygonPoint env pnpoly mo i
      = .ok (if !flagAt mo.mask i && insidePolygon env pnpoly mo i then some i else none) := by
  obtain ⟨⟨X, hX⟩, hxs, ⟨Y, hY⟩, hys, _⟩ := hr
  obtain ⟨x, hx⟩ := posXAt_ok env X mo.view.x.scale mo.view.x.min
    (mo.view.x.max - mo.view.x.min) mo.rena.width i hxs
  obtain ⟨y, hy⟩ := posYAt_ok env Y mo.view.y.scale mo.view.y.max
    (mo.view.y.max - mo.view.y.min) mo.rena.height i hys
  unfold polygonPoint insidePolygon
  simp only [hX, hY, hx, hy]
  cases flagAt mo.mask i <;> cases pnpoly x y mo.stat.polygon <;> rfl

theorem filterMap_if_some (l : List Nat) (p : Nat → Bool) :
    l.filterMap (fun i => if p i then some i else none) = l.filter p := by
  induction l with
  | nil => rfl
  | cons a l ih =>
    by_cases h : p a = true
    · simp [List.filterMap_cons, List.filter_cons, h, ih]
    · simp [List.filterMap_cons, List.filter_cons, h, ih]

/-- C19: when `polygonSelect` is called while a polygon is being drawn, with at least one
point and with x and y bound to columns with known scales, the selection update receives
the list of the indices below the point count that are not masked and whose position
passes the membership test, in ascending order, together with the state in which the
polygon buffer is empty and the drawing flag is off, whatever the number of matches. -/
theorem polygonSelect_candidates (env : JSEnv)
    (pnpoly : JSNum → JSNum → List (JSNum × JSNum) → Bool)
    (treatSelection : List Nat → MainObj → Bool → Step MainObj) (mo : MainObj) (shift : Bool)
    (hn : 0 < mo.cache.nctg) (hdraw : mo.stat.drawing = true) (hready : ClickReady mo) :
    polygonSelect env pnpoly treatSelection mo shift
      = treatSelection
          ((List.range mo.cache.nctg).filter
            (fun i => !flagAt mo.mask i && insidePolygon env pnpoly mo i))
          { mo with stat := { mo.stat with polygon := [], drawing := false } } shift ∧
    ((List.range mo.cache.nctg).filter
        (fun i => !flagAt mo.mask i && insidePolygon env pnpoly mo i)).Pairwise (· < ·) ∧
    (∀ i, i ∈ (List.range mo.cache.nctg).filter
          (fun i => !flagAt mo.mask i && insidePolygon env pnpoly mo i) ↔
        i < mo.cache.nctg ∧ flagAt mo.mask i = false ∧ insidePolygon env pnpoly mo i = true) := by
  have hn0 : mo.cache.nctg ≠ 0 := Nat.pos_iff_ne_zero.mp hn
  refine ⟨?_, ?_, fun i => ?_⟩
  · have hall : ∀ i ∈ List.range mo.cache.nctg, ∃ r, polygonPoint env pnpoly mo i = .ok r :=
      fun i _ => ⟨_, polygonPoint_ok env pnpoly mo hready i⟩
    have hfu := forEach_collect_of_ok (polygonPoint env pnpoly mo) (fun i ctgs => ctgs ++ [i])
      (List.range mo.cache.nctg) [] hall
    rw [foldl_append_singleton, List.nil_append] at hfu
    have hlist : (List.range mo.cache.nctg).filterMap
        (fun i => okSome (polygonPoint env pnpoly mo i))
        = (List.range mo.cache.nctg).filter
            (fun i => !flagAt mo.mask i && insidePolygon env pnpoly mo i) := by
      rw [← filterMap_if_some]
      congr 1
      funext i
      rw [polygonPoint_ok env pnpoly mo hready i]
      by_cases h : (!flagAt mo.mask i && insidePolygon env pnpoly mo i) = true
      · simp only [h, if_true, okSome]
      · have h2 : (!flagAt mo.mask i && insidePolygon env pnpoly mo i) = false := by
          simpa using h
        simp only [h2, Bool.false_eq_true, if_false, okSome]
    unfold polygonSelect
    simp only [hn0, if_false, hdraw, Bool.not_true, Bool.false_eq_true]
    unfold forUpTo
    rw [hfu, hlist]
  · exact List.Pairwise.sublist (List.filter_sublist _) (List.pairwise_lt_range _)
  · simp only [List.mem_filter, List.mem_range, Bool.and_eq_true, Bool.not_eq_true']

theorem polygonSelect_candidates_witness :
    0 < drawingState.cache.nctg ∧ drawingState.stat.drawing = true ∧ ClickReady drawingState ∧
    polygonSelect refEnv squareTest sampleTreat drawingState false
      = sampleTreat [1] { drawingState with stat := { drawingState.stat with
          polygon := [], drawing := false } } false :=
  have hready : ClickReady drawingState :=
    ⟨⟨.num [0, 1, 2], by decide!⟩, by decide, ⟨.num [0, 1, 2], by decide!⟩, by decide,
      fun h => absurd h (by decide)⟩
  have hlist : (List.range drawingState.cache.nctg).filter
      (fun i => !flagAt drawingState.mask i && insidePolygon refEnv squareTest drawingState i)
      = [1] := by decide!
  ⟨by decide, by decide, hready,
    hlist ▸ (polygonSelect_candidates refEnv squareTest sampleTreat drawingState false
      (by decide) (by decide) hready).1⟩

/-! ### The viewport -/

theorem sameCamera_same (a : MainObj) : SameCamera a a := ⟨rfl, rfl, rfl, rfl⟩

theorem sameCamera_chain {a b c : MainObj} (h1 : SameCamera a b) (h2 : SameCamera b c) :
    SameCamera a c :=
  ⟨h1.1.trans h2.1, h1.2.1.trans h2.2.1, h1.2.2.1.trans h2.2.2.1, h1.2.2.2.trans h2.2.2.2⟩

theorem forEach_sameCamera {ι : Type} (body : ι → MainObj → Step MainObj)
    (hbody : ∀ i s, SameCamera (body i s).1 s) (l : List ι) (s : MainObj) :
    SameCamera (forEach body l s).1 s := by
  induction l generalizing s with
  | nil => exact sameCamera_same s
  | cons i l ih =>
    have hb := hbody i s
    simp only [forEach]
    rcases h : body i s with ⟨s1, _ | e⟩
    · rw [h] at hb
      exact sameCamera_chain (ih s1) hb
    · rw [h] at hb
      exact hb

theorem andThen_sameCamera (r : Step MainObj) (f : MainObj → Step MainObj) (base : MainObj)
    (hr : SameCamera r.1 base) (hf : ∀ s, SameCamera (f s).1 s) :
    SameCamera (andThen r f).1 base := by
  rcases r with ⟨s, _ | e⟩
  · exact sameCamera_chain (hf s) hr
  · exact hr

theorem sameCamera_set (mo : MainObj) (item : Item) (c : Channel) :
    SameCamera { mo with view := mo.view.set item c } mo := by
  cases item <;> exact ⟨rfl, rfl, rfl, rfl⟩

theorem calcDispMinMaxItem_sameCamera (env : JSEnv) (item : Item) (mo : MainObj) :
    SameCamera (calcDispMinMaxItem env item mo).1 mo := by
  unfold calcDispMinMaxItem
  simp only
  split_ifs
  · exact sameCamera_same mo
  · cases getCol mo.data (mo.view.get item).i with
    | none => exact sameCamera_same mo
    | some col =>
      simp only
      cases scaleNum env (arrMinMax (unmaskedVals col mo.masked mo.cache.nctg)).1
          (mo.view.get item).scale with
      | error e => exact sameCamera_same mo
      | ok smin =>
        simp only
        cases scaleNum env (arrMinMax (unmaskedVals col mo.masked mo.cache.nctg)).2
            (mo.view.get item).scale with
        | error e => exact sameCamera_set mo item _
        | ok smax => exact sameCamera_set mo item _

theorem calcDispMinMax_sameCamera (env : JSEnv) (mo : MainObj) (items : List Item) :
    SameCamera (calcDispMinMax env mo items).1 mo := by
  unfold calcDispMinMax
  split_ifs
  · exact sameCamera_same mo
  · have h := forEach_sameCamera _ (calcDispMinMaxItem_sameCamera env) items mo
    rcases hr : forEach (calcDispMinMaxItem env) items mo with ⟨s, _ | e⟩
    · rw [hr] at h; exact h
    · rw [hr] at h; exact h

theorem transItem_sameCamera (env : JSEnv) (item : Item) (mo : MainObj) :
    SameCamera (transItem env item mo).1 mo := by
  cases item
  · exact ⟨rfl, rfl, rfl, rfl⟩
  · exact ⟨rfl, rfl, rfl, rfl⟩
  · simp only [transItem, transSizeForDisplay]
    split_ifs <;> exact ⟨rfl, rfl, rfl, rfl⟩
  · simp only [transItem, transOpacityForDisplay]
    split_ifs <;> exact ⟨rfl, rfl, rfl, rfl⟩
  · simp only [transItem, transColorForDisplay]
    split_ifs
    · exact ⟨rfl, rfl, rfl, rfl⟩
    · split <;> exact ⟨rfl, rfl, rfl, rfl⟩

theorem transDataForDisplay_sameCamera (env : JSEnv) (mo : MainObj) (items : List Item) :
    SameCamera (transDataForDisplay env mo items).1 mo := by
  unfold transDataForDisplay
  split_ifs
  · exact sameCamera_same mo
  · exact forEach_sameCamera _ (transItem_sameCamera env) items mo

theorem updateColorMap_sameCamera (palette : List String) (mo : MainObj) :
    SameCamera (updateColorMap palette mo) mo := by
  unfold updateColorMap
  split_ifs
  · exact sameCamera_same mo
  · split
    · exact ⟨rfl, rfl, rfl, rfl⟩
    · exact sameCamera_same mo

theorem renderStep_sameCamera (env : JSEnv) (s : MainObj) :
    SameCamera (match renderArena env s with
      | .error e => ((s, some e) : Step MainObj)
      | .ok _ => (s, none)).1 s := by
  cases renderArena env s <;> exact sameCamera_same s

theorem resetView_camera (env : JSEnv) (mo : MainObj) :
    (resetView env mo).1.view.scale = 1 ∧
    (resetView env mo).1.view.posX = dim mo.rena.width / 2 ∧
    (resetView env mo).1.view.posY = dim mo.rena.height / 2 ∧
    (resetView env mo).1.rena = mo.rena := by
  have h : SameCamera (resetView env mo).1
      { mo with view := { mo.view with scale := 1, posX := dim mo.rena.width / 2,
                                       posY := dim mo.rena.height / 2 } } := by
    unfold resetView
    exact andThen_sameCamera _ _ _
      (andThen_sameCamera _ _ _ (calcDispMinMax_sameCamera env _ _)
        (fun s => transDataForDisplay_sameCamera env s _))
      (fun s => sameCamera_same s)
  exact h

theorem displayItemChange_other_camera (env : JSEnv) (palette : List String) (item : Item)
    (i : Option Nat) (scale : Scale) (mo : MainObj) (hx : item ≠ .x) (hy : item ≠ .y) :
    SameCamera (displayItemChange env palette item i scale mo).1 mo := by
  unfold displayItemChange
  simp only [hx, hy, or_self, if_false]
  refine andThen_sameCamera _ _ _ (andThen_sameCamera _ _ _ (andThen_sameCamera _ _ _ ?_
    (fun s => transDataForDisplay_sameCamera env s _)) (fun s => renderStep_sameCamera env s))
    (fun s => sameCamera_same s)
  split_ifs
  · exact sameCamera_chain (updateColorMap_sameCamera palette _) (sameCamera_set mo item _)
  · exact sameCamera_chain (calcDispMinMax_sameCamera env _ _) (sameCamera_set mo item _)

/-- C20: `displayItemChange` for the item x or y leaves the zoom 1 and the pan at half the
width and half the height of the canvas, whatever they were, also when the recomputation
throws; for the item size, opacity or color it leaves the zoom and the pan as they
were. -/
theorem displayItemChange_viewport (env : JSEnv) (palette : List String) (i : Option Nat)
    (scale : Scale) (mo : MainObj) :
    ((displayItemChange env palette .x i scale mo).1.view.scale = 1 ∧
      (displayItemChange env palette .x i scale mo).1.view.posX = dim mo.rena.width / 2 ∧
      (displayItemChange env palette .x i scale mo).1.view.posY = dim mo.rena.height / 2) ∧
    ((displayItemChange env palette .y i scale mo).1.view.scale = 1 ∧
      (displayItemChange env palette .y i scale mo).1.view.posX = dim mo.rena.width / 2 ∧
      (displayItemChange env palette .y i scale mo).1.view.posY = dim mo.rena.height / 2) ∧
    ((displayItemChange env palette .size i scale mo).1.view.scale = mo.view.scale ∧
      (displayItemChange env palette .size i scale mo).1.view.posX = mo.view.posX ∧
      (displayItemChange env palette .size i scale mo).1.view.posY = mo.view.posY) ∧
    ((displayItemChange env palette .opacity i scale mo).1.view.scale = mo.view.scale ∧
      (displayItemChange env palette .opacity i scale mo).1.view.posX = mo.view.posX ∧
      (displayItemChange env palette .opacity i scale mo).1.view.posY = mo.view.posY) ∧
    ((displayItemChange env palette .color i scale mo).1.view.scale = mo.view.scale ∧
      (displayItemChange env palette .color i scale mo).1.view.posX = mo.view.posX ∧
      (displayItemChange env palette .color i scale mo).1.view.posY = mo.view.posY) := by
  have hx := resetView_camera env
    { mo with view := mo.view.set .x { mo.view.get .x with i := i, scale := scale } }
  have hy := resetView_camera env
    { mo with view := mo.view.set .y { mo.view.get .y with i := i, scale := scale } }
  have hs := displayItemChange_other_camera env palette .size i scale mo (by simp) (by simp)
  have ho := displayItemChange_other_camera env palette .opacity i scale mo (by simp) (by simp)
  have hc := displayItemChange_other_camera env palette .color i scale mo (by simp) (by simp)
  refine ⟨?_, ?_, ⟨hs.1, hs.2.1, hs.2.2.1⟩, ⟨ho.1, ho.2.1, ho.2.2.1⟩, ⟨hc.1, hc.2.1, hc.2.2.1⟩⟩
  · have e : displayItemChange env palette .x i scale mo = resetView env
        { mo with view := mo.view.set .x { mo.view.get .x with i := i, scale := scale } } := by
      simp [displayItemChange]
    rw [e]
    exact ⟨hx.1, hx.2.1, hx.2.2.1⟩
  · have e : displayItemChange env palette .y i scale mo = resetView env
        { mo with view := mo.view.set .y { mo.view.get .y with i := i, scale := scale } } := by
      simp [displayItemChange]
    rw [e]
    exact ⟨hy.1, hy.2.1, hy.2.2.1⟩

/-- C21: the click listener of the swap button does not reset the viewport. From the zoom 2
and the pan `(30, 40)` on a 100 by 100 canvas the swap of the axes, which completes,
leaves the zoom 2 and the pan `(30, 40)`, where `displayItemChange` for the x-axis on
the same state puts the zoom at 1 and the pan at `(50, 50)`. -/
theorem swapAxes_keeps_viewport_example :
    pannedState.rena = ⟨100, 100⟩ ∧
    (swapAxes refEnv pannedState).2 = none ∧
    (swapAxes refEnv pannedState).1.view.x.i = pannedState.view.y.i ∧
    (swapAxes refEnv pannedState).1.view.y.i = pannedState.view.x.i ∧
    (swapAxes refEnv pannedState).1.view.scale = 2 ∧
    (swapAxes refEnv pannedState).1.view.posX = 30 ∧
    (swapAxes refEnv pannedState).1.view.posY = 40 ∧
    (displayItemChange refEnv [] .x (some 2) (.str "none") pannedState).1.view.scale = 1 ∧
    (displayItemChange refEnv [] .x (some 2) (.str "none") pannedState).1.view.posX = 50 ∧
    (displayItemChange refEnv [] .x (some 2) (.str "none") pannedState).1.view.posY = 50 := by
  decide!

/-! ### Zooming and dragging -/

theorem zoomInTimes_succ (env : JSEnv) (n : Nat) (mo : MainObj) :
    zoomInTimes env (n + 1) mo = (onMouseWheel env 120 (zoomInTimes env n mo)).1 := by
  unfold zoomInTimes
  rw [Function.iterate_succ_apply']

theorem abs_fin (a : ℚ) : (JSNum.fin a).abs = .fin |a| := rfl

theorem one_eq_fin : (1 : JSNum) = .fin 1 := by
  rw [JSNum.ofNat_eq_fin]; norm_num

/-- C23: while the button is down, with the anchor the pointer at the press minus the pan, a
move of the pointer to `(cx, cy)` sets the pan to the pointer minus the anchor and the
flag `mousemove` when that candidate is more than one pixel away from the pan on the x-
or the y-axis, and else leaves the pan and the flag as they were. -/
theorem canvasMouseMove_dead_zone (env : JSEnv) (e : PointerEvent) (mo : MainObj)
    (cx cy ax ay px py : ℚ)
    (hdown : mo.stat.mousedown = true)
    (hcx : e.clientX = .fin cx) (hcy : e.clientY = .fin cy)
    (hax : mo.stat.dragX = .fin ax) (hay : mo.stat.dragY = .fin ay)
    (hpx : mo.view.posX = .fin px) (hpy : mo.view.posY = .fin py) :
    ((1 < |cx - ax - px| ∨ 1 < |cy - ay - py|) →
      (canvasMouseMove env e mo).1.view.posX = .fin (cx - ax) ∧
      (canvasMouseMove env e mo).1.view.posY = .fin (cy - ay) ∧
      (canvasMouseMove env e mo).1.stat.mousemove = true) ∧
    (¬ (1 < |cx - ax - px| ∨ 1 < |cy - ay - py|) →
      (canvasMouseMove env e mo).1.view.posX = mo.view.posX ∧
      (canvasMouseMove env e mo).1.view.posY = mo.view.posY ∧
      (canvasMouseMove env e mo).1.stat.mousemove = mo.stat.mousemove ∧
      canvasMouseMove env e mo = (mo, none)) ∧
    (∀ press : PointerEvent, ∀ qx qy : ℚ, press.clientX = .fin qx → press.clientY = .fin qy →
      (onMouseDown press mo).stat.dragX = .fin (qx - px) ∧
      (onMouseDown press mo).stat.dragY = .fin (qy - py)) := by
  have hcond : movedBeyondPixel mo.view (e.clientX - mo.stat.dragX) (e.clientY - mo.stat.dragY)
      = decide (1 < |cx - ax - px| ∨ 1 < |cy - ay - py|) := by
    simp only [movedBeyondPixel, hcx, hcy, hax, hay, hpx, hpy, JSNum.fin_sub_fin, abs_fin,
      one_eq_fin, gt_fin_fin, Bool.decide_or]
  refine ⟨fun h => ?_, fun h => ?_, fun press qx qy hqx hqy => ?_⟩
  · have hc : movedBeyondPixel mo.view (e.clientX - mo.stat.dragX) (e.clientY - mo.stat.dragY)
        = true := by rw [hcond]; exact decide_eq_true h
    simp only [canvasMouseMove, hdown, if_true, hc]
    simp only [hcx, hcy, hax, hay, JSNum.fin_sub_fin, and_self]
  · have hc : movedBeyondPixel mo.view (e.clientX - mo.stat.dragX) (e.clientY - mo.stat.dragY)
        = false := by rw [hcond]; exact decide_eq_false h
    simp only [canvasMouseMove, hdown, if_true, hc, Bool.false_eq_true, if_false, and_self]
  · simp only [onMouseDown, hqx, hqy, hpx, hpy, JSNum.fin_sub_fin, and_self]

theorem canvasMouseMove_dead_zone_witness :
    (onMouseDown ⟨60, 60⟩ diagonalState).stat.mousedown = true ∧
    (canvasMouseMove refEnv ⟨63, 60⟩ (onMouseDown ⟨60, 60⟩ diagonalState)).1.view.posX
      = .fin (63 - 10) :=
  ⟨by decide!,
    ((canvasMouseMove_dead_zone refEnv ⟨63, 60⟩ (onMouseDown ⟨60, 60⟩ diagonalState)
      63 60 10 10 50 50 (by decide!) (by decide!) (by decide!) (by decide!) (by decide!)
      (by decide!) (by decide!)).1 (Or.inl (by norm_num))).1⟩

theorem zoomIn_factor : ((4 : JSNum) / 3).fl = .fin (6004799503160661 / 2 ^ 52) := by decide!

/-- One step of zooming in on a zoom `y` in the normal range: the product with the double
nearest to 4/3, rounded, is within `2^-52` of `y * 4/3` in relative terms. -/
theorem zoomIn_step (y : ℚ) (hlo : 1 / 2 ^ 1000 ≤ y) (hhi : y ≤ 2 ^ 1000) :
    (JSNum.fin y * ((4 : JSNum) / 3).fl).fl
      = .fin (roundDouble (y * (6004799503160661 / 2 ^ 52))) ∧
    |roundDouble (y * (6004799503160661 / 2 ^ 52)) - y * (4 / 3)| ≤ y * (4 / 3) / 2 ^ 52 := by
  have hy : 0 < y := lt_of_lt_of_le (by positivity) hlo
  have hc1 : (1 : ℚ) ≤ 6004799503160661 / 2 ^ 52 := by norm_num
  have hc2 : (6004799503160661 / 2 ^ 52 : ℚ) ≤ 4 / 3 := by norm_num
  have hprod_lo : 1 / 2 ^ 1000 ≤ y * (6004799503160661 / 2 ^ 52) := by nlinarith
  have hprod_hi : y * (6004799503160661 / 2 ^ 52) ≤ 2 ^ 1023 := by
    have : y * (6004799503160661 / 2 ^ 52) ≤ 2 ^ 1000 * (4 / 3) := by
      apply mul_le_mul hhi hc2 (by positivity) (by positivity)
    have h2 : (2 : ℚ) ^ 1000 * (4 / 3) ≤ 2 ^ 1023 := by norm_num
    linarith
  have hpos : 0 < y * (6004799503160661 / 2 ^ 52) := by positivity
  constructor
  · rw [zoomIn_factor, JSNum.fin_mul_fin]
    exact fl_fin_eq _ (by rw [abs_of_pos hpos]; exact hprod_hi)
  · have hrel := roundDouble_rel _ (pow2_neg_1022_le hprod_lo)
    rw [abs_of_pos hpos] at hrel
    rw [abs_le] at hrel ⊢
    have hgap : y * (4 / 3) - y * (6004799503160661 / 2 ^ 52) = y * (4 / 3) / 2 ^ 54 := by
      ring
    have hA : (0 : ℚ) ≤ y * (4 / 3) / 2 ^ 54 := by positivity
    have hB : y * (6004799503160661 / 2 ^ 52) / 2 ^ 53 ≤ y * (4 / 3) / 2 ^ 53 := by
      apply div_le_div_of_nonneg_right _ (by positivity)
      exact mul_le_mul_of_nonneg_left hc2 hy.le
    have hC : y * (4 / 3) / 2 ^ 53 + y * (4 / 3) / 2 ^ 54 ≤ y * (4 / 3) / 2 ^ 52 := by
      have : y * (4 / 3) / 2 ^ 53 + y * (4 / 3) / 2 ^ 54
          = y * (4 / 3) / 2 ^ 52 * (3 / 4) := by ring
      rw [this]
      have hD : (0 : ℚ) ≤ y * (4 / 3) / 2 ^ 52 := by positivity
      nlinarith
    constructor <;> linarith [hrel.1, hrel.2]

/-- One step of zooming out: the product with 0.75, rounded. -/
theorem zoomOut_step (y : ℚ) (hlo : 1 / 2 ^ 1000 ≤ y) (hhi : y ≤ 2 ^ 1000) :
    (JSNum.fin y * JSNum.fin (3 / 4)).fl = .fin (roundDouble (y * (3 / 4))) ∧
    |roundDouble (y * (3 / 4)) - y * (3 / 4)| ≤ y * (3 / 4) / 2 ^ 53 := by
  have hy : 0 < y := lt_of_lt_of_le (by positivity) hlo
  have hpos : 0 < y * (3 / 4) := by positivity
  have hprod_hi : y * (3 / 4) ≤ 2 ^ 1023 := by
    have : (2 : ℚ) ^ 1000 ≤ 2 ^ 1023 := pow_le_pow_right₀ (by norm_num) (by norm_num)
    nlinarith
  have hprod_lo : pow2 (-1022) ≤ |y * (3 / 4)| := by
    have h1 : pow2 (-1022) = 1 / 2 ^ 1022 := by decide!
    have h2 : (1 : ℚ) / 2 ^ 1022 ≤ 1 / 2 ^ 1000 * (3 / 4) := by norm_num
    rw [h1, abs_of_pos hpos]
    nlinarith
  constructor
  · rw [JSNum.fin_mul_fin]
    exact fl_fin_eq _ (by rw [abs_of_pos hpos]; exact hprod_hi)
  · have hrel := roundDouble_rel _ hprod_lo
    rwa [abs_of_pos hpos] at hrel

theorem wheel_gt : (120 : JSNum).gt 0 = true := by decide!

/-- C22, as stated, fails: from the zoom 1 one step of zooming in gives the double nearest to
4/3, which is not 4/3, and three steps give `2.3703703703703702`, the double
`667199944795629 / 2^48`, which is not 64/27. -/
theorem wheel_zoom_not_exact :
    diagonalState.view.scale = 1 ∧
    (onMouseWheel refEnv 120 diagonalState).1.view.scale = .fin (6004799503160661 / 2 ^ 52) ∧
    (6004799503160661 / 2 ^ 52 : ℚ) ≠ 4 / 3 ∧
    (zoomInTimes refEnv 3 diagonalState).view.scale = .fin (667199944795629 / 2 ^ 48) ∧
    (667199944795629 / 2 ^ 48 : ℚ) ≠ 64 / 27 := by
  decide!

/-- C22, amended: a step of the mouse wheel replaces a zoom `z` in the normal range by the
double nearest to the product of `z` and the factor, which is the double nearest to 4/3
when zooming in and 3/4 when zooming out, for both wheel events, and leaves the pan as it
was; the new zoom is within `2^-52` of `z * 4/3`, and within `2^-53` of `z * 3/4`, in
relative terms. After `n` steps zooming in the zoom lies between
`z * (4/3)^n * (1 - 2^-52)^n` and `z * (4/3)^n * (1 + 2^-52)^n`, the pan unchanged, and
three steps from the zoom 1 give `667199944795629 / 2^48`, within a thousandth of 64/27. -/
theorem wheel_zoom_rounded (env : JSEnv) (mo : MainObj) (z : ℚ)
    (hz : mo.view.scale = .fin z) (hlo : 1 / 2 ^ 1000 ≤ z) (hhi : z ≤ 2 ^ 1000) :
    (∀ d : JSNum, d.gt 0 = true →
      (onMouseWheel env d mo).1.view.scale
        = .fin (roundDouble (z * (6004799503160661 / 2 ^ 52))) ∧
      (onMouseScroll env d mo).1.view.scale = .fin (roundDouble (z * (3 / 4)))) ∧
    (∀ d : JSNum, d.gt 0 = false →
      (onMouseWheel env d mo).1.view.scale = .fin (roundDouble (z * (3 / 4))) ∧
      (onMouseScroll env d mo).1.view.scale
        = .fin (roundDouble (z * (6004799503160661 / 2 ^ 52)))) ∧
    |roundDouble (z * (6004799503160661 / 2 ^ 52)) - z * (4 / 3)| ≤ z * (4 / 3) / 2 ^ 52 ∧
    |roundDouble (z * (3 / 4)) - z * (3 / 4)| ≤ z * (3 / 4) / 2 ^ 53 ∧
    (∀ d : JSNum,
      (onMouseWheel env d mo).1.view.posX = mo.view.posX ∧
      (onMouseWheel env d mo).1.view.posY = mo.view.posY ∧
      (onMouseScroll env d mo).1.view.posX = mo.view.posX ∧
      (onMouseScroll env d mo).1.view.posY = mo.view.posY) ∧
    (∀ n : Nat, z * 2 ^ n ≤ 2 ^ 1000 →
      ∃ zn : ℚ, (zoomInTimes env n mo).view.scale = .fin zn ∧
        z * (4 / 3) ^ n * (1 - 1 / 2 ^ 52) ^ n ≤ zn ∧
        zn ≤ z * (4 / 3) ^ n * (1 + 1 / 2 ^ 52) ^ n ∧
        (zoomInTimes env n mo).view.posX = mo.view.posX ∧
        (zoomInTimes env n mo).view.posY = mo.view.posY) ∧
    (z = 1 → (zoomInTimes env 3 mo).view.scale = .fin (667199944795629 / 2 ^ 48) ∧
      |(667199944795629 / 2 ^ 48 : ℚ) - 64 / 27| < 1 / 1000) := by
  have hin := zoomIn_step z hlo hhi
  have hout := zoomOut_step z hlo hhi
  have hz0 : 0 < z := lt_of_lt_of_le (by positivity) hlo
  have hiter : ∀ n : Nat, z * 2 ^ n ≤ 2 ^ 1000 →
      ∃ zn : ℚ, (zoomInTimes env n mo).view.scale = .fin zn ∧
        z * (4 / 3) ^ n * (1 - 1 / 2 ^ 52) ^ n ≤ zn ∧
        zn ≤ z * (4 / 3) ^ n * (1 + 1 / 2 ^ 52) ^ n ∧
        (zoomInTimes env n mo).view.posX = mo.view.posX ∧
        (zoomInTimes env n mo).view.posY = mo.view.posY := by
    intro n
    induction n with
    | zero =>
      intro _
      exact ⟨z, hz, by simp, by simp, rfl, rfl⟩
    | succ n ih =>
      intro hn
      have hn' : z * 2 ^ n ≤ 2 ^ 1000 := by
        have : z * 2 ^ n ≤ z * 2 ^ (n + 1) := by
          apply mul_le_mul_of_nonneg_left _ hz0.le
          exact pow_le_pow_right₀ (by norm_num) (Nat.le_succ n)
        linarith
      obtain ⟨zn, hzn, hl, hu, hpx, hpy⟩ := ih hn'
      have hbase_lo : (1 : ℚ) ≤ (4 / 3) ^ n * (1 - 1 / 2 ^ 52) ^ n := by
        rw [← mul_pow]
        exact one_le_pow₀ (by norm_num)
      have hbase_hi : (4 / 3 : ℚ) ^ n * (1 + 1 / 2 ^ 52) ^ n ≤ 2 ^ n := by
        rw [← mul_pow]
        exact pow_le_pow_left₀ (by norm_num) (by norm_num) n
      have hznlo : 1 / 2 ^ 1000 ≤ zn := by
        have : z * 1 ≤ z * ((4 / 3) ^ n * (1 - 1 / 2 ^ 52) ^ n) :=
          mul_le_mul_of_nonneg_left hbase_lo hz0.le
        have h2 : z * ((4 / 3) ^ n * (1 - 1 / 2 ^ 52) ^ n)
            = z * (4 / 3) ^ n * (1 - 1 / 2 ^ 52) ^ n := by ring
        linarith
      have hznhi : zn ≤ 2 ^ 1000 := by
        have : z * ((4 / 3) ^ n * (1 + 1 / 2 ^ 52) ^ n) ≤ z * 2 ^ n :=
          mul_le_mul_of_nonneg_left hbase_hi hz0.le
        have h2 : z * ((4 / 3) ^ n * (1 + 1 / 2 ^ 52) ^ n)
            = z * (4 / 3) ^ n * (1 + 1 / 2 ^ 52) ^ n := by ring
        linarith
      have hzn0 : 0 < zn := lt_of_lt_of_le (by positivity) hznlo
      obtain ⟨hstep, herr⟩ := zoomIn_step zn hznlo hznhi
      rw [abs_le] at herr
      refine ⟨roundDouble (zn * (6004799503160661 / 2 ^ 52)), ?_, ?_, ?_, ?_, ?_⟩
      · rw [zoomInTimes_succ]
        show (((zoomInTimes env n mo).view.scale *
          (if (120 : JSNum).gt 0 then ((4 : JSNum) / 3).fl else .fin (3 / 4))).fl) = _
        rw [hzn, if_pos wheel_gt]
        exact hstep
      · have h1 : zn * (4 / 3) * (1 - 1 / 2 ^ 52)
            ≤ roundDouble (zn * (6004799503160661 / 2 ^ 52)) := by
          have : zn * (4 / 3) * (1 - 1 / 2 ^ 52) = zn * (4 / 3) - zn * (4 / 3) / 2 ^ 52 := by
            ring
          linarith [herr.1]
        have h2 : z * (4 / 3) ^ (n + 1) * (1 - 1 / 2 ^ 52) ^ (n + 1)
            = (z * (4 / 3) ^ n * (1 - 1 / 2 ^ 52) ^ n) * ((4 / 3) * (1 - 1 / 2 ^ 52)) := by
          rw [pow_succ, pow_succ]; ring
        rw [h2]
        have h3 : (z * (4 / 3) ^ n * (1 - 1 / 2 ^ 52) ^ n) * ((4 / 3) * (1 - 1 / 2 ^ 52))
            ≤ zn * ((4 / 3) * (1 - 1 / 2 ^ 52)) :=
          mul_le_mul_of_nonneg_right hl (by norm_num)
        linarith
      · have h1 : roundDouble (zn * (6004799503160661 / 2 ^ 52))
            ≤ zn * (4 / 3) * (1 + 1 / 2 ^ 52) := by
          have : zn * (4 / 3) * (1 + 1 / 2 ^ 52) = zn * (4 / 3) + zn * (4 / 3) / 2 ^ 52 := by
            ring
          linarith [herr.2]
        have h2 : z * (4 / 3) ^ (n + 1) * (1 + 1 / 2 ^ 52) ^ (n + 1)
            = (z * (4 / 3) ^ n * (1 + 1 / 2 ^ 52) ^ n) * ((4 / 3) * (1 + 1 / 2 ^ 52)) := by
          rw [pow_succ, pow_succ]; ring
        rw [h2]
        have h3 : zn * ((4 / 3) * (1 + 1 / 2 ^ 52))
            ≤ (z * (4 / 3) ^ n * (1 + 1 / 2 ^ 52) ^ n) * ((4 / 3) * (1 + 1 / 2 ^ 52)) :=
          mul_le_mul_of_nonneg_right hu (by norm_num)
        linarith
      · rw [zoomInTimes_succ]; exact hpx
      · rw [zoomInTimes_succ]; exact hpy
  refine ⟨fun d hd => ⟨?_, ?_⟩, fun d hd => ⟨?_, ?_⟩, hin.2, hout.2,
    fun d => ⟨rfl, rfl, rfl, rfl⟩, hiter, fun h1 => ⟨?_, by norm_num [abs_lt]⟩⟩
  · show ((mo.view.scale * (if d.gt 0 then ((4 : JSNum) / 3).fl else .fin (3 / 4))).fl) = _
    rw [hz, if_pos hd]; exact hin.1
  · show ((mo.view.scale * (if d.gt 0 then .fin (3 / 4) else ((4 : JSNum) / 3).fl)).fl) = _
    rw [hz, if_pos hd]; exact hout.1
  · show ((mo.view.scale * (if d.gt 0 then ((4 : JSNum) / 3).fl else .fin (3 / 4))).fl) = _
    rw [hz, hd]; exact hout.1
  · show ((mo.view.scale * (if d.gt 0 then .fin (3 / 4) else ((4 : JSNum) / 3).fl)).fl) = _
    rw [hz, hd]; exact hin.1
  · subst h1
    have e1 : zoomInTimes env 3 mo
        = (onMouseWheel env 120 (onMouseWheel env 120 (onMouseWheel env 120 mo).1).1).1 := rfl
    rw [e1]
    show ((((mo.view.scale * (if (120 : JSNum).gt 0 then ((4 : JSNum) / 3).fl
      else .fin (3 / 4))).fl * (if (120 : JSNum).gt 0 then ((4 : JSNum) / 3).fl
      else .fin (3 / 4))).fl * (if (120 : JSNum).gt 0 then ((4 : JSNum) / 3).fl
      else .fin (3 / 4))).fl) = _
    rw [hz]
    decide!

theorem wheel_zoom_rounded_witness :
    diagonalState.view.scale = .fin 1 ∧
    (zoomInTimes refEnv 3 diagonalState).view.scale = .fin (667199944795629 / 2 ^ 48) ∧
    |(667199944795629 / 2 ^ 48 : ℚ) - 64 / 27| < 1 / 1000 :=
  ⟨by decide!,
    (wheel_zoom_rounded refEnv diagonalState 1 (by decide!) (by norm_num) (by norm_num)).2.2.2.2.2.2
      rfl⟩

/-! ### Inverse scales -/

theorem pow_two_fin (env : JSEnv) (s : ℚ) : env.pow (.fin s) 2 = JSNum.ofExact (s * s) := by
  have h : (2 : JSNum) = .fin 2 := by
    show JSNum.fin ((2 : ℕ) : ℚ) = _
    norm_num
  rw [h]
  unfold JSEnv.pow
  have hd : (2 : ℚ).den = 1 ∧ 0 ≤ (2 : ℚ).num := by decide!
  have hn : (2 : ℚ).num.toNat = 2 := by decide!
  simp only [hd, and_self, if_true, hn]
  rfl

theorem roundtrip_bound (X v R u : ℚ) (hu0 : 0 ≤ u) (hu : u ≤ 1 / 8) (hX : 0 ≤ X)
    (h1 : X * (1 - u) ^ 2 ≤ v) (h2 : v ≤ X * (1 + u) ^ 2) (h3 : |R - X| ≤ X * u) :
    |R - v| ≤ v * (8 * u) := by
  have hXu : 0 ≤ X * u := mul_nonneg hX hu0
  have hXuu : X * u * u ≤ X * u * (1 / 8) := mul_le_mul_of_nonneg_left hu hXu
  have hXuu0 : 0 ≤ X * u * u := mul_nonneg hXu hu0
  have e1 : X * (1 - u) ^ 2 = X - 2 * (X * u) + X * u * u := by ring
  have e2 : X * (1 + u) ^ 2 = X + 2 * (X * u) + X * u * u := by ring
  have hXu8 : X * u ≤ X * (1 / 8) := mul_le_mul_of_nonneg_left hu hX
  have hXv : X ≤ 4 / 3 * v := by linarith
  have hvu : X * u ≤ 4 / 3 * v * u := mul_le_mul_of_nonneg_right hXv hu0
  rw [abs_le] at h3 ⊢
  constructor <;> nlinarith

theorem sqrt_bound (s v q u : ℚ) (hs : 0 ≤ s) (hv : 0 ≤ v) (hu0 : 0 ≤ u) (hu : u ≤ 1 / 8)
    (hq : |q - v ^ 2| ≤ v ^ 2 * u) (h1 : s ^ 2 * (1 - u) ^ 2 ≤ q)
    (h2 : q ≤ s ^ 2 * (1 + u) ^ 2) : |s - v| ≤ v * (8 * u) := by
  rw [abs_le] at hq
  have hu1 : 0 ≤ 1 - u := by linarith
  have a : s * (1 - u) ≤ v * (1 + u) := by
    by_contra hcon
    have : (v * (1 + u)) ^ 2 < (s * (1 - u)) ^ 2 :=
      pow_lt_pow_left₀ (not_le.mp hcon) (mul_nonneg hv (by linarith)) (by norm_num)
    rw [mul_pow, mul_pow] at this
    have hv2 : 0 ≤ v ^ 2 := sq_nonneg v
    have : v ^ 2 * (1 + u) ≤ v ^ 2 * (1 + u) ^ 2 := by
      apply mul_le_mul_of_nonneg_left _ hv2
      nlinarith
    nlinarith
  have b : v * (1 - u) ≤ s * (1 + u) := by
    by_contra hcon
    have : (s * (1 + u)) ^ 2 < (v * (1 - u)) ^ 2 :=
      pow_lt_pow_left₀ (not_le.mp hcon) (mul_nonneg hs (by linarith)) (by norm_num)
    rw [mul_pow, mul_pow] at this
    have hv2 : 0 ≤ v ^ 2 := sq_nonneg v
    have : v ^ 2 * (1 - u) ^ 2 ≤ v ^ 2 * (1 - u) := by
      apply mul_le_mul_of_nonneg_left _ hv2
      nlinarith
    nlinarith
  have hsu : 0 ≤ s * u := mul_nonneg hs hu0
  have hvu : 0 ≤ v * u := mul_nonneg hv hu0
  have hsu8 : s * u ≤ s * (1 / 8) := mul_le_mul_of_nonneg_left hu hs
  have hvu8 : v * u ≤ v * (1 / 8) := mul_le_mul_of_nonneg_left hu hv
  have hsv : s ≤ 9 / 7 * v := by linarith
  have hsvu : s * u ≤ 9 / 7 * v * u := mul_le_mul_of_nonneg_right hsv hu0
  rw [abs_le]
  constructor <;> linarith

theorem recip_bound (p q r u : ℚ) (hp : 0 < p) (hu0 : 0 ≤ u) (hu : u ≤ 1 / 8)
    (hq : |q - 1 / p| ≤ 1 / p * u) (hr : |r - 1 / q| ≤ 1 / q * u) :
    0 < q ∧ p / 2 ≤ 1 / q ∧ 1 / q ≤ 2 * p ∧ |r - p| ≤ p * (4 * u) := by
  rw [abs_le] at hq hr
  have ha : 0 < 1 / p := by positivity
  have hau : 1 / p * u ≤ 1 / p * (1 / 8) := mul_le_mul_of_nonneg_left hu ha.le
  have hq0 : 0 < q := by linarith
  have hQ : 0 < 1 / q := by positivity
  have hpa : p * (1 / p) = 1 := by field_simp
  have hqQ : q * (1 / q) = 1 := by field_simp
  have hpQ : 0 < p * (1 / q) := mul_pos hp hQ
  have l1 : 1 / q * (1 - u) ≤ p := by
    have := mul_le_mul_of_nonneg_left (show 1 / p - 1 / p * u ≤ q by linarith) hpQ.le
    have e1 : p * (1 / q) * (1 / p - 1 / p * u) = (p * (1 / p)) * (1 / q * (1 - u)) := by ring
    have e2 : p * (1 / q) * q = p * (q * (1 / q)) := by ring
    rw [e1, e2, hpa, hqQ] at this
    linarith
  have l2 : p ≤ 1 / q * (1 + u) := by
    have := mul_le_mul_of_nonneg_left (show q ≤ 1 / p + 1 / p * u by linarith) hpQ.le
    have e1 : p * (1 / q) * (1 / p + 1 / p * u) = (p * (1 / p)) * (1 / q * (1 + u)) := by ring
    have e2 : p * (1 / q) * q = p * (q * (1 / q)) := by ring
    rw [e1, e2, hpa, hqQ] at this
    linarith
  have hQu : 0 ≤ 1 / q * u := mul_nonneg hQ.le hu0
  have hQu8 : 1 / q * u ≤ 1 / q * (1 / 8) := mul_le_mul_of_nonneg_left hu hQ.le
  have hQp : 1 / q ≤ 8 / 7 * p := by linarith
  have hQpu : 1 / q * u ≤ 8 / 7 * p * u := mul_le_mul_of_nonneg_right hQp hu0
  have hpu : 0 ≤ p * u := mul_nonneg hp.le hu0
  refine ⟨hq0, by linarith, by linarith, ?_⟩
  rw [abs_le]
  constructor <;> linarith

theorem recip_roundtrip_pos (p : ℚ) (hlo : 1 / 2 ^ 1000 ≤ p) (hhi : p ≤ 2 ^ 1000) :
    |1 / p| ≤ 2 ^ 1023 ∧ roundDouble (1 / p) ≠ 0 ∧ |1 / roundDouble (1 / p)| ≤ 2 ^ 1023 ∧
    |roundDouble (1 / roundDouble (1 / p)) - p| ≤ p / 2 ^ 51 := by
  have hp : (0 : ℚ) < p := lt_of_lt_of_le (by positivity) hlo
  have h2k : (0 : ℚ) < 2 ^ 1000 := by positivity
  have ha_lo : (1 : ℚ) / 2 ^ 1000 ≤ 1 / p := one_div_le_one_div_of_le hp hhi
  have ha_hi : (1 : ℚ) / p ≤ 2 ^ 1000 := by
    have := one_div_le_one_div_of_le (by positivity) hlo
    rwa [one_div_one_div] at this
  have hbig : (2 : ℚ) ^ 1000 * 2 ≤ 2 ^ 1023 := by
    have h3 : (2 : ℚ) ^ 1023 = 2 ^ 1000 * 2 ^ 23 := by rw [← pow_add]
    rw [h3]
    exact mul_le_mul_of_nonneg_left (by norm_num) h2k.le
  have hq := roundDouble_rel (1 / p) (pow2_neg_1022_le ha_lo)
  rw [abs_of_pos (show (0 : ℚ) < 1 / p by positivity), div_eq_mul_one_div (1 / p)] at hq
  have hq' : |roundDouble (1 / p) - 1 / p| ≤ 1 / p * (1 / 2 ^ 53) := hq
  have hsmall : (1 : ℚ) / 2 ^ 1001 ≤ p / 2 := by
    have : (1 : ℚ) / 2 ^ 1001 = 1 / 2 ^ 1000 / 2 := by rw [pow_succ, div_div]
    rw [this]
    linarith
  have hnorm : ∀ Q : ℚ, p / 2 ≤ Q → pow2 (-1022) ≤ |Q| := by
    intro Q hQ
    have h1 : pow2 (-1022) = 1 / 2 ^ 1022 := by decide!
    have h2 : (1 : ℚ) / 2 ^ 1022 ≤ 1 / 2 ^ 1001 := by
      apply one_div_le_one_div_of_le (by positivity)
      exact pow_le_pow_right₀ (by norm_num) (by norm_num)
    rw [h1]
    exact le_trans (le_trans h2 (le_trans hsmall hQ)) (le_abs_self Q)
  have hq0 : 0 < roundDouble (1 / p) := by
    rw [abs_le] at hq'
    have : 1 / p * (1 / 2 ^ 53) ≤ 1 / p * (1 / 8) :=
      mul_le_mul_of_nonneg_left (by norm_num) (by positivity)
    have : (0 : ℚ) < 1 / p := by positivity
    linarith [hq'.1]
  have hQpos : (0 : ℚ) < 1 / roundDouble (1 / p) := one_div_pos.mpr hq0
  have hQb : p / 2 ≤ 1 / roundDouble (1 / p) ∧ 1 / roundDouble (1 / p) ≤ 2 * p := by
    have hr0 : |(1 / roundDouble (1 / p)) - 1 / roundDouble (1 / p)|
        ≤ 1 / roundDouble (1 / p) * (1 / 2 ^ 53) := by
      rw [sub_self, abs_zero]
      exact mul_nonneg hQpos.le (by positivity)
    have := recip_bound p (roundDouble (1 / p)) (1 / roundDouble (1 / p)) (1 / 2 ^ 53) hp
      (by positivity) (by norm_num) hq' hr0
    exact ⟨this.2.1, this.2.2.1⟩
  have hr := roundDouble_rel (1 / roundDouble (1 / p)) (hnorm _ hQb.1)
  rw [abs_of_pos hQpos, div_eq_mul_one_div (1 / roundDouble (1 / p))] at hr
  have hfin := recip_bound p (roundDouble (1 / p)) (roundDouble (1 / roundDouble (1 / p)))
    (1 / 2 ^ 53) hp (by positivity) (by norm_num) hq' hr
  refine ⟨?_, hq0.ne', ?_, ?_⟩
  · rw [abs_of_pos (show (0 : ℚ) < 1 / p by positivity)]
    linarith
  · rw [abs_of_pos hQpos]
    linarith [hQb.2]
  · have e : p * (4 * (1 / 2 ^ 53)) = p / 2 ^ 51 := by
      have : (4 : ℚ) * (1 / 2 ^ 53) = 1 / 2 ^ 51 := by norm_num
      rw [this, mul_one_div]
    rw [← e]
    exact hfin.2.2.2

theorem recip_roundtrip (p : ℚ) (hlo : 1 / 2 ^ 1000 ≤ |p|) (hhi : |p| ≤ 2 ^ 1000) :
    |1 / p| ≤ 2 ^ 1023 ∧ roundDouble (1 / p) ≠ 0 ∧ |1 / roundDouble (1 / p)| ≤ 2 ^ 1023 ∧
    |roundDouble (1 / roundDouble (1 / p)) - p| ≤ |p| / 2 ^ 51 := by
  rcases le_or_lt 0 p with h | h
  · rw [abs_of_nonneg h] at hlo hhi ⊢
    exact recip_roundtrip_pos p hlo hhi
  · rw [abs_of_neg h] at hlo hhi ⊢
    obtain ⟨a, b, c, d⟩ := recip_roundtrip_pos (-p) hlo hhi
    have e1 : 1 / -p = -(1 / p) := by rw [one_div_neg_eq_neg_one_div]
    rw [e1, roundDouble_neg] at b c d
    have e2 : 1 / -roundDouble (1 / p) = -(1 / roundDouble (1 / p)) := by
      rw [one_div_neg_eq_neg_one_div]
    rw [e1, abs_neg] at a
    rw [e2, abs_neg] at c
    rw [e2, roundDouble_neg] at d
    refine ⟨a, neg_ne_zero.mp b, c, ?_⟩
    have e3 : -roundDouble (1 / roundDouble (1 / p)) - -p
        = -(roundDouble (1 / roundDouble (1 / p)) - p) := by ring
    rw [e3, abs_neg] at d
    exact d

theorem unscale_num_fin (p : ℚ) (hp : p ≠ 0) :
    unscale (.num (.fin p)) = .ok (.num (JSNum.ofExact (1 / p))) := by
  have h1 : (1 : JSNum) = .fin 1 := by
    show JSNum.fin ((1 : ℕ) : ℚ) = _
    norm_num
  show Except.ok (Scale.num ((1 : JSNum) / JSNum.fin p).fl) = _
  rw [h1, JSNum.fin_div_fin _ _ hp]
  rfl

theorem sqrtIEEE_pos (q : ℚ) (hq : 0 < q) : (JSNum.fin q).sqrtIEEE = .fin (sqrtDouble q) := by
  simp only [JSNum.sqrtIEEE, not_lt.mpr hq.le, hq.ne', if_false]

/-- C24, as stated, fails: in binary64 the square of `Math.sqrt(2)` is
`2.0000000000000004`, so the scale `sqrt` followed by its inverse `square` does not give
2 back, and the reciprocal of the reciprocal of 49 is `49.00000000000001`. -/
theorem unscale_roundtrip_not_exact :
    unscale (.str "sqrt") = .ok (.str "square") ∧
    scaleNum refEnv 2 (.str "sqrt") = .ok (.fin (6369051672525773 / 2 ^ 52)) ∧
    scaleNum refEnv (.fin (6369051672525773 / 2 ^ 52)) (.str "square")
      = .ok (.fin (4503599627370497 / 2 ^ 51)) ∧
    (4503599627370497 / 2 ^ 51 : ℚ) ≠ 2 ∧
    unscale (.num 49) = .ok (.num (.fin (5882252574524729 / 2 ^ 58))) ∧
    unscale (.num (.fin (5882252574524729 / 2 ^ 58)))
      = .ok (.num (.fin (6896136929411073 / 2 ^ 47))) ∧
    (6896136929411073 / 2 ^ 47 : ℚ) ≠ 49 := by
  decide!

/-- C24, amended: for each of the seven scale names `unscale` gives a known name, and
`unscale` of that name gives the first one back. `scaleNum` applies to its argument the
operation its `switch` selects for the name, and over the real numbers the operation of a
name followed by the operation of the name `unscale` gives returns every `v > 0`. In
binary64, with the square root correctly rounded, `sqrt` followed by `square` and
`square` followed by `sqrt` return a `v` between `2^-500` and `2^500` to within
`v / 2^50`, and `none` returns it unchanged. For a number `p ≠ 0`, `unscale` gives `1 / p`
rounded, and for `|p|` between `2^-1000` and `2^1000` the `unscale` of that is within
`|p| / 2^51` of `p`. -/
theorem unscale_inverts_rounded (env : JSEnv) (hsqrt : ∀ x, env.sqrt x = x.sqrtIEEE) :
    (∀ name ∈ knownScales, ∃ inv, inv ∈ knownScales ∧
      unscale (.str name) = .ok (.str inv) ∧ unscale (.str inv) = .ok (.str name)) ∧
    (∀ name num, scaleNum env num (.str name)
      = match scaleByName (fun x n => env.pow x (.fin n)) env.sqrt env.cbrt env.log env.exp
          name num with
        | some w => .ok w
        | none => .error (.invalidScaleName name)) ∧
    (∀ name ∈ knownScales, ∀ v : ℝ, 0 < v → ∃ inv w,
      unscale (.str name) = .ok (.str inv) ∧
      scaleByName (fun x n => x ^ n) Real.sqrt (fun x => x ^ (3 : ℝ)⁻¹) Real.log Real.exp
        name v = some w ∧
      scaleByName (fun x n => x ^ n) Real.sqrt (fun x => x ^ (3 : ℝ)⁻¹) Real.log Real.exp
        inv w = some v) ∧
    (∀ v, scaleNum env v (.str "none") = .ok v) ∧
    (∀ v : ℚ, 1 / 2 ^ 500 ≤ v → v ≤ 2 ^ 500 →
      scaleNum env (.fin v) (.str "sqrt") = .ok (.fin (sqrtDouble v)) ∧
      scaleNum env (.fin (sqrtDouble v)) (.str "square")
        = .ok (.fin (roundDouble (sqrtDouble v * sqrtDouble v))) ∧
      |roundDouble (sqrtDouble v * sqrtDouble v) - v| ≤ v / 2 ^ 50) ∧
    (∀ v : ℚ, 1 / 2 ^ 500 ≤ v → v ≤ 2 ^ 500 →
      scaleNum env (.fin v) (.str "square") = .ok (.fin (roundDouble (v * v))) ∧
      scaleNum env (.fin (roundDouble (v * v))) (.str "sqrt")
        = .ok (.fin (sqrtDouble (roundDouble (v * v)))) ∧
      |sqrtDouble (roundDouble (v * v)) - v| ≤ v / 2 ^ 50) ∧
    (∀ p : ℚ, p ≠ 0 → unscale (.num (.fin p)) = .ok (.num (JSNum.ofExact (1 / p)))) ∧
    (∀ p : ℚ, 1 / 2 ^ 1000 ≤ |p| → |p| ≤ 2 ^ 1000 →
      unscale (.num (.fin p)) = .ok (.num (.fin (roundDouble (1 / p)))) ∧
      unscale (.num (.fin (roundDouble (1 / p))))
        = .ok (.num (.fin (roundDouble (1 / roundDouble (1 / p))))) ∧
      |roundDouble (1 / roundDouble (1 / p)) - p| ≤ |p| / 2 ^ 51) := by
  have hu8 : (1 : ℚ) / 2 ^ 53 ≤ 1 / 8 := by norm_num
  have h8u : ∀ v : ℚ, v * (8 * (1 / 2 ^ 53)) = v / 2 ^ 50 := by
    intro v
    have : (8 : ℚ) * (1 / 2 ^ 53) = 1 / 2 ^ 50 := by norm_num
    rw [this, mul_one_div]
  have h500 : (0 : ℚ) < 2 ^ 500 := by positivity
  have hk : (2 : ℚ) ^ 1000 = 2 ^ 500 * 2 ^ 500 := by rw [← pow_add]
  have hk2 : (1 : ℚ) / 2 ^ 1000 = 1 / 2 ^ 500 * (1 / 2 ^ 500) := by
    rw [hk, one_div_mul_one_div]
  have hbig : (2 : ℚ) ^ 1000 * 2 ≤ 2 ^ 1023 := by
    have h3 : (2 : ℚ) ^ 1023 = 2 ^ 1000 * 2 ^ 23 := by rw [← pow_add]
    rw [h3]
    exact mul_le_mul_of_nonneg_left (by norm_num) (by positivity)
  have hsmall : (1 : ℚ) / 2 ^ 1000 ≤ 1 / 2 ^ 500 / 2 := by
    rw [div_div]
    apply one_div_le_one_div_of_le (by positivity)
    rw [hk]
    exact mul_le_mul_of_nonneg_left (by norm_num) h500.le
  refine ⟨?_, ?_, ?_, fun v => rfl, ?_, ?_, unscale_num_fin, ?_⟩
  · intro name hname
    simp only [knownScales, List.mem_cons, List.mem_singleton, List.not_mem_nil,
      or_false] at hname
    rcases hname with rfl | rfl | rfl | rfl | rfl | rfl | rfl
    · exact ⟨"none", by decide, by decide, by decide⟩
    · exact ⟨"sqrt", by decide, by decide, by decide⟩
    · exact ⟨"square", by decide, by decide, by decide⟩
    · exact ⟨"cbrt", by decide, by decide, by decide⟩
    · exact ⟨"cube", by decide, by decide, by decide⟩
    · exact ⟨"exp", by decide, by decide, by decide⟩
    · exact ⟨"log", by decide, by decide, by decide⟩
  · intro name num
    unfold scaleNum scaleByName
    simp only
    split_ifs <;> rfl
  · intro name hname v hv
    simp only [knownScales, List.mem_cons, List.mem_singleton, List.not_mem_nil,
      or_false] at hname
    rcases hname with rfl | rfl | rfl | rfl | rfl | rfl | rfl
    · exact ⟨"none", v, by decide, by simp [scaleByName], by simp [scaleByName]⟩
    · exact ⟨"sqrt", v ^ 2, by decide, by simp [scaleByName],
        by simp [scaleByName, Real.sqrt_sq hv.le]⟩
    · exact ⟨"square", Real.sqrt v, by decide, by simp [scaleByName],
        by simp [scaleByName, Real.sq_sqrt hv.le]⟩
    · refine ⟨"cbrt", v ^ 3, by decide, by simp [scaleByName], ?_⟩
      have h := Real.pow_rpow_inv_natCast hv.le (show (3 : ℕ) ≠ 0 by norm_num)
      simp only [Nat.cast_ofNat] at h
      simp [scaleByName, h]
    · refine ⟨"cube", v ^ (3 : ℝ)⁻¹, by decide, by simp [scaleByName], ?_⟩
      have h := Real.rpow_inv_natCast_pow hv.le (show (3 : ℕ) ≠ 0 by norm_num)
      simp only [Nat.cast_ofNat] at h
      simp [scaleByName, h]
    · exact ⟨"exp", Real.log v, by decide, by simp [scaleByName],
        by simp [scaleByName, Real.exp_log hv]⟩
    · exact ⟨"log", Real.exp v, by decide, by simp [scaleByName],
        by simp [scaleByName, Real.log_exp]⟩
  · intro v hlo hhi
    have hv : (0 : ℚ) < v := lt_of_lt_of_le (by positivity) hlo
    obtain ⟨hs0, hs1, hs2⟩ := sqrtDouble_spec v hv
    rw [sq] at hs1 hs2
    have hX0 : 0 < sqrtDouble v * sqrtDouble v := mul_pos hs0 hs0
    have c1 : (1 : ℚ) / 2 ≤ (1 - 1 / 2 ^ 53) ^ 2 := by norm_num
    have c2 : (1 + 1 / 2 ^ 53 : ℚ) ^ 2 ≤ 2 := by norm_num
    have hXhi : sqrtDouble v * sqrtDouble v ≤ 2 * v := by
      have := mul_le_mul_of_nonneg_left c1 hX0.le
      linarith
    have hXlo : v / 2 ≤ sqrtDouble v * sqrtDouble v := by
      have := mul_le_mul_of_nonneg_left c2 hX0.le
      linarith
    have h5 : (2 : ℚ) ^ 500 ≤ 2 ^ 1000 := pow_le_pow_right₀ (by norm_num) (by norm_num)
    have hXabs : |sqrtDouble v * sqrtDouble v| ≤ 2 ^ 1023 := by
      rw [abs_of_pos hX0]
      linarith
    have hXn : (1 : ℚ) / 2 ^ 1000 ≤ sqrtDouble v * sqrtDouble v := by linarith
    have hrel := roundDouble_rel _ (pow2_neg_1022_le hXn)
    rw [abs_of_pos hX0, div_eq_mul_one_div] at hrel
    refine ⟨?_, ?_, ?_⟩
    · show Except.ok (env.sqrt (JSNum.fin v)) = _
      rw [hsqrt, sqrtIEEE_pos v hv]
    · show Except.ok (env.pow (JSNum.fin (sqrtDouble v)) 2) = _
      rw [pow_two_fin, ofExact_eq_fin _ hXabs]
    · rw [← h8u]
      exact roundtrip_bound _ v _ (1 / 2 ^ 53) (by positivity) hu8 hX0.le hs1 hs2 hrel
  · intro v hlo hhi
    have hv : (0 : ℚ) < v := lt_of_lt_of_le (by positivity) hlo
    have hV0 : 0 < v * v := mul_pos hv hv
    have hVlo : (1 : ℚ) / 2 ^ 1000 ≤ v * v := by
      rw [hk2]
      exact mul_le_mul hlo hlo (by positivity) hv.le
    have hVhi : v * v ≤ 2 ^ 1000 := by
      rw [hk]
      exact mul_le_mul hhi hhi hv.le h500.le
    have hVabs : |v * v| ≤ 2 ^ 1023 := by
      rw [abs_of_pos hV0]
      have : (0 : ℚ) ≤ 2 ^ 1000 := by positivity
      linarith
    have hrel := roundDouble_rel _ (pow2_neg_1022_le hVlo)
    rw [abs_of_pos hV0, div_eq_mul_one_div] at hrel
    have hq0 : 0 < roundDouble (v * v) := by
      have h1 := (abs_le.mp hrel).1
      have h2 : v * v * (1 / 2 ^ 53) ≤ v * v * (1 / 8) := mul_le_mul_of_nonneg_left hu8 hV0.le
      linarith
    obtain ⟨hs0, hs1, hs2⟩ := sqrtDouble_spec _ hq0
    refine ⟨?_, ?_, ?_⟩
    · show Except.ok (env.pow (JSNum.fin v) 2) = _
      rw [pow_two_fin, ofExact_eq_fin _ hVabs]
    · show Except.ok (env.sqrt (JSNum.fin (roundDouble (v * v)))) = _
      rw [hsqrt, sqrtIEEE_pos _ hq0]
    · rw [← h8u]
      have hrel2 : |roundDouble (v * v) - v ^ 2| ≤ v ^ 2 * (1 / 2 ^ 53) := by
        rw [sq]
        exact hrel
      exact sqrt_bound _ v _ (1 / 2 ^ 53) hs0.le hv.le (by positivity) hu8 hrel2 hs1 hs2
  · intro p hlo hhi
    obtain ⟨a, b, c, d⟩ := recip_roundtrip p hlo hhi
    have hp : p ≠ 0 := by
      intro h
      rw [h, abs_zero] at hlo
      have : (0 : ℚ) < 1 / 2 ^ 1000 := by positivity
      linarith
    refine ⟨?_, ?_, d⟩
    · rw [unscale_num_fin p hp, ofExact_eq_fin _ a]
    · rw [unscale_num_fin _ b, ofExact_eq_fin _ c]

theorem unscale_inverts_rounded_witness :
    (∀ x, refEnv.sqrt x = x.sqrtIEEE) ∧
    scaleNum refEnv (.fin 2) (.str "sqrt") = .ok (.fin (sqrtDouble 2)) ∧
    scaleNum refEnv (.fin (sqrtDouble 2)) (.str "square")
      = .ok (.fin (roundDouble (sqrtDouble 2 * sqrtDouble 2))) ∧
    |roundDouble (sqrtDouble 2 * sqrtDouble 2) - 2| ≤ 2 / 2 ^ 50 ∧
    roundDouble (sqrtDouble 2 * sqrtDouble 2) = 4503599627370497 / 2 ^ 51 :=
  ⟨fun _ => rfl,
    ((unscale_inverts_rounded refEnv (fun _ => rfl)).2.2.2.2.1 2
      (le_trans (one_div_le_one_div_of_le (by norm_num) (one_le_pow₀ (by norm_num)))
        (by norm_num))
      (le_trans (by norm_num) (pow_le_pow_right₀ (by norm_num : (1 : ℚ) ≤ 2)
        (by norm_num : 1 ≤ 500)))).1,
    ((unscale_inverts_rounded refEnv (fun _ => rfl)).2.2.2.2.1 2
      (le_trans (one_div_le_one_div_of_le (by norm_num) (one_le_pow₀ (by norm_num)))
        (by norm_num))
      (le_trans (by norm_num) (pow_le_pow_right₀ (by norm_num : (1 : ℚ) ≤ 2)
        (by norm_num : 1 ≤ 500)))).2.1,
    ((unscale_inverts_rounded refEnv (fun _ => rfl)).2.2.2.2.1 2
      (le_trans (one_div_le_one_div_of_le (by norm_num) (one_le_pow₀ (by norm_num)))
        (by norm_num))
      (le_trans (by norm_num) (pow_le_pow_right₀ (by norm_num : (1 : ℚ) ≤ 2)
        (by norm_num : 1 ≤ 500)))).2.2,
    by decide!⟩

/-! ### More of `util.js` -/

/-- C25: `unscale` does not throw on a string that is no scale name: every string gives a
value, the name `bogus` gives `undefined`; only a scale that is neither `null`, a number
nor a string throws. -/
theorem unscale_unknown_name_returns :
    (∀ name : String, ∃ r, unscale (.str name) = .ok r) ∧
    "bogus" ∉ knownScales ∧ unscale (.str "bogus") = .ok .null ∧
    unscale .other = .error .invalidScaleType := by
  refine ⟨fun name => ?_, by decide, rfl, rfl⟩
  unfold unscale
  simp only
  split_ifs <;> exact ⟨_, rfl⟩

/-- C26: `listCatsW` adds a `NaN` weight to the sum: for the categories `a` and `b` with the
weights `1` and `NaN`, the map holds `a` alone, with the weight 1, and the returned sum
is `NaN`, not 1. -/
theorem listCatsW_nan_weight_in_sum :
    listCatsW ["a", "b"] [1, .nan] = ([("a", 1)], .nan) := by
  decide!

/-- C27: in `palette11to101` the step of the red channel is added to all three channels
and the entry after a stop repeats the stop: for a palette from green `00ff00` to red
`ff0000` the result has 101 entries, entry 1 is `0,255,0` where the linear ramp has
`26,230,0`, and entry 2 is `26,281,26` where it has `51,204,0`, with a green component
above 255. -/
theorem palette11to101_red_step_on_all_channels :
    (palette11to101 refEnv greenToRed).map List.length = .ok 101 ∧
    (palette11to101 refEnv greenToRed).map (fun res => res.take 3)
      = .ok ["0,255,0", "0,255,0", "26,281,26"] ∧
    (palette11to101 refEnv greenToRed).map (fun res => res.get? 10) = .ok (some "255,0,0") := by
  decide!

/-! ### The renderer and the transformed arrays -/

/-- C28: for a numeric colour value of 0 the renderer and the transform disagree: with the
colour bound to the values -1, 0 and 1, `transColorForDisplay` stores the entry 50 of the
colour map for the middle point, and `renderArena` draws the point in black. -/
theorem renderArena_zero_colour_is_black :
    (transColorForDisplay refEnv zeroColorState).2 = none ∧
    (transColorForDisplay refEnv zeroColorState).1.trans.color
      = [some "0,0,0", some "50,0,0", some "100,0,0"] ∧
    flagAt zeroColorState.mask 1 = false ∧
    colorAt refEnv zeroColorState.view zeroColorState.data 1 = .ok (some "0,0,0") ∧
    (arenaPoint refEnv zeroColorState 1).map (Option.map (fun q => q.1))
      = .ok (some "rgba(0,0,0,1)") := by
  decide!

/-! ### The pick count -/

theorem countTrue_foldl (l : List Bool) (acc : Nat) :
    l.foldl (fun res b => if b then res + 1 else res) acc = acc + l.count true := by
  induction l generalizing acc with
  | nil => simp
  | cons b l ih =>
    rw [List.foldl_cons, ih]
    cases b <;> simp; omega

theorem countTrue_eq_count (l : List Bool) : countTrue l = l.count true := by
  unfold countTrue
  rw [countTrue_foldl]
  simp

theorem countTrue_map_false (l : List Bool) : countTrue (l.map (fun _ => false)) = 0 := by
  rw [countTrue_eq_count]
  induction l with
  | nil => rfl
  | cons b l ih => simpa using ih

theorem count_set_true (l : List Bool) (i : Nat) (v : Bool) (h : i < l.length) :
    (l.set i v).count true + (if l.getD i false then 1 else 0)
      = l.count true + (if v then 1 else 0) := by
  induction l generalizing i with
  | nil => simp at h
  | cons b l ih =>
    cases i with
    | zero => cases b <;> cases v <;> simp
    | succ i =>
      have h2 : i < l.length := by simpa using h
      have := ih i h2
      cases b <;> simp [List.count_cons] at this ⊢ <;> omega

theorem countTrue_setAt (l : List Bool) (i : Nat) (v : Bool) :
    countTrue (setAt l i v false) + (if flagAt l i then 1 else 0)
      = countTrue l + (if v then 1 else 0) := by
  rw [countTrue_eq_count, countTrue_eq_count]
  unfold setAt flagAt
  by_cases h : i < l.length
  · rw [if_pos h]
    exact count_set_true l i v h
  · rw [if_neg h]
    have hl : l.length ≤ i := Nat.le_of_not_lt h
    have hg : l.getD i false = false := by
      rw [List.getD_eq_getElem?_getD, List.getElem?_eq_none hl]; rfl
    rw [hg]
    cases v <;> simp [List.count_append, List.count_replicate]

theorem pickCounted_clearSelection (mo : MainObj) (e : MouseEvent) (h : PickCounted mo) :
    PickCounted (clearSelection mo e) := by
  unfold clearSelection
  cases e.shiftKey
  · simp only [Bool.not_false, if_true, PickCounted, countTrue_map_false]
    rfl
  · simp only [Bool.not_true, Bool.false_eq_true, if_false]
    exact h

theorem pickCounted_togglePick (mo : MainObj) (k : Nat) (h : PickCounted mo) :
    PickCounted (togglePick mo k) := by
  unfold PickCounted at h
  unfold togglePick
  have hs := countTrue_setAt mo.pick k
  by_cases hk : flagAt mo.pick k = true
  · have h1 := hs false
    simp only [hk, if_true] at h1 ⊢
    show mo.cache.npick - 1 = (countTrue (setAt mo.pick k false false) : Int)
    simp at h1
    omega
  · have hk2 : flagAt mo.pick k = false := by simpa using hk
    have h1 := hs true
    simp only [hk2, Bool.false_eq_true, if_false] at h1 ⊢
    show mo.cache.npick + 1 = (countTrue (setAt mo.pick k true false) : Int)
    simp at h1
    omega

/-- C29: a click keeps the pick count consistent: when `cache.npick` is the number of true
entries of the pick vector before `canvasMouseClick`, it is so afterwards, in every
branch of the handler and also when the hit test throws. -/
theorem canvasMouseClick_pick_count (env : JSEnv) (e : MouseEvent) (mo : MainObj)
    (h : mo.cache.npick = (countTrue mo.pick : Int)) :
    (canvasMouseClick env e mo).1.cache.npick
      = (countTrue (canvasMouseClick env e mo).1.pick : Int) := by
  have hc : PickCounted (clearSelection mo e) := pickCounted_clearSelection mo e h
  show PickCounted (canvasMouseClick env e mo).1
  unfold canvasMouseClick
  by_cases hm : mo.stat.mousemove = true
  · simp only [hm, if_true]; exact h
  · have hm2 : mo.stat.mousemove = false := by simpa using hm
    simp only [hm2, Bool.false_eq_true, if_false]
    by_cases hd : mo.stat.drawing = true
    · simp only [hd, if_true]; exact h
    · have hd2 : mo.stat.drawing = false := by simpa using hd
      simp only [hd2, Bool.false_eq_true, if_false]
      by_cases hn : mo.cache.nctg = 0
      · simp only [hn, if_true]; exact h
      · simp only [hn, if_false]
        rcases hloop : forUpTo mo.cache.nctg
          (hitStep env (clearSelection mo e) (mousePos mo.view e).1 (mousePos mo.view e).2) []
          with ⟨arr, err⟩
        cases err with
        | some err => exact hc
        | none =>
          simp only
          cases hs : jsSort (fun a b : Nat × JSNum => a.2 - b.2) arr with
          | nil => exact hc
          | cons hit rest => exact pickCounted_togglePick _ _ hc

theorem canvasMouseClick_pick_count_witness :
    pickedState.cache.npick = (countTrue pickedState.pick : Int) ∧
    (canvasMouseClick refEnv centreClick pickedState).1.cache.npick
      = (countTrue (canvasMouseClick refEnv centreClick pickedState).1.pick : Int) :=
  ⟨by decide!, canvasMouseClick_pick_count refEnv centreClick pickedState (by decide!)⟩

/-! ### The discrete colour map -/

/-- C30: `updateColorMap` does not rank the categories by frequency when one of them has
the name of a member of `Object.prototype`. For the colour column with the categories `a`
twice, `constructor` once and `b` three times and a map of one colour, the count of
`constructor` starts from the member the object `cats` inherits and becomes a string,
the comparison function of the sort gives `NaN` against it, the order of insertion
stays, and the map holds `a`, of frequency 2, where `b` has the frequency 3. -/
theorem updateColorMap_inherited_name :
    getCol inheritedNameState.data inheritedNameState.view.color.i
      = some (.cat ["a", "a", "constructor", "b", "b", "b"]) ∧
    inheritedNameState.view.ncolor = 1 ∧
    rankedCats ["a", "a", "constructor", "b", "b", "b"]
      = [("a", .count 2), ("constructor", .text "function Object() \x7b [native code] \x7d1"),
         ("b", .count 3)] ∧
    (updateColorMap ["ff0000", "00ff00"] inheritedNameState).view.discmap
      = [("a", "ff0000")] := by
  decide!

end Binarena
